import Mathlib

/-!
# cppserver: request parsing and routing

A shallow embedding of the request parser (`request.cpp`, `url.cpp`) and of the
router (`router.cpp`) of the cppserver HTTP server, followed by theorems about
them.

Conventions of the embedding:

* a `std::string` is a `List Char` (`Str`); one `Char` stands for one byte;
* a pointer into a `std::vector` is the index of the element it points to,
  `nullptr` is `none`;
* a function that throws returns `Except String _`; `exit(1)` is an error too;
* `size_t` arithmetic is arithmetic modulo `2 ^ 64`;
* the two external libraries, PCRE2 and libcurl, are parameters of the
  functions that call them.
-/

namespace CppServer

/-! ## Strings -/

/-- A `std::string`. -/
abbrev Str := List Char

/-- The modulus of `size_t` arithmetic. -/
def SIZE_MOD : Nat := 2 ^ 64

/-- Subtraction of two `size_t` values. -/
def sizeSub (a b : Nat) : Nat := (a % SIZE_MOD + SIZE_MOD - b % SIZE_MOD) % SIZE_MOD

/-- The C string that `s.data()` / `s.c_str()` denotes: the bytes before the
first NUL byte. -/
def cstr (s : Str) : Str := s.takeWhile (fun c => c != '\x00')

/-- The position of the first occurrence of `sub` in `s`, as returned by
`std::string::find(sub)`; `none` is `npos`. -/
def find (sub : Str) : Str → Option Nat
  | [] => if sub.isEmpty then some 0 else none
  | c :: cs => if sub.isPrefixOf (c :: cs) then some 0 else (find sub cs).map (· + 1)

/-- The function `strstr(s.data(), sub.data())`, as an offset from `s.data()`;
`none` is the null pointer. The search stops at the first NUL byte of `s`. -/
def strstr (s sub : Str) : Option Nat := find (cstr sub) (cstr s)

/-- The call `s.substr(pos, len)`: throws `std::out_of_range` when `pos` is
past the end, and is clamped to the end of `s` otherwise. -/
def substr (s : Str) (pos len : Nat) : Except String Str :=
  if pos > s.length then .error "basic_string::substr" else .ok ((s.drop pos).take len)

/-- The function `std::tolower` in the "C" locale. -/
def tolower (c : Char) : Char :=
  if 'A' ≤ c ∧ c ≤ 'Z' then Char.ofNat (c.toNat + 32) else c

/-- The function `std::isspace` in the "C" locale. -/
def isspace (c : Char) : Bool :=
  c == ' ' || c == '\t' || c == '\n' || c == '\x0b' || c == '\x0c' || c == '\r'

/-- The four-iterator `std::equal` with a binary predicate. -/
def equal (p : Char → Char → Bool) : Str → Str → Bool
  | [], [] => true
  | a :: as, b :: bs => p a b && equal p as bs
  | _, _ => false

/-- The function `caseInsensitiveStringCompare` of `request.cpp`. -/
def caseInsensitiveStringCompare (str1 str2 : Str) : Bool :=
  if str1.length ≠ str2.length then false
  else equal (fun ch1 ch2 => tolower ch1 == tolower ch2) str1 str2

/-! ## Methods and headers (`request.hpp`, `url.hpp`) -/

/-- The enumeration `HttpMethod`. -/
inductive HttpMethod where
  | INVALID | OPTIONS | GET | POST | PUT | PATCH | DELETE
  deriving DecidableEq, Repr

/-- The function `method_fromstring`: an exact lookup in the table of the six
method names. -/
def method_fromstring (method : Str) : HttpMethod :=
  if method = "OPTIONS".toList then .OPTIONS
  else if method = "GET".toList then .GET
  else if method = "POST".toList then .POST
  else if method = "PUT".toList then .PUT
  else if method = "PATCH".toList then .PATCH
  else if method = "DELETE".toList then .DELETE
  else .INVALID

/-- The function `isSafeMethod`. -/
def isSafeMethod : HttpMethod → Bool
  | .OPTIONS => true
  | .GET => true
  | _ => false

/-- The struct `Header`. -/
structure Header where
  name : Str
  value : Str
  deriving DecidableEq, Repr

/-! ## Router (`router.hpp`, `router.cpp`) -/

/-- The enumeration `RouteType`. -/
inductive RouteType where
  | NormalRoute | StaticRoute
  deriving DecidableEq, Repr

/-- A compiled PCRE2 pattern, seen through `pcre2_match(code, subject, length,
0, 0, match_data, NULL)`: `none` when the return code is negative, and
`some (ovector[0], ovector[1])`, the span of the match, otherwise. -/
abbrev Pcre2Code := Str → Option (Nat × Nat)

/-- The class `Route`. A handler is a function pointer: `none` is `nullptr`,
`some k` names the `k`-th handler of the program. -/
structure Route where
  method : HttpMethod
  pattern : Str
  compiledPattern : Pcre2Code
  handler : Option Nat
  type : RouteType
  dirname : Str

/-- The local `anchoredPattern` of the `Route` constructor, for a non-empty
`pattern` (`front()` and `back()` are `head?` and `getLast?`). -/
def Route.anchoredPattern (type : RouteType) (pattern : Str) : Str :=
  if type = .NormalRoute then
    if pattern.head? ≠ some '^' ∧ pattern.getLast? ≠ some '$' then
      ['^'] ++ pattern ++ ['$']
    else if pattern.head? ≠ some '^' then
      ['^'] ++ pattern
    else if pattern.getLast? ≠ some '$' then
      pattern ++ ['$']
    else
      pattern
  else
    pattern

/-- The constructor `Route::Route(method, pattern, handler, type)`. The two
`exit(1)` paths (empty pattern, pattern that does not compile) are errors.
`pcre2_compile` reads the pattern as a NUL-terminated string. -/
def Route.new (pcre2_compile : Str → Option Pcre2Code) (method : HttpMethod)
    (pattern : Str) (handler : Option Nat) (type : RouteType) : Except String Route :=
  if pattern.isEmpty then
    .error "pattern must be at least one character"
  else
    let anchoredPattern := Route.anchoredPattern type pattern
    match pcre2_compile (cstr anchoredPattern) with
    | none => .error "PCRE2 compilation error"
    | some compiledPattern =>
      .ok { method := method, pattern := anchoredPattern,
            compiledPattern := compiledPattern, handler := handler,
            type := type, dirname := [] }

/-- The method `Route::setDirname`. -/
def Route.setDirname (route : Route) (dir : Str) : Route :=
  if route.type = .StaticRoute then { route with dirname := dir } else route

/-- The method `Router::GET`; the global vector `routes` is passed explicitly. -/
def Router.GET (pcre2_compile : Str → Option Pcre2Code) (routes : List Route)
    (pattern : Str) (handler : Option Nat) : Except String (List Route) := do
  let route ← Route.new pcre2_compile .GET pattern handler .NormalRoute
  pure (routes ++ [route])

/-- The method `Router::POST`. -/
def Router.POST (pcre2_compile : Str → Option Pcre2Code) (routes : List Route)
    (pattern : Str) (handler : Option Nat) : Except String (List Route) := do
  let route ← Route.new pcre2_compile .POST pattern handler .NormalRoute
  pure (routes ++ [route])

/-- The method `Router::PUT`. -/
def Router.PUT (pcre2_compile : Str → Option Pcre2Code) (routes : List Route)
    (pattern : Str) (handler : Option Nat) : Except String (List Route) := do
  let route ← Route.new pcre2_compile .PUT pattern handler .NormalRoute
  pure (routes ++ [route])

/-- The method `Router::PATCH`. -/
def Router.PATCH (pcre2_compile : Str → Option Pcre2Code) (routes : List Route)
    (pattern : Str) (handler : Option Nat) : Except String (List Route) := do
  let route ← Route.new pcre2_compile .PATCH pattern handler .NormalRoute
  pure (routes ++ [route])

/-- The method `Router::DELETE`. -/
def Router.DELETE (pcre2_compile : Str → Option Pcre2Code) (routes : List Route)
    (pattern : Str) (handler : Option Nat) : Except String (List Route) := do
  let route ← Route.new pcre2_compile .DELETE pattern handler .NormalRoute
  pure (routes ++ [route])

/-- The method `Router::OPTIONS`. -/
def Router.OPTIONS (pcre2_compile : Str → Option Pcre2Code) (routes : List Route)
    (pattern : Str) (handler : Option Nat) : Except String (List Route) := do
  let route ← Route.new pcre2_compile .OPTIONS pattern handler .NormalRoute
  pure (routes ++ [route])

/-- The method `Router::STATIC`. -/
def Router.STATIC (pcre2_compile : Str → Option Pcre2Code) (routes : List Route)
    (pattern : Str) (dirname : Str) : Except String (List Route) := do
  let route ← Route.new pcre2_compile .GET pattern none .StaticRoute
  pure (routes ++ [route.setDirname dirname])

/-- One iteration of the `for` loop of `matchBestRoute` on a Normal route: the
new values of `bestMatch` and `bestMatchLength`. The route under the loop
variable has index `i`. -/
def matchBestRoute.normalStep (method : HttpMethod) (path : Str) (route : Route) (i : Nat)
    (bestMatch : Option Nat) (bestMatchLength : Nat) : Option Nat × Nat :=
  let subject_length := path.length
  match route.compiledPattern path with
  | some (ov0, ov1) =>
    if route.method = method then
      let matchLength := sizeSub ov1 ov0
      if matchLength = subject_length then
        if matchLength > bestMatchLength then (some i, matchLength)
        else (bestMatch, bestMatchLength)
      else (bestMatch, bestMatchLength)
    else (bestMatch, bestMatchLength)
  | none => (bestMatch, bestMatchLength)

/-- The `for` loop of `matchBestRoute` over the routes from index `i` on. A
Static route whose pattern equals the path ends the loop (`break`). The
allocation of the match data is taken to succeed, and `RouteType` has no third
value, so neither `return NULL` inside the loop is reachable. -/
def matchBestRoute.loop (method : HttpMethod) (path : Str) :
    List Route → Nat → Option Nat → Nat → Option Nat
  | [], _, bestMatch, _ => bestMatch
  | route :: rest, i, bestMatch, bestMatchLength =>
    match route.type with
    | .NormalRoute =>
      let st := matchBestRoute.normalStep method path route i bestMatch bestMatchLength
      matchBestRoute.loop method path rest (i + 1) st.1 st.2
    | .StaticRoute =>
      if route.pattern = path then some i
      else matchBestRoute.loop method path rest (i + 1) bestMatch bestMatchLength

/-- The function `matchBestRoute(method, path)` over the route table `routes`:
the index of the route it returns a pointer to, or `none` for `NULL`. -/
def matchBestRoute (routes : List Route) (method : HttpMethod) (path : Str) : Option Nat :=
  matchBestRoute.loop method path routes 0 none 0

/-! ## URL (`url.hpp`, `url.cpp`) -/

/-- What libcurl hands back for a URL that `curl_url_set` accepts: the five
parts read with `curl_url_get`, each `none` when libcurl leaves the pointer
`NULL`. -/
structure CurlParts where
  scheme : Option Str
  host : Option Str
  path : Option Str
  query : Option Str
  port : Option Str
  deriving DecidableEq, Repr

/-- The struct `URL`. -/
structure URL where
  original_url : Str
  scheme : Str
  host : Str
  path : Str
  query : Str
  port : Str
  deriving DecidableEq, Repr

/-- The constructor `URL::URL(url)`. libcurl reads `url.data()`, a
NUL-terminated string. In the `http` branch the source assigns the integer
`80` to a `std::string`, which stores the single character of code 80. For a
URL that libcurl rejects the source throws `URL parsing failed: ` followed by
the text of `curl_url_strerror`; the model keeps the fixed part of that
message and leaves out the text of libcurl, so it says that the constructor
throws there, not with which bytes. -/
def URL.new (curl_url_set : Str → Option CurlParts) (url : Str) : Except String URL :=
  match curl_url_set (cstr url) with
  | none => .error "URL parsing failed"
  | some parts =>
    match parts.scheme with
    | none => .error "invalid scheme"
    | some m_scheme =>
      match parts.host with
      | none => .error "invalid host"
      | some m_host =>
        match parts.path with
        | none => .error "invalid path"
        | some m_path =>
          let query := match parts.query with
            | some m_query => m_query
            | none => []
          let port := match parts.port with
            | none =>
              if m_scheme = "https".toList then "443".toList
              else if m_scheme = "http".toList then [Char.ofNat 80]
              else []
            | some m_port => m_port
          .ok { original_url := url, scheme := m_scheme, host := m_host, path := m_path,
                query := query, port := port }

/-! ## Request (`request.hpp`, `request.cpp`) -/

/-- The constant `LF`. -/
def LF : Str := "\r\n".toList

/-- The constant `DOUBLE_LF`. -/
def DOUBLE_LF : Str := "\r\n\r\n".toList

/-- The constant `SCHEME`. -/
def SCHEME : Str := "http".toList

/-- The function `method_tostring`; it throws on `INVALID`. -/
def method_tostring : HttpMethod → Except String Str
  | .OPTIONS => .ok "OPTIONS".toList
  | .GET => .ok "GET".toList
  | .POST => .ok "POST".toList
  | .PUT => .ok "PUT".toList
  | .PATCH => .ok "PATCH".toList
  | .DELETE => .ok "DELETE".toList
  | .INVALID => .error "Invalid HttpMethod"

/-- The class `Request`. The map `queries` is a list of key/value pairs with
distinct keys. -/
structure Request where
  method : HttpMethod
  path : Str
  url : Option URL
  headers : List Header
  body : Str
  header_start_pos : Nat
  header_end_pos : Nat
  content_length : Nat
  queries : List (Str × Str)
  deriving DecidableEq, Repr

/-- The constructor `Request::Request()`. It does not initialise the three
`size_t` members: their indeterminate values are the parameters. -/
def Request.new (header_start_pos header_end_pos content_length : Nat) : Request :=
  { method := .INVALID, path := [], url := none, headers := [], body := [],
    header_start_pos := header_start_pos, header_end_pos := header_end_pos,
    content_length := content_length, queries := [] }

/-- The loop of `findRequestHeader`, from index `i` on. -/
def Request.findRequestHeader.loop (name : Str) : List Header → Nat → Option (Nat × Header)
  | [], _ => none
  | h :: rest, i =>
    if caseInsensitiveStringCompare h.name name then some (i, h)
    else Request.findRequestHeader.loop name rest (i + 1)

/-- The method `Request::findRequestHeader(name)`: the returned pointer is the
index of the header together with the header it points to. -/
def Request.findRequestHeader (self : Request) (name : Str) : Option (Nat × Header) :=
  Request.findRequestHeader.loop name self.headers 0

/-- The assignment `queries[key] = value` on the map. -/
def mapAssign (queries : List (Str × Str)) (key value : Str) : List (Str × Str) :=
  (key, value) :: queries.filter (fun pair => pair.1 != key)

/-- The method `Request::Query(key, defaultValue)`; the string pointed to. -/
def Request.Query (self : Request) (key defaultValue : Str) : Str :=
  match self.queries.find? (fun pair => pair.1 == key) with
  | some pair => pair.2
  | none => defaultValue

/-- The call `std::getline(stream, line)` on a fresh stream over `s`: it fails
(`none`) when no character can be extracted, and otherwise yields the text
before the first newline. -/
def getline (s : Str) : Option Str :=
  if s.isEmpty then none else some (s.takeWhile (fun c => c != '\n'))

/-- The extraction `stream >> str`: leading whitespace is skipped and the
characters up to the next whitespace are read. The result is the token and the
rest of the stream; `none` when the stream ends before a token starts, in
which case `str` keeps its value. -/
def extract (stream : Str) : Option (Str × Str) :=
  let s := stream.dropWhile isspace
  if s.isEmpty then none
  else some (s.takeWhile (fun c => !isspace c), s.dropWhile (fun c => !isspace c))

/-- The method `Request::ParseMethodAndPath`. -/
def Request.ParseMethodAndPath (self : Request) (req_data : Str) : Except String Request :=
  match getline req_data with
  | none => .error "Invalid Http request"
  | some requestLine =>
    let tokens : Str × Str :=
      match extract requestLine with
      | none => ([], self.path)
      | some (method_string, rest) =>
        match extract rest with
        | none => (method_string, self.path)
        | some (path, _) => (method_string, path)
    let method := method_fromstring tokens.1
    if method = .INVALID then .error "Invalid Http method"
    else .ok { self with method := method, path := tokens.2 }

/-- The lambda `parseLine` of `ParseHeaders`: it appends a header, or throws. -/
def Request.parseLine (headers : List Header) (line : Str) : Except String (List Header) :=
  match find ": ".toList line with
  | some pos => .ok (headers ++ [{ name := line.take pos, value := line.drop (pos + 2) }])
  | none => .error "Invalid header format"

/-- The `while` loop of `ParseHeaders` that splits `header_content` at each
CRLF; it returns what is left of `header_content` and the lines collected.
Every iteration erases at least two characters, so `fuel = header_content.length`
is never used up before the loop ends. -/
def Request.splitHeaderLines : Nat → Str → List Str → Str × List Str
  | 0, header_content, header_lines => (header_content, header_lines)
  | fuel + 1, header_content, header_lines =>
    match find "\r\n".toList header_content with
    | some pos =>
      Request.splitHeaderLines fuel (header_content.drop (pos + 2))
        (header_lines ++ [header_content.take pos])
    | none => (header_content, header_lines)

/-- The `for` loop of `ParseHeaders` over the header lines: a line that
`parseLine` rejects is logged and skipped. -/
def Request.parseHeaderLines (headers : List Header) (header_lines : List Str) : List Header :=
  header_lines.foldl
    (fun headers header =>
      match Request.parseLine headers header with
      | .ok headers1 => headers1
      | .error _ => headers)
    headers

/-- The value of `std::atoi(s.data())` as glibc computes it: `strtol` in base
10 (whitespace skipped, optional sign, digits, saturation at the bounds of
`long`) followed by the conversion to `int`. -/
def atoi (s : Str) : Int :=
  let s1 := (cstr s).dropWhile isspace
  let signed : Bool × Str :=
    match s1 with
    | '-' :: r => (true, r)
    | '+' :: r => (false, r)
    | _ => (false, s1)
  let digits := signed.2.takeWhile Char.isDigit
  let n : Nat := digits.foldl (fun acc c => acc * 10 + (c.toNat - '0'.toNat)) 0
  let l : Int := if signed.1 then max (-(n : Int)) (-(2 ^ 63)) else min (n : Int) (2 ^ 63 - 1)
  (l + 2 ^ 31) % 2 ^ 32 - 2 ^ 31

/-- The conversion of an `int` to `size_t`. -/
def intToSize (n : Int) : Nat := (n % (SIZE_MOD : Int)).toNat

/-- The search for the Content-Length header in `ParseHeaders`: the new value
of the member `content_length`. -/
def Request.parseContentLength (method : HttpMethod) (headers : List Header)
    (content_length : Nat) : Nat :=
  if !isSafeMethod method then
    match headers.find? (fun header =>
      caseInsensitiveStringCompare header.name "Content-Length".toList) with
    | some header => intToSize (atoi header.value)
    | none => content_length
  else content_length

/-- The `while` loop of `ParseHeaders` over the query string; it returns what
is left of `url->query` and the map. Every iteration erases at least one
character, so `fuel = query.length` is never used up before the loop ends. -/
def Request.queryLoop : Nat → Str → List (Str × Str) → Str × List (Str × Str)
  | 0, query, queries => (query, queries)
  | fuel + 1, query, queries =>
    match find ['&'] query with
    | some pos =>
      let key_value := query.take pos
      let queries1 :=
        match find ['='] key_value with
        | some equals_pos =>
          mapAssign queries (key_value.take equals_pos) (key_value.drop (equals_pos + 1))
        | none => queries
      Request.queryLoop fuel (query.drop (pos + 1)) queries1
    | none => (query, queries)

/-- The block of `ParseHeaders` that fills the map `queries` from `url->query`;
it returns the final `url->query` and the map. -/
def Request.parseQueries (query : Str) (queries : List (Str × Str)) :
    Str × List (Str × Str) :=
  if !query.isEmpty then
    let st := Request.queryLoop query.length query queries
    match find ['='] st.1 with
    | some equals_pos =>
      (st.1, mapAssign st.2 (st.1.take equals_pos) (st.1.drop (equals_pos + 1)))
    | none => st
  else (query, queries)

/-- The method `Request::ParseHeaders`. -/
def Request.ParseHeaders (curl_url_set : Str → Option CurlParts) (self : Request)
    (req_data : Str) : Except String Request :=
  match strstr req_data LF with
  | none => .error "cannot parse header end: Invalid HTTP format"
  | some header_start =>
    let header_start_pos := header_start + 2
    match strstr req_data DOUBLE_LF with
    | none => .error "cannot parse header end: Invalid HTTP format"
    | some header_end =>
      let header_end_pos := header_end
      let header_length := sizeSub header_end_pos header_start_pos
      match substr req_data header_start_pos header_length with
      | .error e => .error e
      | .ok content =>
        let header_content := content ++ ['\x00']
        let split := Request.splitHeaderLines header_content.length header_content []
        let header_lines := split.2 ++ [split.1]
        let headers := Request.parseHeaderLines self.headers header_lines
        let content_length :=
          Request.parseContentLength self.method headers self.content_length
        let self1 : Request :=
          { self with header_start_pos := header_start_pos, header_end_pos := header_end_pos,
                      headers := headers, content_length := content_length }
        match self1.findRequestHeader "Host".toList with
        | none => .error "Host header must be set for proper URL parsing"
        | some hostHeader =>
          let url_string := SCHEME ++ "://".toList ++ hostHeader.2.value ++ self1.path
          match URL.new curl_url_set url_string with
          | .error e => .error e
          | .ok url =>
            let parsed := Request.parseQueries url.query self1.queries
            .ok { self1 with url := some { url with query := parsed.1 }, queries := parsed.2 }

/-- The method `Request::ParseBody`. -/
def Request.ParseBody (self : Request) (req_data : Str) : Except String Request :=
  if isSafeMethod self.method then .ok self
  else
    match substr req_data (self.header_end_pos + 4) self.content_length with
    | .error e => .error e
    | .ok body => .ok { self with body := body }

/-- The method `Request::ParseHttp`. -/
def Request.ParseHttp (curl_url_set : Str → Option CurlParts) (self : Request)
    (req_data : Str) : Except String Request :=
  match self.ParseMethodAndPath req_data with
  | .error e => .error e
  | .ok self1 =>
    match self1.ParseHeaders curl_url_set req_data with
    | .error e => .error e
    | .ok self2 => self2.ParseBody req_data

/-- The method `Request::Body`. -/
def Request.Body (self : Request) : Str := self.body

/-- The method `Request::getMethod`. -/
def Request.getMethod (self : Request) : HttpMethod := self.method

/-- The method `Request::getHeaders`. -/
def Request.getHeaders (self : Request) : List Header := self.headers

/-! ## Status codes (`status.hpp`) -/

/-- Modelled from the spec: the enumeration `HttpStatus` of `status.hpp`, which
is not among the sources. A status is its integer code, the number that
`std::to_string(status)` prints. -/
abbrev HttpStatus := Nat

/-- Modelled from the spec: the enumerator `StatusOK` of `status.hpp`, the
code 200 of the specification. -/
def StatusOK : HttpStatus := 200

/-- Modelled from the spec: the enumerator `StatusPartialContent` of
`status.hpp`, the code 206 of the specification. -/
def StatusPartialContent : HttpStatus := 206

/-- Modelled from the spec: the enumerator `StatusRequestedRangeNotSatisfiable`
of `status.hpp`, the code 416 of the specification. -/
def StatusRequestedRangeNotSatisfiable : HttpStatus := 416

/-- Modelled from the spec: the enumerator `StatusInternalServerError` of
`status.hpp`, the code 500 of the specification. -/
def StatusInternalServerError : HttpStatus := 500

/-- Modelled from the spec: the function `StatusText` of `status.hpp`, on the
codes that the specification names, with their standard reason phrases; the
specification gives `OK` for 200. Every other code has the empty phrase here.
The functions below take `StatusText` as a parameter; this table serves the
concrete inputs. -/
def Modelled.StatusText (status : HttpStatus) : Str :=
  if status = 200 then "OK".toList
  else if status = 206 then "Partial Content".toList
  else if status = 400 then "Bad Request".toList
  else if status = 404 then "Not Found".toList
  else if status = 416 then "Requested Range Not Satisfiable".toList
  else if status = 500 then "Internal Server Error".toList
  else []

/-- The function `std::to_string` on an integer. -/
def to_string (n : Int) : Str := (toString n).toList

/-! ## Client (`client.hpp`, `client.cpp`) -/

/-- The result of one call of `send` on the client socket: a count of bytes
accepted, or -1 with `errno` set to `EAGAIN` or `EWOULDBLOCK`, or -1 with
another `errno`. -/
inductive SendResult where
  | wrote (n : Nat)
  | wouldBlock
  | failed
  deriving DecidableEq, Repr

/-- The peer of a connection: what the call number `k` of `send` on the socket
returns when it is offered `data`. -/
abbrev Socket := Nat → Str → SendResult

/-- The state of a connection: the bytes that the socket has accepted so far,
in order, and the number of calls of `send` made. -/
structure Conn where
  wire : Str
  calls : Nat
  deriving DecidableEq, Repr

/-- One call `send(client_fd, data, size, 0)`. The socket accepts at most
`size` bytes, and the bytes it accepts go on the wire. -/
def send (sock : Socket) (conn : Conn) (data : Str) : SendResult × Conn :=
  match sock conn.calls data with
  | .wrote n =>
    (.wrote (min n data.length),
      { wire := conn.wire ++ data.take n, calls := conn.calls + 1 })
  | .wouldBlock => (.wouldBlock, { conn with calls := conn.calls + 1 })
  | .failed => (.failed, { conn with calls := conn.calls + 1 })

/-- The method `Client::Send`, as the `int` in which `Response` stores its
result: the count of bytes that the single call of `send` accepted, or -1 when
`send` returned -1. A count is taken to fit an `int`. -/
def Client.Send (sock : Socket) (conn : Conn) (data : Str) : Int × Conn :=
  match send sock conn data with
  | (.wrote n, conn1) => ((n : Int), conn1)
  | (.wouldBlock, conn1) => (-1, conn1)
  | (.failed, conn1) => (-1, conn1)

/-! ## Response (`response.hpp`, `response.cpp`) -/

/-- The class `Response`. The members `client` and `request` are passed to the
methods that use them. -/
structure Response where
  chunked : Bool
  stream_complete : Bool
  status : HttpStatus
  headers : List Header
  headers_sent : Bool
  body_sent : Bool
  deriving DecidableEq, Repr

/-- How a call ends: it returns a value, or it throws, or, for a call with a
retry loop, the fuel of the model runs out while the code is still looping. -/
inductive Ret (α : Type) where
  | returned (value : α)
  | threw (what : String)
  | spinning
  deriving DecidableEq, Repr

/-- The end of a call on a `Response`, with the response and the connection as
the call leaves them. -/
structure Outcome (α : Type) where
  ret : Ret α
  response : Response
  conn : Conn

/-- The constructor `Response::Response(client, request)`. -/
def Response.new : Response :=
  { chunked := false, stream_complete := false, status := StatusOK, headers := [],
    headers_sent := false, body_sent := false }

/-- The method `Response::getStatus`. -/
def Response.getStatus (self : Response) : HttpStatus := self.status

/-- The method `Response::getHeaders`. -/
def Response.getHeaders (self : Response) : List Header := self.headers

/-- The method `Response::findResponseHeader(name)`; its loop and its
comparison are those of `Request::findRequestHeader`. -/
def Response.findResponseHeader (self : Response) (name : Str) : Option (Nat × Header) :=
  Request.findRequestHeader.loop name self.headers 0

/-- The method `Response::setChunked`. -/
def Response.setChunked (self : Response) (value : Bool) : Response :=
  { self with chunked := value }

/-- The method `Response::setStreamComplete`. -/
def Response.setStreamComplete (self : Response) (value : Bool) : Response :=
  { self with stream_complete := value }

/-- The method `Response::setStatus`. -/
def Response.setStatus (self : Response) (value : HttpStatus) : Response :=
  { self with status := value }

/-- The method `Response::setHeader`. -/
def Response.setHeader (self : Response) (name value : Str) : Response :=
  { self with headers := self.headers ++ [{ name := name, value := value }] }

/-- The `for` loop of `writeHeaders`: the header lines that it appends to
`headerData`. -/
def Response.headerLines : List Header → Str
  | [] => []
  | h :: rest =>
    (if !h.name.isEmpty then h.name ++ ": ".toList ++ h.value ++ "\r\n".toList else []) ++
      Response.headerLines rest

/-- The method `Response::writeHeaders`. -/
def Response.writeHeaders (StatusText : HttpStatus → Str) (sock : Socket) (self : Response)
    (conn : Conn) : Outcome Unit :=
  if self.headers_sent then
    { ret := .returned (), response := self, conn := conn }
  else
    let self1 := if self.status = 0 then { self with status := StatusOK } else self
    let headerData :=
      "HTTP/1.1 ".toList ++ to_string self1.status ++ " ".toList ++ StatusText self1.status ++
        "\r\n".toList ++ Response.headerLines self1.headers ++ "\r\n".toList
    let sent := Client.Send sock conn headerData
    if sent.1 = -1 then
      { ret := .threw "failed to send HTTP headers to client", response := self1, conn := sent.2 }
    else
      { ret := .returned (), response := { self1 with headers_sent := true }, conn := sent.2 }

/-- The method `Response::Send`. An exception thrown inside the `try` block is
caught there, and the method returns -1. -/
def Response.Send (StatusText : HttpStatus → Str) (sock : Socket) (self : Response)
    (conn : Conn) (data : Str) : Outcome Int :=
  if self.body_sent then
    { ret := .threw "body already sent", response := self, conn := conn }
  else
    let self1 := self.setHeader "Content-Length".toList (to_string data.length)
    let contentType := self1.findResponseHeader "Content-Type".toList
    let self2 :=
      match contentType with
      | none => self1.setHeader "Content-Type".toList "text/html".toList
      | some _ => self1
    let flushed := self2.writeHeaders StatusText sock conn
    match flushed.ret with
    | .threw _ => { ret := .returned (-1), response := flushed.response, conn := flushed.conn }
    | .spinning => { ret := .spinning, response := flushed.response, conn := flushed.conn }
    | .returned _ =>
      let sent := Client.Send sock flushed.conn data
      if sent.1 = -1 then
        { ret := .returned (-1), response := flushed.response, conn := sent.2 }
      else
        { ret := .returned sent.1, response := { flushed.response with body_sent := true },
          conn := sent.2 }

/-! ## A stand-in for libcurl on plain URLs

The theorems below hold for every libcurl (`curl_url_set` is a parameter).
Concrete requests need a concrete one: this stand-in splits
`scheme://host[:port][/path][?query]` as libcurl does when every part is made
of plain letters, digits and the separators shown; an absent path is `/`. -/

/-- The stand-in for `curl_url_set` followed by the five `curl_url_get`. -/
def Plain.curl_url_set (url : Str) : Option CurlParts :=
  match find "://".toList url with
  | none => none
  | some pos =>
    let scheme := url.take pos
    let rest := url.drop (pos + 3)
    let authority := rest.takeWhile (fun c => c != '/' && c != '?')
    let tail := rest.dropWhile (fun c => c != '/' && c != '?')
    let host := authority.takeWhile (fun c => c != ':')
    let port := (authority.dropWhile (fun c => c != ':')).drop 1
    let path := tail.takeWhile (fun c => c != '?')
    let query := tail.dropWhile (fun c => c != '?')
    if scheme.isEmpty || host.isEmpty then none
    else
      some { scheme := some scheme, host := some host,
             path := some (if path.isEmpty then ['/'] else path),
             query := if query.isEmpty then none else some (query.drop 1),
             port := if port.isEmpty then none else some port }

/-! ## A stand-in for PCRE2 on literal patterns

The theorems below hold for every PCRE2 (`pcre2_compile` is a parameter).
Concrete route tables need a concrete one: this stand-in agrees with PCRE2 on
the patterns `lit`, `^lit`, `lit$` and `^lit$` in which `lit` holds no
metacharacter, and declines every other pattern. -/

/-- The characters that a literal may not hold. -/
def Literal.metachars : Str := "\\^$.[]|()?*+{}".toList

/-- Whether the literal `lit` occurs in `subject` at offset `i`, and, under a
closing `$`, ends at the end of the subject or before its final newline. -/
def Literal.matchAt (lit subject : Str) (anchorEnd : Bool) (i : Nat) : Bool :=
  lit.isPrefixOf (subject.drop i) &&
    (!anchorEnd || i + lit.length == subject.length ||
      (i + lit.length + 1 == subject.length && subject.getLast? == some '\n'))

/-- The compiled form of a literal pattern: the leftmost match. -/
def Literal.code (anchorStart anchorEnd : Bool) (lit : Str) : Pcre2Code := fun subject =>
  let starts := if anchorStart then [0] else List.range (subject.length + 1)
  (starts.find? (Literal.matchAt lit subject anchorEnd)).map fun i => (i, i + lit.length)

/-- The stand-in for `pcre2_compile`. -/
def Literal.pcre2_compile (pattern : Str) : Option Pcre2Code :=
  let anchorStart := pattern.head? == some '^'
  let p1 := if anchorStart then pattern.drop 1 else pattern
  let anchorEnd := p1.getLast? == some '$'
  let lit := if anchorEnd then p1.dropLast else p1
  if lit.all (fun c => !Literal.metachars.contains c) then
    some (Literal.code anchorStart anchorEnd lit)
  else none

/-! ## Route tables used as concrete inputs -/

/-- The Normal route that `GET("^$", handler)` builds. -/
def emptyPatternRoute (handler : Nat) : Route :=
  { method := .GET, pattern := "^$".toList, compiledPattern := Literal.code true true [],
    handler := some handler, type := .NormalRoute, dirname := [] }

/-- The Normal route that `GET("/a", handler 0)` builds. -/
def normalRouteA : Route :=
  { method := .GET, pattern := "^/a$".toList,
    compiledPattern := Literal.code true true "/a".toList,
    handler := some 0, type := .NormalRoute, dirname := [] }

/-- The Static route that `STATIC("/a", "/var/www")` builds. -/
def staticRouteA : Route :=
  { method := .GET, pattern := "/a".toList,
    compiledPattern := Literal.code false false "/a".toList,
    handler := none, type := .StaticRoute, dirname := "/var/www".toList }

/-! ## Notions used in the statements about the router -/

/-- A route qualifies for `(method, path)`: it is a Normal route registered for
`method` and the match of its compiled pattern spans the whole path, from
offset `0` to offset `path.length`. -/
def Route.qualifies (route : Route) (method : HttpMethod) (path : Str) : Prop :=
  route.type = .NormalRoute ∧ route.method = method ∧
    route.compiledPattern path = some (0, path.length)

/-- A compiled pattern reports spans that lie inside the subject. -/
def Route.spansInside (route : Route) (path : Str) : Prop :=
  ∀ ov0 ov1, route.compiledPattern path = some (ov0, ov1) → ov0 ≤ ov1 ∧ ov1 ≤ path.length

/-- A Static route whose raw pattern is exactly the path. -/
def Route.staticExact (route : Route) (path : Str) : Prop :=
  route.type = .StaticRoute ∧ route.pattern = path

/-- Whether a route qualifies can be computed. -/
instance Route.decidableQualifies (route : Route) (method : HttpMethod) (path : Str) :
    Decidable (route.qualifies method path) := by
  unfold Route.qualifies; infer_instance

/-- Whether a Static route matches a path exactly can be computed. -/
instance Route.decidableStaticExact (route : Route) (path : Str) :
    Decidable (route.staticExact path) := by
  unfold Route.staticExact; infer_instance

/-- The six registration methods for Normal routes, each with the method it
registers. -/
def Router.normalRegistrations :
    List (HttpMethod ×
      ((Str → Option Pcre2Code) → List Route → Str → Option Nat → Except String (List Route))) :=
  [(.GET, Router.GET), (.POST, Router.POST), (.PUT, Router.PUT), (.PATCH, Router.PATCH),
    (.DELETE, Router.DELETE), (.OPTIONS, Router.OPTIONS)]

/-! ## Notions used in the statements about the request parser -/

/-- The request line of a buffer: the text before the first newline. -/
def requestLine (req_data : Str) : Str := req_data.takeWhile (fun c => c != '\n')

/-- The first whitespace-delimited token of a line; empty when the line holds
only whitespace. -/
def firstToken (line : Str) : Str :=
  (line.dropWhile isspace).takeWhile (fun c => !isspace c)

/-- The six method names. -/
def methodNames : List Str :=
  ["OPTIONS".toList, "GET".toList, "POST".toList, "PUT".toList, "PATCH".toList,
    "DELETE".toList]

/-- Equality of two names under ASCII case folding: same length, and the same
characters after `tolower`. -/
def CaseFoldEq (a b : Str) : Prop := a.length = b.length ∧ a.map tolower = b.map tolower

/-- Equality under case folding can be computed. -/
instance CaseFoldEq.decidable (a b : Str) : Decidable (CaseFoldEq a b) := by
  unfold CaseFoldEq; infer_instance

/-- The segments of a string, cut at each occurrence of the separator. -/
def segments (sep : Char) : Str → List Str
  | [] => [[]]
  | c :: cs =>
    if c = sep then [] :: segments sep cs
    else
      match segments sep cs with
      | [] => [[c]]
      | seg :: segs => (c :: seg) :: segs

/-- A segment defines `key`: it contains an equals sign and the text before
its first equals sign is `key`. -/
def segmentDefines (key : Str) (seg : Str) : Bool :=
  decide ('=' ∈ seg) && decide (seg.takeWhile (fun c => c != '=') = key)

/-- The text of a segment after its first equals sign. -/
def segmentValue (seg : Str) : Str := (seg.dropWhile (fun c => c != '=')).drop 1

/-- The value that the query string `q` gives to `key`: the text after the
first equals sign of the last segment, among those cut at each ampersand, that
defines `key`; `none` when no segment defines `key`. -/
def queryValue (q : Str) (key : Str) : Option Str :=
  (((segments '&' q).filter (segmentDefines key)).getLast?).map segmentValue

/-- The effect of one `key_value` segment on the map: the body of the loop of
`ParseHeaders` over the query string, also run once after the loop. -/
def Request.assignSegment (queries : List (Str × Str)) (key_value : Str) : List (Str × Str) :=
  match find ['='] key_value with
  | some equals_pos =>
    mapAssign queries (key_value.take equals_pos) (key_value.drop (equals_pos + 1))
  | none => queries

/-- The lines of a block of text, cut at each CRLF. -/
def linesCRLF : Str → List Str
  | [] => [[]]
  | [c] => [[c]]
  | c :: d :: rest =>
    if c = '\r' ∧ d = '\n' then [] :: linesCRLF rest
    else
      match linesCRLF (d :: rest) with
      | [] => [[c]]
      | line :: lines => (c :: line) :: lines

/-- The header that a line yields: the text before its first colon-space as
the name and the text after it as the value; `none` when the line has no
colon-space. -/
def headerOfLine (line : Str) : Option Header :=
  match find ": ".toList line with
  | some pos => some { name := line.take pos, value := line.drop (pos + 2) }
  | none => none

/-! ## Requests used as concrete inputs -/

/-- A fresh request, as `handleRequest` builds it. -/
def freshRequest : Request := Request.new 0 0 0

/-- The scenario request of the specification. -/
def scenarioRequest : Str := "GET / HTTP/1.1\r\nHost: x\r\n\r\n".toList

/-- A request whose request line is immediately followed by the blank line,
with the text `Host: x` after the header terminator. -/
def hostAfterTerminator : Str := "GET / HTTP/1.1\r\n\r\nHost: x".toList

/-- A GET request that carries a Content-Length header and five body bytes. -/
def getWithBody : Str :=
  "GET /a HTTP/1.1\r\nHost: x\r\nContent-Length: 5\r\nAccept: */*\r\n\r\nhello".toList

/-- A GET request with a query string of four segments. -/
def getWithQuery : Str :=
  "GET /a?b=c&d=e&b=f&zz HTTP/1.1\r\nHost: x\r\nAccept: */*\r\n\r\n".toList

/-- A GET request whose target carries the query string `b=c` and whose only
header, and so its last, is Host. -/
def queryHostLast : Str := "GET /a?b=c HTTP/1.1\r\nHost: x\r\n\r\n".toList

/-- A request whose header list holds `Accept`, then `HOST`, then `host`. -/
def twoHosts : Request :=
  { freshRequest with
    headers := [⟨"Accept".toList, "a".toList⟩, ⟨"HOST".toList, "x".toList⟩,
      ⟨"host".toList, "y".toList⟩] }

/-- The scenario request with its method in lower case. -/
def lowerCaseMethod : Str := "get / HTTP/1.1\r\nHost: x\r\n\r\n".toList

/-! ## Notions and inputs for the request body -/

/-- The decimal value of a numeral: `none` unless the text is a non-empty run
of decimal digits. -/
def decimalValue (s : Str) : Option Nat :=
  if s ≠ [] ∧ s.all Char.isDigit = true then
    some (s.foldl (fun acc c => acc * 10 + (c.toNat - '0'.toNat)) 0)
  else none

/-- A POST request that declares ten body bytes and carries five. -/
def postTruncated : Str :=
  "POST /a HTTP/1.1\r\nHost: x\r\nContent-Length: 10\r\nAccept: */*\r\n\r\nhello".toList

/-! ## Notions used in the statements about the response writer -/

/-- A client that accepts every write: every call of `send` takes all the
bytes that it is offered. -/
def Socket.acceptsAll (sock : Socket) : Prop := ∀ k data, sock k data = .wrote data.length

/-- The client that accepts every write. -/
def acceptAll : Socket := fun _ data => .wrote data.length

/-- The client that refuses every write with a hard error. -/
def refuseAll : Socket := fun _ _ => .failed

/-- The client that accepts the first write and refuses the later ones. -/
def acceptFirst : Socket := fun k data => if k = 0 then .wrote data.length else .failed

/-- A connection on which nothing has been written. -/
def Conn.fresh : Conn := { wire := [], calls := 0 }

/-- The state `Idle` of a response: nothing has been flushed or sent. -/
def Response.Idle (self : Response) : Prop :=
  self.headers_sent = false ∧ self.body_sent = false

/-- The header block of the wire format: the status line, one line per header
with a non-empty name, in list order, and the blank line. -/
def headerBlock (StatusText : HttpStatus → Str) (status : HttpStatus) (headers : List Header) :
    Str :=
  "HTTP/1.1 ".toList ++ to_string status ++ " ".toList ++ StatusText status ++ "\r\n".toList ++
    ((headers.filter (fun h => !h.name.isEmpty)).map
      (fun h => h.name ++ ": ".toList ++ h.value ++ "\r\n".toList)).flatten ++ "\r\n".toList

/-- A header list names `name` under case folding. -/
def hasHeader (headers : List Header) (name : Str) : Prop :=
  ∃ h ∈ headers, CaseFoldEq h.name name

/-- Whether a header list names `name` can be computed. -/
instance hasHeader.decidable (headers : List Header) (name : Str) :
    Decidable (hasHeader headers name) := by
  unfold hasHeader; infer_instance

/-- The header list that `Send` is to write for the body `d` on top of the
headers `H`: `H`, then Content-Length with the decimal length of `d`, then
`Content-Type: text/html` when `H` names no Content-Type. -/
def sendHeaders (H : List Header) (d : Str) : List Header :=
  H ++ [{ name := "Content-Length".toList, value := to_string d.length }] ++
    (if hasHeader H "Content-Type".toList then []
     else [{ name := "Content-Type".toList, value := "text/html".toList }])

/-- A response in the state `Idle` whose status was set to 0. -/
def zeroStatusResponse : Response := Response.new.setStatus 0

/-- A response in the state `Idle` on which the handler has set a content
type, with the name in lower case. -/
def plainTextResponse : Response :=
  Response.new.setHeader "content-type".toList "text/plain".toList

/-- The bytes that a fresh response puts on the wire for `Send("Hello")`. -/
def helloWire : Str :=
  "HTTP/1.1 200 OK\r\nContent-Length: 5\r\nContent-Type: text/html\r\n\r\nHello".toList

/-- The pattern of the scenario: the text starts with the status line
`HTTP/1.1 200 OK` and ends with the line `Content-Length: 5`, the blank line
and the body `Hello`, the two parts not overlapping. -/
def matchesScenario (wire : Str) : Prop :=
  "HTTP/1.1 200 OK\r\n".toList <+: wire ∧
    "Content-Length: 5\r\n\r\nHello".toList <:+ wire ∧
    "HTTP/1.1 200 OK\r\n".toList.length + "Content-Length: 5\r\n\r\nHello".toList.length ≤
      wire.length

/-- Whether a text matches the pattern of the scenario can be computed. -/
instance matchesScenario.decidable (wire : Str) : Decidable (matchesScenario wire) := by
  unfold matchesScenario; infer_instance

/-- The call number `k` of `send` on the socket reports a failure, whatever it
is offered. -/
def Socket.failsAt (sock : Socket) (k : Nat) : Prop :=
  ∀ data, sock k data = .failed ∨ sock k data = .wouldBlock

/-- The call number `k` of `send` on the socket accepts bytes, whatever it is
offered. -/
def Socket.acceptsAt (sock : Socket) (k : Nat) : Prop :=
  ∀ data, ∃ n, sock k data = .wrote n

/-- The client that refuses the first write and accepts the later ones. -/
def refuseFirst : Socket := fun k data => if k = 0 then .failed else .wrote data.length

/-- The response that a fresh response becomes once `Send("Hello")` has
succeeded: headers flushed, body sent. -/
def sentResponse : Response :=
  (Response.new.Send Modelled.StatusText acceptAll Conn.fresh "Hello".toList).response

/-- A response that already holds `Content-Type: a`. -/
def typedResponse : Response := Response.new.setHeader "Content-Type".toList "a".toList

/-- The function `isxdigit` in the "C" locale. -/
def isxdigit (c : Char) : Bool :=
  c.isDigit || ('a' ≤ c && c ≤ 'f') || ('A' ≤ c && c ≤ 'F')

/-- The value that `urldecode` computes for one hexadecimal digit: lower case
is folded to upper case, then letters and digits are shifted to their value. -/
def urldecode.nibble (a : Char) : Nat :=
  let a1 := if a ≥ 'a' then a.toNat - ('a'.toNat - 'A'.toNat) else a.toNat
  if a1 ≥ 'A'.toNat then a1 - ('A'.toNat - 10) else a1 - '0'.toNat

/-- The loop of `urldecode(dst, dst_size, src)` over the C string `src`, with
`written` characters already stored: the characters that it stores in `dst`. -/
def urldecode.loop (dst_size : Nat) : Str → Nat → Str
  | [], _ => []
  | c :: rest, written =>
    if written + 1 < dst_size then
      let copied := c :: urldecode.loop dst_size rest (written + 1)
      match rest with
      | a :: b :: rest2 =>
        if c = '%' && isxdigit a && isxdigit b then
          Char.ofNat ((16 * urldecode.nibble a + urldecode.nibble b) % 256) ::
            urldecode.loop dst_size rest2 (written + 1)
        else copied
      | _ => copied
    else []

/-- The function `urldecode(dst, dst_size, src)`: the C string left in `dst`. -/
def urldecode (dst_size : Nat) (src : Str) : Str :=
  cstr (urldecode.loop dst_size (cstr src) 0)

/-- The conversion `%ld` of `sscanf`, as glibc performs it: whitespace is
skipped, then an optional sign and a non-empty run of decimal digits are read,
with saturation at the bounds of `long`. The result is the value and the rest
of the input; `none` is a matching failure. -/
def scanLong (s : Str) : Option (Int × Str) :=
  let s1 := s.dropWhile isspace
  let signed : Bool × Str :=
    match s1 with
    | '-' :: r => (true, r)
    | '+' :: r => (false, r)
    | _ => (false, s1)
  let digits := signed.2.takeWhile Char.isDigit
  if digits.isEmpty then none
  else
    let n : Nat := digits.foldl (fun acc c => acc * 10 + (c.toNat - '0'.toNat)) 0
    let l : Int := if signed.1 then max (-(n : Int)) (-(2 ^ 63)) else min (n : Int) (2 ^ 63 - 1)
    some (l, signed.2.dropWhile Char.isDigit)

/-- The part that the two formats of `SendFile` share: the literal `bytes=`
and a first `%ld`. -/
def scanBytesStart (s : Str) : Option (Int × Str) :=
  if "bytes=".toList.isPrefixOf s then scanLong (s.drop 6) else none

/-- The call `sscanf(s, "bytes=%ld-%ld", &start, &end)` when it returns 2: the
two values assigned. `none` stands for every other return value. -/
def sscanf_bytes_ld_ld (s : Str) : Option (Int × Int) :=
  match scanBytesStart s with
  | none => none
  | some (start, rest) =>
    match rest with
    | '-' :: rest2 =>
      match scanLong rest2 with
      | some (end_, _) => some (start, end_)
      | none => none
    | _ => none

/-- The call `sscanf(s, "bytes=%ld-", &start)` when it returns 1: the value
assigned. `none` stands for every other return value. -/
def sscanf_bytes_ld (s : Str) : Option Int :=
  match scanBytesStart s with
  | none => none
  | some (start, _) => some start

/-- The locals `valid_range`, `has_end_range`, `start` and `end` of `SendFile`
once the Range header is read. A local that the source leaves unassigned is 0
here; the source does not read it. -/
structure RangeParse where
  valid_range : Bool
  has_end_range : Bool
  start : Int
  end_ : Int
  deriving DecidableEq, Repr

/-- The block of `SendFile` that reads the Range header of the request. -/
def SendFile.parseRange (request : Request) : RangeParse :=
  match request.findRequestHeader "Range".toList with
  | none => { valid_range := false, has_end_range := false, start := 0, end_ := 0 }
  | some h =>
    let range_header := cstr h.2.value
    if (find "bytes=".toList range_header).isSome then
      match sscanf_bytes_ld_ld range_header with
      | some (start, end_) =>
        { valid_range := true, has_end_range := true, start := start, end_ := end_ }
      | none =>
        match sscanf_bytes_ld range_header with
        | some start => { valid_range := true, has_end_range := false, start := start, end_ := 0 }
        | none => { valid_range := false, has_end_range := false, start := 0, end_ := 0 }
    else { valid_range := false, has_end_range := false, start := 0, end_ := 0 }

/-- The chain of `if` of `SendFile` that resolves the range against the size of
the file: the new values of `start` and `end`. -/
def SendFile.resolveRange (has_end_range : Bool) (start end_ file_size : Int) : Int × Int :=
  let range_chunk_size : Int := 4 * 1024 * 1024 - 1
  if !has_end_range && decide (start ≥ 0) then
    if start = 0 then (start, file_size - 1)
    else
      let end1 := start + range_chunk_size
      (start, if end1 ≥ file_size then file_size - 1 else end1)
  else if start < 0 then
    let start1 := file_size + start
    let end1 := start1 + range_chunk_size
    (start1, if end1 ≥ file_size then file_size - 1 else end1)
  else if end_ < 0 then
    let end1 := file_size + end_
    (start, if end1 ≥ file_size then file_size - 1 else end1)
  else (start, end_)

/-- The function `write_range_headers`. -/
def write_range_headers (res : Response) (start end_ file_size : Int) : Response :=
  let content_len := to_string (end_ - start + 1)
  (((res.setHeader "Accept-Ranges".toList "bytes".toList).setHeader
      "Content-Length".toList content_len).setHeader "Content-Range".toList
      ("bytes ".toList ++ to_string start ++ "-".toList ++ to_string end_ ++ "/".toList ++
        to_string file_size)).setStatus StatusPartialContent

/-- The three statements `setStatus(status); writeHeaders(); return -1;` of the
failure paths of `SendFile`. An exception of `writeHeaders` leaves `SendFile`. -/
def SendFile.fail (StatusText : HttpStatus → Str) (sock : Socket) (self : Response)
    (conn : Conn) (status : HttpStatus) : Outcome Int :=
  let flushed := (self.setStatus status).writeHeaders StatusText sock conn
  match flushed.ret with
  | .returned _ => { ret := .returned (-1), response := flushed.response, conn := flushed.conn }
  | .threw what => { ret := .threw what, response := flushed.response, conn := flushed.conn }
  | .spinning => { ret := .spinning, response := flushed.response, conn := flushed.conn }

/-- The constant `BUFSIZ` of glibc, the size of the local `buffer`. -/
def BUFSIZ : Nat := 8192

/-- The conversion of an `ssize_t` to the `int` that `SendFile` returns. -/
def toInt (n : Int) : Int := (n + 2 ^ 31) % 2 ^ 32 - 2 ^ 31

/-- The inner `while` loop of `SendFile`, on the part of the chunk that is
still to send (`buffer + sent`, of length `chunk_size - sent`), with at most
`fuel` calls of `send`. The result is `none` when the chunk is sent whole, or
the way `SendFile` ends from inside the loop, then `total_bytes_sent` and the
connection. A would-block failure is retried at once. -/
def SendFile.sendChunk (sock : Socket) : Nat → Str → Int → Conn → Option (Ret Int) × Int × Conn
  | 0, pending, total_bytes_sent, conn =>
    if pending.isEmpty then (none, total_bytes_sent, conn)
    else (some .spinning, total_bytes_sent, conn)
  | fuel + 1, pending, total_bytes_sent, conn =>
    if pending.isEmpty then (none, total_bytes_sent, conn)
    else
      match send sock conn pending with
      | (.wouldBlock, conn1) => SendFile.sendChunk sock fuel pending total_bytes_sent conn1
      | (.failed, conn1) => (some (.returned (-1)), total_bytes_sent, conn1)
      | (.wrote n, conn1) =>
        if n = 0 then (some (.returned (toInt total_bytes_sent)), total_bytes_sent, conn1)
        else SendFile.sendChunk sock fuel (pending.drop n) (total_bytes_sent + n) conn1

/-- The value of `buffer_size` for a range request with `remaining_bytes`
still to send. -/
def SendFile.rangeBufferSize (remaining_bytes : Int) : Int :=
  if remaining_bytes < (BUFSIZ : Int) then remaining_bytes else (BUFSIZ : Int)

/-- The outer `while` loop of `SendFile` and the statements after it, with the
file position `pos`. Every iteration reads at least one byte, so `steps =
file.length + 1` iterations are never used up. The result is the way
`SendFile` ends, whether `body_sent` was set, and the connection. `fread` takes
its count as a `size_t`. A negative `buffer_size`, which only a reversed range
produces, becomes a count larger than the buffer: that call of `fread` is
outside its contract, and what the model gives there (the rest of the file is
read) says nothing about what the code transmits. -/
def SendFile.transmit (sock : Socket) (fuel : Nat) (valid_range : Bool) (range_length : Int)
    (file : Str) : Nat → Nat → Int → Int → Conn → Ret Int × Bool × Conn
  | 0, _, _, _, conn => (.spinning, false, conn)
  | steps + 1, pos, buffer_size, total_bytes_sent, conn =>
    let chunk := (file.drop pos).take (intToSize buffer_size)
    if chunk.isEmpty then (.returned (toInt total_bytes_sent), true, conn)
    else
      match SendFile.sendChunk sock fuel chunk total_bytes_sent conn with
      | (some ret, _, conn1) => (ret, false, conn1)
      | (none, total1, conn1) =>
        if valid_range && decide (total1 ≥ range_length) then
          (.returned (toInt total1), true, conn1)
        else
          let buffer_size1 :=
            if valid_range then SendFile.rangeBufferSize (range_length - total1)
            else buffer_size
          SendFile.transmit sock fuel valid_range range_length file steps (pos + chunk.length)
            buffer_size1 total1 conn1

/-- The end of `SendFile`, from `setHeader("Connection", "close")` on: the
flush, whose exception leaves `SendFile`, and the transmission of the file from
the position `start` (0 when the request has no valid range). -/
def SendFile.stream (StatusText : HttpStatus → Str) (sock : Socket) (fuel : Nat)
    (self : Response) (conn : Conn) (valid_range : Bool) (start end_ : Int) (file : Str) :
    Outcome Int :=
  let self1 := self.setHeader "Connection".toList "close".toList
  let flushed := self1.writeHeaders StatusText sock conn
  match flushed.ret with
  | .threw what => { ret := .threw what, response := flushed.response, conn := flushed.conn }
  | .spinning => { ret := .spinning, response := flushed.response, conn := flushed.conn }
  | .returned _ =>
    let buffer_size : Int :=
      if valid_range then SendFile.rangeBufferSize (end_ - start + 1) else (BUFSIZ : Int)
    let sent := SendFile.transmit sock fuel valid_range (end_ - start + 1) file
      (file.length + 1) start.toNat buffer_size 0 flushed.conn
    { ret := sent.1,
      response := if sent.2.1 then { flushed.response with body_sent := true }
                  else flushed.response,
      conn := sent.2.2 }

/-- The method `Response::SendFile`. The table of `mime.hpp` and the file
system are parameters: `getContentType` gives the content type of a file name,
and `fopen64` gives the bytes of the file of that name, or `none` when it
cannot be opened. The inner loop makes at most `fuel` calls of `send` per
chunk. The source decodes the name into the reserved buffer of an empty
`std::string`, whose length it never sets; the model takes the C string in that
buffer as the file name, for `fopen64` and for `getContentType` alike.
Repositioning an open file inside its bounds is taken to succeed. -/
def Response.SendFile (StatusText : HttpStatus → Str) (getContentType : Str → Str)
    (fopen64 : Str → Option Str) (sock : Socket) (fuel : Nat) (request : Request)
    (self : Response) (conn : Conn) (fname : Str) : Outcome Int :=
  if self.body_sent then
    { ret := .threw "body already sent", response := self, conn := conn }
  else
    let contentType := self.findResponseHeader "Content-Type".toList
    let filename := urldecode (fname.length + 1) fname
    let self1 :=
      match contentType with
      | none => self.setHeader "Content-Type".toList (getContentType filename)
      | some _ => self
    let range := SendFile.parseRange request
    match fopen64 filename with
    | none => SendFile.fail StatusText sock self1 conn StatusInternalServerError
    | some file =>
      let file_size : Int := file.length
      if range.valid_range then
        if range.start ≥ file_size then
          SendFile.fail StatusText sock self1 conn StatusRequestedRangeNotSatisfiable
        else
          let resolved :=
            SendFile.resolveRange range.has_end_range range.start range.end_ file_size
          if resolved.1 < 0 ∨ resolved.2 < 0 ∨ resolved.2 ≥ file_size then
            SendFile.fail StatusText sock self1 conn StatusRequestedRangeNotSatisfiable
          else
            let self2 := write_range_headers self1 resolved.1 resolved.2 file_size
            SendFile.stream StatusText sock fuel self2 conn true resolved.1 resolved.2 file
      else
        let self2 := self1.setHeader "Content-Length".toList (to_string file_size)
        SendFile.stream StatusText sock fuel self2 conn false 0 0 file

/-! ## Notions and inputs for the operations of a response -/

/-- Modelled from the spec: the function `getContentType` of `mime.hpp`, a
lookup of the content type by file name. This stand-in gives every name the
type `text/plain`. -/
def Modelled.getContentType (_filename : Str) : Str := "text/plain".toList

/-- A file system with the ten-byte file `/digits.txt`, the empty file
`/empty.txt`, and no other file. -/
def twoFiles (filename : Str) : Option Str :=
  if filename = "/digits.txt".toList then some "0123456789".toList
  else if filename = "/empty.txt".toList then some []
  else none

/-- A request whose header list is `Host: x` and then a Range header with the
given value. -/
def rangeRequest (value : Str) : Request :=
  { freshRequest with
    headers := [{ name := "Host".toList, value := "x".toList },
                { name := "Range".toList, value := value }] }

/-- The response that a fresh response becomes once `SendFile` has sent the
file `/digits.txt` whole to a client that accepts every write. -/
def fileSentResponse : Response :=
  (Response.new.SendFile Modelled.StatusText Modelled.getContentType twoFiles acceptAll 1
    freshRequest Conn.fresh "/digits.txt".toList).response

/-- One operation of a handler on its response. -/
inductive Response.Op where
  | setStatus (value : HttpStatus)
  | setHeader (name value : Str)
  | setChunked (value : Bool)
  | setStreamComplete (value : Bool)
  | writeHeaders
  | Send (data : Str)
  | SendFile (fname : Str)

/-- The response and the connection after one operation, however the operation
ends. -/
def Response.apply (StatusText : HttpStatus → Str) (getContentType : Str → Str)
    (fopen64 : Str → Option Str) (sock : Socket) (fuel : Nat) (request : Request)
    (state : Response × Conn) : Response.Op → Response × Conn
  | .setStatus value => (state.1.setStatus value, state.2)
  | .setHeader name value => (state.1.setHeader name value, state.2)
  | .setChunked value => (state.1.setChunked value, state.2)
  | .setStreamComplete value => (state.1.setStreamComplete value, state.2)
  | .writeHeaders =>
    let out := state.1.writeHeaders StatusText sock state.2
    (out.response, out.conn)
  | .Send data =>
    let out := state.1.Send StatusText sock state.2 data
    (out.response, out.conn)
  | .SendFile fname =>
    let out := state.1.SendFile StatusText getContentType fopen64 sock fuel request state.2 fname
    (out.response, out.conn)

/-- The response and the connection after a sequence of operations. -/
def Response.run (StatusText : HttpStatus → Str) (getContentType : Str → Str)
    (fopen64 : Str → Option Str) (sock : Socket) (fuel : Nat) (request : Request)
    (ops : List Response.Op) (state : Response × Conn) : Response × Conn :=
  ops.foldl (Response.apply StatusText getContentType fopen64 sock fuel request) state

/-- The response and the connection that a first flush of a fresh response
leaves, with a client that accepts every write. -/
def flushedOnce : Response × Conn :=
  ((Response.new.writeHeaders Modelled.StatusText acceptAll Conn.fresh).response,
   (Response.new.writeHeaders Modelled.StatusText acceptAll Conn.fresh).conn)

/-- A handler that flushes again, sets a header, sends a body, and flushes
once more. -/
def flushAgainOps : List Response.Op :=
  [.writeHeaders, .setHeader "X-A".toList "1".toList, .Send "Hello".toList, .writeHeaders]

/-- The header list that `SendFile` works on once the content type is settled:
`H`, then a Content-Type with the type that `getContentType` gives the file
name when `H` names no Content-Type. -/
def fileHeaders (getContentType : Str → Str) (H : List Header) (filename : Str) : List Header :=
  if hasHeader H "Content-Type".toList then H
  else H ++ [{ name := "Content-Type".toList, value := getContentType filename }]

/-- The four headers of the answer to a range request for the whole of a file
of size `S`: `Accept-Ranges: bytes`, `Content-Length: S`,
`Content-Range: bytes 0-(S-1)/S` and `Connection: close`. -/
def wholeFileRangeHeaders (S : Nat) : List Header :=
  [{ name := "Accept-Ranges".toList, value := "bytes".toList },
   { name := "Content-Length".toList, value := to_string (S : Int) },
   { name := "Content-Range".toList,
     value := "bytes 0-".toList ++ to_string ((S : Int) - 1) ++ "/".toList ++ to_string (S : Int) },
   { name := "Connection".toList, value := "close".toList }]

/-- The request for the whole of a file as a range: the Range header is the
last header, so its value ends with the NUL that the parser leaves there. -/
def wholeRangeRequest : Request := rangeRequest ("bytes=0-".toList ++ [Char.ofNat 0])

/-- What `SendFile` does with the range `bytes=0-` on the empty file, for a
fresh response and a client that accepts every write. -/
def emptyFileOutcome : Outcome Int :=
  Response.new.SendFile Modelled.StatusText Modelled.getContentType twoFiles acceptAll 1
    wholeRangeRequest Conn.fresh "/empty.txt".toList

/-! ## Notions and inputs for range requests -/

/-- The four headers that `SendFile` adds for a range resolved to the bytes
`start` to `end_` of a file of size `file_size`: `Accept-Ranges`,
`Content-Length`, `Content-Range` and `Connection`. -/
def rangeAnswerHeaders (start end_ file_size : Int) : List Header :=
  [{ name := "Accept-Ranges".toList, value := "bytes".toList },
   { name := "Content-Length".toList, value := to_string (end_ - start + 1) },
   { name := "Content-Range".toList,
     value := "bytes ".toList ++ to_string start ++ "-".toList ++ to_string end_ ++
       "/".toList ++ to_string file_size },
   { name := "Connection".toList, value := "close".toList }]

/-- The window of an open-ended range: the constant `range_chunk_size` of
`SendFile`. -/
def rangeWindow : Int := 4 * 1024 * 1024 - 1

/-- The request that asks for the bytes from 999999 on. -/
def farRangeRequest : Request := rangeRequest "bytes=999999-".toList

/-- What `SendFile` does with the range `bytes=999999-` on the ten-byte file,
for a fresh response and a client that accepts every write. -/
def farRangeOutcome : Outcome Int :=
  Response.new.SendFile Modelled.StatusText Modelled.getContentType twoFiles acceptAll 1
    farRangeRequest Conn.fresh "/digits.txt".toList

/-- What `SendFile` does with the range `bytes=999999-` on the ten-byte file,
for a fresh response and a client that refuses every write. -/
def farRangeRefusedOutcome : Outcome Int :=
  Response.new.SendFile Modelled.StatusText Modelled.getContentType twoFiles refuseAll 1
    farRangeRequest Conn.fresh "/digits.txt".toList

/-- What `SendFile` does with a file that cannot be opened, for a fresh
response, a request without a Range header and a client that accepts every
write. -/
def missingFileOutcome : Outcome Int :=
  Response.new.SendFile Modelled.StatusText Modelled.getContentType twoFiles acceptAll 1
    freshRequest Conn.fresh "/missing.txt".toList

/-! ## Notions for the transmission loop -/

/-- Every call of `send` on the socket that is offered at least one byte ends
with a would-block failure or takes at least one byte: no zero-length result,
no hard error. -/
def Socket.progresses (sock : Socket) : Prop :=
  ∀ k data, data ≠ [] → sock k data = .wouldBlock ∨ ∃ n, 1 ≤ n ∧ sock k data = .wrote n

/-- Among any `B + 1` consecutive calls of `send` on the socket there is one
that does not end with a would-block failure. -/
def Socket.blocksAtMost (sock : Socket) (B : Nat) : Prop :=
  ∀ k, ∃ j, j ≤ B ∧ ∀ data, sock (k + j) data ≠ .wouldBlock

/-- A file of 2^31 bytes. -/
def hugeFile : Str := List.replicate (2 ^ 31) 'a'

/-- A file system in which every name opens the file of 2^31 bytes. -/
def hugeFiles (_filename : Str) : Option Str := some hugeFile

/-- The header list that `SendFile` leaves for a whole file of size `S`, on
top of the headers `H` with the content type settled: Content-Length with the
decimal size, then `Connection: close`. -/
def wholeFileHeaders (H : List Header) (S : Nat) : List Header :=
  H ++ [{ name := "Content-Length".toList, value := to_string (S : Int) },
        { name := "Connection".toList, value := "close".toList }]

/-- What `SendFile` does with the file of 2^31 bytes, for a fresh response, a
request without a Range header and a client that accepts every write. -/
def hugeFileOutcome : Outcome Int :=
  Response.new.SendFile Modelled.StatusText Modelled.getContentType hugeFiles acceptAll 1
    freshRequest Conn.fresh "/huge.bin".toList

/-- A file of 200 bytes. -/
def largerFile : Str := List.replicate 200 'a'

/-- A file system in which every name opens the file of 200 bytes. -/
def largerFiles (_filename : Str) : Option Str := some largerFile

/-- The request for the range `bytes=100-50`, whose end is below its start. -/
def reversedRangeRequest : Request := rangeRequest "bytes=100-50".toList

/-- What `SendFile` does with the range `bytes=100-50` on the file of 200
bytes, for a fresh response and a client that accepts every write. -/
def reversedRangeOutcome : Outcome Int :=
  Response.new.SendFile Modelled.StatusText Modelled.getContentType largerFiles acceptAll 1
    reversedRangeRequest Conn.fresh "/larger.bin".toList

/-- The request for the first 2^31 bytes of a file as a range. -/
def hugeRangeRequest : Request := rangeRequest "bytes=0-2147483647".toList

/-- What `SendFile` does with the range `bytes=0-2147483647` on the file of 2^31
bytes, for a fresh response and a client that accepts every write. -/
def hugeRangeOutcome : Outcome Int :=
  Response.new.SendFile Modelled.StatusText Modelled.getContentType hugeFiles acceptAll 1
    hugeRangeRequest Conn.fresh "/huge.bin".toList

/-! ## Server (`client.cpp`, `server.cpp`) -/

/-- Modelled from the spec: the enumerator `StatusBadRequest` of `status.hpp`,
the code 400 of the specification. -/
def StatusBadRequest : HttpStatus := 400

/-- Modelled from the spec: the enumerator `StatusNotFound` of `status.hpp`,
the code 404 of the specification. -/
def StatusNotFound : HttpStatus := 404

/-- The string `reply` that `Client::SendHttpError(status, message)` builds. -/
def Client.SendHttpError.reply (StatusText : HttpStatus → Str) (status : HttpStatus)
    (message : Str) : Str :=
  "HTTP/1.1 ".toList ++ to_string status ++ " ".toList ++ StatusText status ++ "\r\n".toList ++
    "Content-Type: text/html\r\n".toList ++
    ("Content-Length: ".toList ++ to_string message.length ++ "\r\n".toList) ++
    ("\r\n".toList ++ message ++ "\r\n".toList)

/-- The method `Client::SendHttpError`: one call of `send` with the reply,
whose result is not looked at. -/
def Client.SendHttpError (StatusText : HttpStatus → Str) (sock : Socket) (conn : Conn)
    (status : HttpStatus) (message : Str) : Conn :=
  (send sock conn (Client.SendHttpError.reply StatusText status message)).2

/-- The expression `getURL()->path` on a request. The pointer is set by a
successful parse; on a request without a URL the model gives the empty path. -/
def Request.urlPath (self : Request) : Str :=
  match self.url with
  | some url => url.path
  | none => []

/-- The constant `MAX_PATH_SIZE`. -/
def MAX_PATH_SIZE : Nat := 256

/-- The call `snprintf(buffer, size, "%s%s", a, b)` on two C strings: the C
string left in the buffer, cut to `size - 1` characters. -/
def snprintf_s_s (size : Nat) (a b : Str) : Str := (cstr a ++ cstr b).take (size - 1)

/-- The function `staticFileHandler`. The function `is_directory` asks the file
system and is a parameter. `trimmedPath` points `pattern.size()` characters
into the path; the model gives the empty string when that is past its end. A
path that is too long after the rewrite is answered with an error reply, and
the function goes on to `SendFile` all the same. -/
def staticFileHandler (StatusText : HttpStatus → Str) (getContentType : Str → Str)
    (fopen64 : Str → Option Str) (is_directory : Str → Bool) (sock : Socket) (fuel : Nat)
    (request : Request) (res : Response) (route : Route) (conn : Conn) : Outcome Int :=
  let dirname := cstr route.dirname
  let requestedPath := cstr request.urlPath
  let trimmedPath := requestedPath.drop route.pattern.length
  let fullFilePath := snprintf_s_s MAX_PATH_SIZE dirname trimmedPath
  let decodedPath := urldecode MAX_PATH_SIZE fullFilePath
  if is_directory decodedPath then
    let tempPath :=
      if decodedPath.getLast? = some '/' then
        snprintf_s_s (MAX_PATH_SIZE + 16) decodedPath "index.html".toList
      else snprintf_s_s (MAX_PATH_SIZE + 16) decodedPath "/index.html".toList
    if tempPath.length < MAX_PATH_SIZE then
      res.SendFile StatusText getContentType fopen64 sock fuel request conn tempPath
    else
      let conn1 := Client.SendHttpError StatusText sock conn StatusBadRequest
        "url is too long to fit in 256 characters".toList
      res.SendFile StatusText getContentType fopen64 sock fuel request conn1 decodedPath
  else
    res.SendFile StatusText getContentType fopen64 sock fuel request conn decodedPath

/-- How `handleRequest` ends: the connection as it leaves it, the index of the
route whose handler it called, if any, and whether it returned. A call of a
null handler does not return; it is shown as a throw. -/
structure Handled where
  ret : Ret Unit
  conn : Conn
  dispatched : Option Nat

/-- What is left of a call on the response under the `catch` of
`handleRequest`: an exception is logged and the function returns. -/
def handleRequest.caught {α : Type} (ret : Ret α) : Ret Unit :=
  match ret with
  | .returned _ => .returned ()
  | .threw _ => .returned ()
  | .spinning => .spinning

/-- The function `handleRequest`. What `Client::Read` leaves is a parameter:
its result `bytes_read` and the buffer `request_buffer`. The handler number `f`
of a Normal route acts on the response and the connection as `handlers f`
does. The three indeterminate members of the new `Request` are parameters.
`matchBestRoute` returns a pointer into the route table, so the index it gives
is within the table. -/
def handleRequest (curl_url_set : Str → Option CurlParts) (StatusText : HttpStatus → Str)
    (getContentType : Str → Str) (fopen64 : Str → Option Str) (is_directory : Str → Bool)
    (handlers : Nat → Request → Response → Conn → Outcome Unit) (sock : Socket) (fuel : Nat)
    (routes : List Route) (header_start_pos header_end_pos content_length : Nat)
    (bytes_read : Int) (request_buffer : Str) (conn : Conn) : Handled :=
  if bytes_read = -1 then
    { ret := .returned (),
      conn := Client.SendHttpError StatusText sock conn StatusBadRequest
        "Unable to process request\n".toList,
      dispatched := none }
  else
    match (Request.new header_start_pos header_end_pos content_length).ParseHttp curl_url_set
        request_buffer with
    | .error what =>
      { ret := .returned (),
        conn := Client.SendHttpError StatusText sock conn StatusBadRequest what.toList,
        dispatched := none }
    | .ok req =>
      let response := Response.new
      match matchBestRoute routes req.getMethod req.urlPath with
      | none =>
        { ret := .returned (),
          conn := Client.SendHttpError StatusText sock conn StatusNotFound "Not Found".toList,
          dispatched := none }
      | some k =>
        match routes[k]? with
        | none => { ret := .returned (), conn := conn, dispatched := none }
        | some matchingRoute =>
          if matchingRoute.type = .NormalRoute then
            match matchingRoute.handler with
            | none => { ret := .threw "call of a null handler", conn := conn, dispatched := some k }
            | some f =>
              let out := handlers f req response conn
              { ret := handleRequest.caught out.ret, conn := out.conn, dispatched := some k }
          else
            let out := staticFileHandler StatusText getContentType fopen64 is_directory sock fuel
              req response matchingRoute conn
            { ret := handleRequest.caught out.ret, conn := out.conn, dispatched := some k }

/-! ## Inputs for the server -/

/-- A request with a method that the server does not know. -/
def unknownMethodRequest : Str := "FOO / HTTP/1.1\r\nHost: x\r\n\r\n".toList

/-- A handler that leaves the response and the connection as they are. -/
def idleHandlers (_f : Nat) (_request : Request) (response : Response) (conn : Conn) :
    Outcome Unit :=
  { ret := .returned (), response := response, conn := conn }

/-- A file system without directories. -/
def noDirectories (_path : Str) : Bool := false

/-! ## Thread pool (`threadpool.hpp`, `threadpool.cpp`) -/

/-- The members `should_terminate` and `jobs` of the class `ThreadPool`, the
state that the mutex `queue_mutex` guards. The front of the queue is the head
of the list. -/
structure ThreadPool (Job : Type) where
  should_terminate : Bool
  jobs : List Job

/-- The state that the constructor of `ThreadPool` sets up. -/
def ThreadPool.new {Job : Type} : ThreadPool Job :=
  { should_terminate := false, jobs := [] }

/-- The locked block of `QueueJob`. -/
def ThreadPool.QueueJob {Job : Type} (pool : ThreadPool Job) (job : Job) : ThreadPool Job :=
  { pool with jobs := pool.jobs ++ [job] }

/-- The locked block of `Stop`. -/
def ThreadPool.Stop {Job : Type} (pool : ThreadPool Job) : ThreadPool Job :=
  { pool with should_terminate := true }

/-- What a worker does in one pass through the locked part of `ThreadLoop`: it
stays in the wait, it returns, or it takes a job, which it runs after the
unlock. -/
inductive ThreadLoop.Step (Job : Type) where
  | waits
  | exits
  | runs (job : Job)

/-- One pass of a worker through the locked part of `ThreadLoop`, from the
wait to the unlock, with the mutex held throughout. The last line, `front()`
on an empty queue, is not reached: past the wait the flag is set or the queue
is not empty, and with the flag set and the queue empty the worker has
returned. -/
def ThreadPool.ThreadLoop {Job : Type} (pool : ThreadPool Job) :
    ThreadLoop.Step Job × ThreadPool Job :=
  if !(pool.should_terminate || !pool.jobs.isEmpty) then (.waits, pool)
  else if pool.should_terminate && pool.jobs.isEmpty then (.exits, pool)
  else
    match pool.jobs with
    | job :: rest => (.runs job, { pool with jobs := rest })
    | [] => (.waits, pool)

/-- An event on a pool: a call of `QueueJob`, a call of `Stop`, or one pass of
the worker `w` through the locked part of its loop. -/
inductive ThreadPool.Event (Job : Type) where
  | QueueJob (job : Job)
  | Stop
  | worker (w : Nat)

/-- A pool with its workers: the guarded state, the workers that have returned
from `ThreadLoop`, and the jobs taken from the queue so far, each with the
worker that took it, in the order in which they were taken. -/
structure ThreadPool.System (Job : Type) where
  pool : ThreadPool Job
  exited : List Nat
  taken : List (Nat × Job)

/-- A pool on which nothing has happened. -/
def ThreadPool.System.new {Job : Type} : ThreadPool.System Job :=
  { pool := ThreadPool.new, exited := [], taken := [] }

/-- One event. The mutex makes the locked blocks atomic, so the events of a
run come one after the other. A worker that has returned makes no pass. -/
def ThreadPool.System.step {Job : Type} (s : ThreadPool.System Job) :
    ThreadPool.Event Job → ThreadPool.System Job
  | .QueueJob job => { s with pool := s.pool.QueueJob job }
  | .Stop => { s with pool := s.pool.Stop }
  | .worker w =>
    if w ∈ s.exited then s
    else
      match s.pool.ThreadLoop with
      | (.waits, _) => s
      | (.exits, _) => { s with exited := s.exited ++ [w] }
      | (.runs job, pool1) => { s with pool := pool1, taken := s.taken ++ [(w, job)] }

/-- A run: the events of a list, in order. -/
def ThreadPool.System.run {Job : Type} (events : List (ThreadPool.Event Job))
    (s : ThreadPool.System Job) : ThreadPool.System Job :=
  events.foldl ThreadPool.System.step s

/-- The jobs that the calls of `QueueJob` in a list of events queue, in
order. -/
def ThreadPool.queued {Job : Type} : List (ThreadPool.Event Job) → List Job
  | [] => []
  | .QueueJob job :: rest => job :: ThreadPool.queued rest
  | _ :: rest => ThreadPool.queued rest

/-- Whether a list of events holds a call of `Stop`. -/
def ThreadPool.stopped {Job : Type} : List (ThreadPool.Event Job) → Bool
  | [] => false
  | .Stop :: _ => true
  | _ :: rest => ThreadPool.stopped rest

/-- A run with two workers: two jobs are queued, worker 0 takes one, `Stop` is
called, worker 1 takes the other, a third job is queued, worker 0 takes it, and
both workers make one more pass. -/
def twoWorkerRun : List (ThreadPool.Event Nat) :=
  [.worker 0, .QueueJob 10, .QueueJob 11, .worker 0, .Stop, .worker 1, .QueueJob 12,
   .worker 0, .worker 1, .worker 0]

/-! ## Notions used in the statements about the error reply -/

/-- The bytes of a message that follow the blank line ending its header block:
what comes after the first CRLF CRLF; `none` when the message has no blank
line. -/
def bytesAfterBlankLine (message : Str) : Option Str :=
  (find DOUBLE_LF message).map (fun pos => message.drop (pos + 4))

/-- The value that the header block of a message gives to the header `name`:
the text after the colon-space on the first line of the block, cut at each
CRLF, that carries this name; `none` when no line does. -/
def headerValueOf (name : Str) (message : Str) : Option Str :=
  (find DOUBLE_LF message).bind (fun pos =>
    (((linesCRLF (message.take pos)).filterMap headerOfLine).find?
      (fun h => decide (h.name = name))).map Header.value)

/-- The first line of a message: the text before its first CRLF. -/
def firstLine (message : Str) : Option Str :=
  (find LF message).map (fun pos => message.take pos)

/-- The reply that `handleRequest` sends for a path without a route:
`SendHttpError(StatusNotFound, "Not Found")`. -/
def notFoundReply : Str :=
  Client.SendHttpError.reply Modelled.StatusText StatusNotFound "Not Found".toList

/-- A GET request whose target carries a query string of two pairs; the Host
header is followed by another header. -/
def searchRequest : Str :=
  "GET /search?q=a&lang=en HTTP/1.1\r\nHost: example.com\r\nAccept: */*\r\n\r\n".toList

/-! ## Notions used in the statements about `urldecode` -/

/-- A hexadecimal digit, in either case. -/
def isHexDigit (c : Char) : Bool :=
  ('0' ≤ c && c ≤ '9') || ('a' ≤ c && c ≤ 'f') || ('A' ≤ c && c ≤ 'F')

/-- The value of a hexadecimal digit: `0` to `9` for the decimal digits, `10`
to `15` for the letters `a` to `f` and `A` to `F`. -/
def hexValue (c : Char) : Nat :=
  if '0' ≤ c ∧ c ≤ '9' then c.toNat - '0'.toNat
  else if 'a' ≤ c ∧ c ≤ 'f' then 10 + (c.toNat - 'a'.toNat)
  else 10 + (c.toNat - 'A'.toNat)

/-- The reference decoding of the specification: from left to right, a percent
sign followed by two hexadecimal digits `X` and `Y` is replaced by the single
byte `16 * val X + val Y`, and every other byte is copied, a percent sign that
is not followed by two hexadecimal digits included. -/
def referenceDecoding : Str → Str
  | [] => []
  | c :: rest =>
    let copied := c :: referenceDecoding rest
    match rest with
    | x :: y :: rest2 =>
      if c = '%' ∧ isHexDigit x = true ∧ isHexDigit y = true then
        Char.ofNat (16 * hexValue x + hexValue y) :: referenceDecoding rest2
      else copied
    | _ => copied

/-- The bytes that `urldecode(dst, dst_size, src)` stores in `dst`: those that
the loop writes, then the NUL that the last statement writes. -/
def urldecode.stored (dst_size : Nat) (src : Str) : Str :=
  urldecode.loop dst_size (cstr src) 0 ++ ['\x00']

/-! ## Notions used in the statements about the static file handler -/

/-- The local `trimmedPath` of `staticFileHandler`: the C string at
`requestedPath + route->getPattern().size()`. -/
def staticFileHandler.trimmedPath (request : Request) (route : Route) : Str :=
  (cstr request.urlPath).drop route.pattern.length

/-- The local `fullFilePath` of `staticFileHandler`, as `snprintf` leaves it. -/
def staticFileHandler.fullFilePath (request : Request) (route : Route) : Str :=
  snprintf_s_s MAX_PATH_SIZE (cstr route.dirname) (staticFileHandler.trimmedPath request route)

/-- The local `decodedPath` of `staticFileHandler`, as `urldecode` leaves it:
the path that the function prints and tests with `is_directory`, before the
rewrite to `index.html`. -/
def staticFileHandler.decodedPath (request : Request) (route : Route) : Str :=
  urldecode MAX_PATH_SIZE (staticFileHandler.fullFilePath request route)

/-- A `size_t` difference of two in-range values whose order is known. -/
theorem sizeSub_of_le {a b : Nat} (hab : b ≤ a) (ha : a < SIZE_MOD) : sizeSub a b = a - b := by
  unfold sizeSub SIZE_MOD at *
  omega

/-- On a Normal route, with no candidate so far and a non-empty path, one
iteration of the loop selects the route exactly when it qualifies. -/
theorem matchBestRoute.normalStep_fresh (method : HttpMethod) (path : Str) (route : Route)
    (i : Nat) (hty : route.type = .NormalRoute) (hin : route.spansInside path)
    (hne : path ≠ []) (hlen : path.length < SIZE_MOD) :
    matchBestRoute.normalStep method path route i none 0 =
      if route.qualifies method path then (some i, path.length) else (none, 0) := by
  have hpos : 0 < path.length := List.length_pos.mpr hne
  unfold matchBestRoute.normalStep Route.qualifies
  rcases Option.eq_none_or_eq_some (route.compiledPattern path) with hc | ⟨⟨ov0, ov1⟩, hc⟩
  · simp [hc]
  · obtain ⟨h01, h1⟩ := hin ov0 ov1 hc
    have hsub : sizeSub ov1 ov0 = ov1 - ov0 := sizeSub_of_le h01 (by omega)
    by_cases hm : route.method = method
    · by_cases hq : ov0 = 0 ∧ ov1 = path.length
      · obtain ⟨rfl, rfl⟩ := hq
        simp [hc, hty, hm, hsub, hpos]
      · have hlenne : ¬ (ov1 - ov0 = path.length) := by omega
        have hq2 : ¬ ((ov0, ov1) = (0, path.length)) := by
          intro h
          simp only [Prod.mk.injEq] at h
          exact hq h
        simp [hc, hty, hm, hsub, hlenne, hq2]
    · simp [hc, hm]

/-- Once a candidate of the full path length is held, a Normal route never
replaces it: ties keep the earlier route. -/
theorem matchBestRoute.normalStep_held (method : HttpMethod) (path : Str) (route : Route)
    (i b : Nat) :
    matchBestRoute.normalStep method path route i (some b) path.length =
      (some b, path.length) := by
  unfold matchBestRoute.normalStep
  rcases Option.eq_none_or_eq_some (route.compiledPattern path) with hc | ⟨⟨ov0, ov1⟩, hc⟩
  · simp [hc]
  · by_cases hm : route.method = method
    · by_cases hl : sizeSub ov1 ov0 = path.length
      · simp [hc, hm, hl]
      · simp [hc, hm, hl]
    · simp [hc, hm]

/-- Over Normal routes, a held candidate of the full path length is returned. -/
theorem matchBestRoute.loop_held (method : HttpMethod) (path : Str) (routes : List Route)
    (hty : ∀ r ∈ routes, r.type = .NormalRoute) (k b : Nat) :
    matchBestRoute.loop method path routes k (some b) path.length = some b := by
  induction routes generalizing k with
  | nil => rfl
  | cons r rest ih =>
    have hr : r.type = .NormalRoute := hty r (List.mem_cons_self _ _)
    have hrest : ∀ r ∈ rest, r.type = .NormalRoute :=
      fun x hx => hty x (List.mem_cons_of_mem _ hx)
    simp only [matchBestRoute.loop, hr, matchBestRoute.normalStep_held]
    exact ih hrest (k + 1)

/-- Over Normal routes and a non-empty path, the loop returns the first route
that qualifies. -/
theorem matchBestRoute.loop_fresh (method : HttpMethod) (path : Str) (routes : List Route)
    (hty : ∀ r ∈ routes, r.type = .NormalRoute) (hin : ∀ r ∈ routes, r.spansInside path)
    (hne : path ≠ []) (hlen : path.length < SIZE_MOD) (k : Nat) :
    matchBestRoute.loop method path routes k none 0 =
      routes.findIdx? (fun r => decide (r.qualifies method path)) k := by
  induction routes generalizing k with
  | nil => rfl
  | cons r rest ih =>
    have hr : r.type = .NormalRoute := hty r (List.mem_cons_self _ _)
    have hrest : ∀ r ∈ rest, r.type = .NormalRoute :=
      fun x hx => hty x (List.mem_cons_of_mem _ hx)
    have hinrest : ∀ r ∈ rest, r.spansInside path :=
      fun x hx => hin x (List.mem_cons_of_mem _ hx)
    simp only [matchBestRoute.loop, hr, List.findIdx?_cons,
      matchBestRoute.normalStep_fresh method path r k hr (hin r (List.mem_cons_self _ _)) hne hlen]
    by_cases hq : r.qualifies method path
    · simp only [hq, if_true, decide_True]
      exact matchBestRoute.loop_held method path rest hrest (k + 1) k
    · simp only [hq, if_false, decide_False]
      exact ih hrest hinrest (k + 1)

/-- Over Normal routes and a non-empty path, `matchBestRoute` returns the first
route, in registration order, that qualifies. -/
theorem matchBestRoute_normal_nonempty (routes : List Route) (method : HttpMethod) (path : Str)
    (hty : ∀ r ∈ routes, r.type = .NormalRoute) (hin : ∀ r ∈ routes, r.spansInside path)
    (hne : path ≠ []) (hlen : path.length < SIZE_MOD) :
    matchBestRoute routes method path =
      routes.findIdx? (fun r => decide (r.qualifies method path)) :=
  matchBestRoute.loop_fresh method path routes hty hin hne hlen 0

/-- Over Normal routes and a non-empty path, a route is found exactly when some
registered route qualifies. -/
theorem matchBestRoute_normal_nonempty_isSome (routes : List Route) (method : HttpMethod)
    (path : Str) (hty : ∀ r ∈ routes, r.type = .NormalRoute)
    (hin : ∀ r ∈ routes, r.spansInside path) (hne : path ≠ [])
    (hlen : path.length < SIZE_MOD) :
    (∃ i, matchBestRoute routes method path = some i) ↔
      ∃ r ∈ routes, r.qualifies method path := by
  rw [matchBestRoute_normal_nonempty routes method path hty hin hne hlen]
  constructor
  · rintro ⟨i, hi⟩
    by_contra hno
    have : routes.findIdx? (fun r => decide (r.qualifies method path)) = none := by
      rw [List.findIdx?_eq_none_iff]
      intro x hx
      simp only [decide_eq_false_iff_not]
      exact fun hq => hno ⟨x, hx, hq⟩
    rw [this] at hi
    exact Option.noConfusion hi
  · rintro ⟨r, hr, hq⟩
    refine ⟨_, List.findIdx?_eq_some_of_exists ⟨r, hr, ?_⟩⟩
    simpa using hq


/-- The anchored pattern of a Normal route is the input with exactly the
missing anchors added. -/
theorem Route.anchoredPattern_normal (pattern : Str) :
    Route.anchoredPattern .NormalRoute pattern =
      (if pattern.head? = some '^' then [] else ['^']) ++ pattern ++
        (if pattern.getLast? = some '$' then [] else ['$']) := by
  unfold Route.anchoredPattern
  by_cases h1 : pattern.head? = some '^' <;> by_cases h2 : pattern.getLast? = some '$' <;>
    simp [h1, h2]

/-- The anchored pattern of a non-empty input begins with a caret. -/
theorem Route.anchoredPattern_head (pattern : Str) :
    (Route.anchoredPattern .NormalRoute pattern).head? = some '^' := by
  rw [Route.anchoredPattern_normal]
  by_cases h1 : pattern.head? = some '^'
  · simp only [h1, if_true, List.nil_append]
    cases pattern with
    | nil => simp at h1
    | cons c cs => simpa using h1
  · simp [h1]

/-- The anchored pattern of a non-empty input ends with a dollar sign. -/
theorem Route.anchoredPattern_getLast (pattern : Str) (hne : pattern ≠ []) :
    (Route.anchoredPattern .NormalRoute pattern).getLast? = some '$' := by
  rw [Route.anchoredPattern_normal]
  by_cases h2 : pattern.getLast? = some '$'
  · simp only [h2, if_true, List.append_nil]
    rw [List.getLast?_append_of_ne_nil _ hne]
    exact h2
  · simp [h2]

/-- The result of the `Route` constructor, when the anchored pattern compiles. -/
theorem Route.new_eq_ok (pcre2_compile : Str → Option Pcre2Code) (method : HttpMethod)
    (pattern : Str) (handler : Option Nat) (type : RouteType) (route : Route)
    (h : Route.new pcre2_compile method pattern handler type = .ok route) :
    pattern ≠ [] ∧ route.pattern = Route.anchoredPattern type pattern := by
  unfold Route.new at h
  cases pattern with
  | nil => simp at h
  | cons c cs =>
    simp only [List.isEmpty_cons, Bool.false_eq_true, if_false] at h
    split at h
    · exact Except.noConfusion h
    · injection h with h
      subst h
      exact ⟨List.cons_ne_nil _ _, rfl⟩

/-- The method and the type of the route that the constructor builds. -/
theorem Route.new_eq_ok_fields (pcre2_compile : Str → Option Pcre2Code) (method : HttpMethod)
    (pattern : Str) (handler : Option Nat) (type : RouteType) (route : Route)
    (h : Route.new pcre2_compile method pattern handler type = .ok route) :
    route.type = type ∧ route.method = method := by
  unfold Route.new at h
  split at h
  · exact Except.noConfusion h
  · dsimp only at h
    split at h
    · exact Except.noConfusion h
    · injection h with h
      subst h
      exact ⟨rfl, rfl⟩

/-- On the empty path no Normal route is ever selected: a match of length `0`
is not longer than the initial `bestMatchLength`. -/
theorem matchBestRoute_normal_empty_path (routes : List Route) (method : HttpMethod)
    (hty : ∀ r ∈ routes, r.type = .NormalRoute) :
    matchBestRoute routes method [] = none := by
  have step : ∀ (r : Route) (i : Nat),
      matchBestRoute.normalStep method [] r i none 0 = (none, 0) := by
    intro r i
    unfold matchBestRoute.normalStep
    rcases Option.eq_none_or_eq_some (r.compiledPattern []) with hc | ⟨⟨ov0, ov1⟩, hc⟩
    · simp [hc]
    · by_cases hm : r.method = method
      · by_cases hl : sizeSub ov1 ov0 = 0
        · simp [hc, hm, hl]
        · simp [hc, hm, hl]
      · simp [hc, hm]
  have key : ∀ (rs : List Route) (k : Nat), (∀ r ∈ rs, r.type = .NormalRoute) →
      matchBestRoute.loop method [] rs k none 0 = none := by
    intro rs
    induction rs with
    | nil => intro k _; rfl
    | cons r rest ih =>
      intro k h
      have hr : r.type = .NormalRoute := h r (List.mem_cons_self _ _)
      simp only [matchBestRoute.loop, hr, step]
      exact ih (k + 1) (fun x hx => h x (List.mem_cons_of_mem _ hx))
  exact key routes 0 hty

/-- C1, at the empty path. The registration `GET("^$", handler 0)` builds a
one-route table. On the empty path that route qualifies (its anchored pattern
matches with the span `0..0`, the whole path), and `matchBestRoute` returns
`NULL` all the same. -/
theorem matchBestRoute_empty_path_not_found :
    Router.GET Literal.pcre2_compile [] "^$".toList (some 0) = .ok [emptyPatternRoute 0] ∧
      (∃ r ∈ [emptyPatternRoute 0], r.qualifies .GET []) ∧
      matchBestRoute [emptyPatternRoute 0] .GET [] = none :=
  ⟨rfl, ⟨emptyPatternRoute 0, List.mem_singleton.mpr rfl, by decide⟩, by decide⟩

/-- C2, at the empty path. In the table built by `GET("^$", handler 0)` and
`GET("^$", handler 1)` both routes qualify for the empty path with the same
matched length, so the earliest-registered one, at index `0`, is the route to
return; `matchBestRoute` returns `NULL`. -/
theorem matchBestRoute_empty_path_earliest_not_returned :
    Router.GET Literal.pcre2_compile [emptyPatternRoute 0] "^$".toList (some 1) =
        .ok [emptyPatternRoute 0, emptyPatternRoute 1] ∧
      (emptyPatternRoute 0).qualifies .GET [] ∧ (emptyPatternRoute 1).qualifies .GET [] ∧
      matchBestRoute [emptyPatternRoute 0, emptyPatternRoute 1] .GET [] ≠ some 0 ∧
      matchBestRoute [emptyPatternRoute 0, emptyPatternRoute 1] .GET [] = none :=
  ⟨rfl, by decide, by decide, by decide, by decide⟩


/-- C3. For every route table, method and path: if a Static route has a raw
pattern exactly equal to the path, `matchBestRoute` returns the
first-registered such Static route (index `i`: no Static route before it has
that pattern), whatever the other routes of the table match. -/
theorem matchBestRoute_static_exact_first (routes : List Route) (method : HttpMethod)
    (path : Str) (i : Nat) (route : Route) (hi : routes[i]? = some route)
    (hs : route.staticExact path)
    (hfirst : ∀ j r, j < i → routes[j]? = some r → ¬ r.staticExact path) :
    matchBestRoute routes method path = some i := by
  have key : ∀ (rs : List Route) (i k : Nat) (bm : Option Nat) (bml : Nat),
      rs[i]? = some route → (∀ j r, j < i → rs[j]? = some r → ¬ r.staticExact path) →
      matchBestRoute.loop method path rs k bm bml = some (k + i) := by
    intro rs
    induction rs with
    | nil => intro i k bm bml h; simp at h
    | cons r rest ih =>
      intro i k bm bml h hf
      cases i with
      | zero =>
        simp only [List.getElem?_cons_zero, Option.some.injEq] at h
        subst h
        simp [matchBestRoute.loop, hs.1, hs.2]
      | succ n =>
        simp only [List.getElem?_cons_succ] at h
        have hf0 : ¬ r.staticExact path := hf 0 r (Nat.succ_pos n) (by simp)
        have hfrest : ∀ j r, j < n → rest[j]? = some r → ¬ r.staticExact path :=
          fun j x hj hx => hf (j + 1) x (Nat.succ_lt_succ hj) (by simpa using hx)
        have hrec := fun bm bml => ih n (k + 1) bm bml h hfrest
        have harith : k + 1 + n = k + (n + 1) := by omega
        unfold matchBestRoute.loop
        cases hty : r.type with
        | NormalRoute => simp only [hrec, harith]
        | StaticRoute =>
          have hpat : ¬ r.pattern = path := fun hp => hf0 ⟨hty, hp⟩
          simp only [hpat, if_false, hrec, harith]
  simpa using key routes i 0 none 0 hi hfirst

/-- C3, on the table `[GET "/a", STATIC "/a"]` and the path "/a": the Normal
route matches the whole path, and the Static route, registered second, is the
one returned. -/
theorem matchBestRoute_static_exact_first_witness :
    [normalRouteA, staticRouteA][1]? = some staticRouteA ∧
      normalRouteA.qualifies .GET "/a".toList ∧
      matchBestRoute [normalRouteA, staticRouteA] .GET "/a".toList = some 1 :=
  ⟨rfl, by decide,
    matchBestRoute_static_exact_first [normalRouteA, staticRouteA] .GET "/a".toList 1
      staticRouteA rfl (by decide) (by
        intro j r hj hr
        have hj0 : j = 0 := by omega
        subst hj0
        simp only [List.getElem?_cons_zero, Option.some.injEq] at hr
        subst hr
        decide)⟩

/-- Each registration method for Normal routes builds a Normal route for its
method with the `Route` constructor and appends it to the table. -/
theorem Router.normalRegistrations_eq (pcre2_compile : Str → Option Pcre2Code)
    (routes : List Route) (pattern : Str) (handler : Option Nat) :
    ∀ reg ∈ Router.normalRegistrations,
      reg.2 pcre2_compile routes pattern handler =
        (Route.new pcre2_compile reg.1 pattern handler .NormalRoute).map
          (fun route => routes ++ [route]) := by
  intro reg hreg
  simp only [Router.normalRegistrations, List.mem_cons, List.mem_singleton,
    List.not_mem_nil, or_false] at hreg
  rcases hreg with h | h | h | h | h | h <;> subst h <;>
    simp only [Router.GET, Router.POST, Router.PUT, Router.PATCH, Router.DELETE,
      Router.OPTIONS] <;>
    cases Route.new pcre2_compile _ pattern handler .NormalRoute <;> rfl

/-- The method `STATIC` builds a Static route with the `Route` constructor,
sets its directory and appends it to the table. -/
theorem Router.STATIC_eq (pcre2_compile : Str → Option Pcre2Code)
    (routes : List Route) (pattern dirname : Str) :
    Router.STATIC pcre2_compile routes pattern dirname =
      (Route.new pcre2_compile .GET pattern none .StaticRoute).map
        (fun route => routes ++ [route.setDirname dirname]) := by
  unfold Router.STATIC
  cases Route.new pcre2_compile .GET pattern none .StaticRoute <;> rfl

/-- Setting the directory of a route leaves its pattern unchanged. -/
theorem Route.setDirname_pattern (route : Route) (dir : Str) :
    (route.setDirname dir).pattern = route.pattern := by
  unfold Route.setDirname
  split <;> rfl

/-- C4. For every non-empty pattern given to a Normal-route registration
(GET, POST, PUT, PATCH, DELETE, OPTIONS), the registration appends one route to
the table, and the pattern stored in that route begins with a caret and ends
with a dollar sign; it is the input with exactly the missing anchors added,
hence the input itself when both anchors are present, and anchoring it again
changes nothing. For a Static route the stored pattern is the input. A route is
built exactly when the stored pattern compiles. -/
theorem Route_new_pattern_anchored (pcre2_compile : Str → Option Pcre2Code)
    (pattern : Str) (handler : Option Nat) (routes : List Route) (hne : pattern ≠ []) :
    (∀ reg ∈ Router.normalRegistrations, ∀ routes1,
      reg.2 pcre2_compile routes pattern handler = .ok routes1 →
      ∃ route, routes1 = routes ++ [route] ∧
        route.type = .NormalRoute ∧ route.method = reg.1 ∧
        route.pattern.head? = some '^' ∧ route.pattern.getLast? = some '$' ∧
        route.pattern = (if pattern.head? = some '^' then [] else ['^']) ++ pattern ++
          (if pattern.getLast? = some '$' then [] else ['$']) ∧
        (pattern.head? = some '^' → pattern.getLast? = some '$' → route.pattern = pattern) ∧
        Route.anchoredPattern .NormalRoute route.pattern = route.pattern) ∧
    (∀ dirname routes1, Router.STATIC pcre2_compile routes pattern dirname = .ok routes1 →
      ∃ route, routes1 = routes ++ [route] ∧ route.type = .StaticRoute ∧
        route.pattern = pattern) ∧
    (∀ method type,
      (∃ route, Route.new pcre2_compile method pattern handler type = .ok route) ↔
      ∃ code, pcre2_compile (cstr (Route.anchoredPattern type pattern)) = some code) := by
  refine ⟨?_, ?_, ?_⟩
  · intro reg hreg routes1 h
    rw [Router.normalRegistrations_eq pcre2_compile routes pattern handler reg hreg] at h
    cases hnew : Route.new pcre2_compile reg.1 pattern handler .NormalRoute with
    | error e =>
      rw [hnew] at h
      exact Except.noConfusion h
    | ok route =>
      rw [hnew] at h
      injection h with h
      obtain ⟨_, hp⟩ := Route.new_eq_ok _ _ _ _ _ _ hnew
      obtain ⟨hty, hme⟩ := Route.new_eq_ok_fields _ _ _ _ _ _ hnew
      have hh := Route.anchoredPattern_head pattern
      have hl := Route.anchoredPattern_getLast pattern hne
      refine ⟨route, h.symm, hty, hme, ?_⟩
      rw [hp]
      refine ⟨hh, hl, Route.anchoredPattern_normal pattern, ?_, ?_⟩
      · intro h1 h2
        rw [Route.anchoredPattern_normal]
        simp [h1, h2]
      · rw [Route.anchoredPattern_normal (Route.anchoredPattern .NormalRoute pattern)]
        simp [hh, hl]
  · intro dirname routes1 h
    rw [Router.STATIC_eq] at h
    cases hnew : Route.new pcre2_compile .GET pattern none .StaticRoute with
    | error e =>
      rw [hnew] at h
      exact Except.noConfusion h
    | ok route =>
      rw [hnew] at h
      injection h with h
      obtain ⟨_, hp⟩ := Route.new_eq_ok _ _ _ _ _ _ hnew
      obtain ⟨hty, _⟩ := Route.new_eq_ok_fields _ _ _ _ _ _ hnew
      refine ⟨route.setDirname dirname, h.symm, ?_, ?_⟩
      · unfold Route.setDirname
        rw [if_pos hty]
        exact hty
      · rw [Route.setDirname_pattern, hp]
        rfl
  · intro method type
    unfold Route.new
    cases pattern with
    | nil => exact absurd rfl hne
    | cons c cs =>
      simp only [List.isEmpty_cons, Bool.false_eq_true, if_false]
      constructor
      · rintro ⟨route, h⟩
        split at h
        · exact Except.noConfusion h
        · exact ⟨_, by assumption⟩
      · rintro ⟨code, h⟩
        rw [h]
        exact ⟨_, rfl⟩

/-- C4, on the registrations `GET("/a", handler 0)` and then
`STATIC("/a", "/var/www")` with the literal stand-in for PCRE2: the Normal
route is stored with the pattern `^/a$`, the Static route with the pattern
`/a`. -/
theorem Route_new_pattern_anchored_witness :
    Router.GET Literal.pcre2_compile [] "/a".toList (some 0) = .ok [normalRouteA] ∧
      normalRouteA.pattern = "^/a$".toList ∧
      Router.STATIC Literal.pcre2_compile [normalRouteA] "/a".toList "/var/www".toList =
        .ok [normalRouteA, staticRouteA] ∧
      staticRouteA.pattern = "/a".toList ∧
      ∃ route, [normalRouteA] = [] ++ [route] ∧
        route.type = .NormalRoute ∧ route.method = .GET ∧
        route.pattern.head? = some '^' ∧ route.pattern.getLast? = some '$' ∧
        route.pattern = (if "/a".toList.head? = some '^' then [] else ['^']) ++ "/a".toList ++
          (if "/a".toList.getLast? = some '$' then [] else ['$']) ∧
        ("/a".toList.head? = some '^' → "/a".toList.getLast? = some '$' →
          route.pattern = "/a".toList) ∧
        Route.anchoredPattern .NormalRoute route.pattern = route.pattern :=
  ⟨rfl, rfl, rfl, rfl,
    (Route_new_pattern_anchored Literal.pcre2_compile "/a".toList (some 0) []
      (by decide)).1 (.GET, Router.GET) (List.mem_cons_self _ _) [normalRouteA] rfl⟩

/-! ## Request parser -/

/-- The comparison of `request.cpp` decides equality under case folding. -/
theorem caseInsensitiveStringCompare_iff (a b : Str) :
    caseInsensitiveStringCompare a b = true ↔ CaseFoldEq a b := by
  have key : ∀ (a b : Str),
      equal (fun ch1 ch2 => tolower ch1 == tolower ch2) a b = true ↔
        a.map tolower = b.map tolower := by
    intro a
    induction a with
    | nil =>
      intro b
      cases b with
      | nil => simp [equal]
      | cons y ys => simp [equal]
    | cons x xs ih =>
      intro b
      cases b with
      | nil => simp [equal]
      | cons y ys => simp [equal, ih ys]
  unfold caseInsensitiveStringCompare CaseFoldEq
  by_cases hl : a.length = b.length
  · simp [hl, key]
  · simp [hl]

/-- The loop of `findRequestHeader` returns the first header, from index `k`
on, whose name equals `name` under case folding. -/
theorem Request.findRequestHeader.loop_eq_some (name : Str) (headers : List Header)
    (k i : Nat) (h : Header) :
    Request.findRequestHeader.loop name headers k = some (i, h) ↔
      ∃ n, i = k + n ∧ headers[n]? = some h ∧ CaseFoldEq h.name name ∧
        ∀ j x, j < n → headers[j]? = some x → ¬ CaseFoldEq x.name name := by
  induction headers generalizing k with
  | nil => simp [Request.findRequestHeader.loop]
  | cons x rest ih =>
    unfold Request.findRequestHeader.loop
    by_cases hx : caseInsensitiveStringCompare x.name name = true
    · have hfold := (caseInsensitiveStringCompare_iff x.name name).mp hx
      simp only [hx, if_true, Option.some.injEq, Prod.mk.injEq]
      constructor
      · rintro ⟨rfl, rfl⟩
        exact ⟨0, rfl, by simp, hfold, fun j _ hj => absurd hj (Nat.not_lt_zero j)⟩
      · rintro ⟨n, hn, hget, _, hmin⟩
        cases n with
        | zero =>
          simp only [List.getElem?_cons_zero, Option.some.injEq] at hget
          exact ⟨by omega, hget⟩
        | succ m => exact absurd hfold (hmin 0 x (Nat.succ_pos m) (by simp))
    · have hfold : ¬ CaseFoldEq x.name name :=
        fun hc => hx ((caseInsensitiveStringCompare_iff x.name name).mpr hc)
      simp only [hx, Bool.false_eq_true, if_false, ih (k + 1)]
      constructor
      · rintro ⟨n, hn, hget, hc, hmin⟩
        refine ⟨n + 1, by omega, by simpa using hget, hc, ?_⟩
        intro j y hj hy
        cases j with
        | zero =>
          simp only [List.getElem?_cons_zero, Option.some.injEq] at hy
          subst hy
          exact hfold
        | succ m =>
          exact hmin m y (by omega) (by simpa using hy)
      · rintro ⟨n, hn, hget, hc, hmin⟩
        cases n with
        | zero =>
          simp only [List.getElem?_cons_zero, Option.some.injEq] at hget
          subst hget
          exact absurd hc hfold
        | succ m =>
          refine ⟨m, by omega, by simpa using hget, hc, ?_⟩
          intro j y hj hy
          exact hmin (j + 1) y (by omega) (by simpa using hy)

/-- The loop of `findRequestHeader` returns null exactly when no header name
equals `name` under case folding. -/
theorem Request.findRequestHeader.loop_eq_none (name : Str) (headers : List Header) (k : Nat) :
    Request.findRequestHeader.loop name headers k = none ↔
      ∀ h ∈ headers, ¬ CaseFoldEq h.name name := by
  induction headers generalizing k with
  | nil => simp [Request.findRequestHeader.loop]
  | cons x rest ih =>
    unfold Request.findRequestHeader.loop
    by_cases hx : caseInsensitiveStringCompare x.name name = true
    · have hfold := (caseInsensitiveStringCompare_iff x.name name).mp hx
      simp only [hx, if_true, List.mem_cons, forall_eq_or_imp]
      constructor
      · intro h
        exact Option.noConfusion h
      · intro h
        exact absurd hfold h.1
    · have hfold : ¬ CaseFoldEq x.name name :=
        fun hc => hx ((caseInsensitiveStringCompare_iff x.name name).mpr hc)
      simp only [hx, Bool.false_eq_true, if_false, ih (k + 1), List.mem_cons, forall_eq_or_imp]
      exact ⟨fun h => ⟨hfold, h⟩, fun h => h.2⟩

/-- C8. For every header list and every name, `findRequestHeader` returns the
header of lowest index whose name equals the name under ASCII case folding
(same length, each character equal after `tolower`), and returns null if and
only if no header name equals it in that sense. -/
theorem findRequestHeader_first_case_insensitive (self : Request) (name : Str) :
    (∀ i h, self.findRequestHeader name = some (i, h) ↔
      (self.headers[i]? = some h ∧ CaseFoldEq h.name name ∧
        ∀ j x, j < i → self.headers[j]? = some x → ¬ CaseFoldEq x.name name)) ∧
    (self.findRequestHeader name = none ↔
      ∀ h ∈ self.headers, ¬ CaseFoldEq h.name name) := by
  refine ⟨?_, Request.findRequestHeader.loop_eq_none name self.headers 0⟩
  intro i h
  unfold Request.findRequestHeader
  rw [Request.findRequestHeader.loop_eq_some]
  constructor
  · rintro ⟨n, hn, rest⟩
    have : i = n := by omega
    subst this
    exact rest
  · intro rest
    exact ⟨i, by omega, rest⟩


/-- C8, on the header list `Accept`, `HOST`, `host`: the lookup of `Host`
returns the header at index 1, the first of the two that match, and the lookup
of `Cookie` returns null. -/
theorem findRequestHeader_first_case_insensitive_witness :
    twoHosts.findRequestHeader "Host".toList = some (1, ⟨"HOST".toList, "x".toList⟩) ∧
      twoHosts.findRequestHeader "Cookie".toList = none :=
  ⟨((findRequestHeader_first_case_insensitive twoHosts "Host".toList).1 1
      ⟨"HOST".toList, "x".toList⟩).mpr
      ⟨rfl, by decide, by
        intro j x hj hx
        have hj0 : j = 0 := by omega
        subst hj0
        injection hx with hx
        subst hx
        decide⟩,
    (findRequestHeader_first_case_insensitive twoHosts "Cookie".toList).2.mpr (by decide)⟩


/-- The search for a character finds its first occurrence. -/
theorem find_char (c : Char) (s : Str) :
    find [c] s = if c ∈ s then some (s.takeWhile (fun x => x != c)).length else none := by
  induction s with
  | nil => simp [find]
  | cons x xs ih =>
    unfold find
    by_cases hx : x = c
    · subst hx
      simp [List.isPrefixOf]
    · have hx2 : ¬ c = x := fun h => hx h.symm
      simp only [List.isPrefixOf, beq_iff_eq, hx2, Bool.false_and, Bool.false_eq_true, if_false, ih]
      by_cases hmem : c ∈ xs
      · simp [hmem, hx, hx2]
      · simp [hmem, hx, hx2]

/-- The text before the first character that fails a test, as a prefix. -/
theorem take_length_takeWhile (p : Char → Bool) (s : Str) :
    s.take (s.takeWhile p).length = s.takeWhile p := by
  induction s with
  | nil => rfl
  | cons x xs ih =>
    by_cases hx : p x = true
    · simp [List.takeWhile_cons, hx, ih]
    · simp [List.takeWhile_cons, hx]

/-- The text from the first character that fails a test on, as a suffix. -/
theorem drop_length_takeWhile (p : Char → Bool) (s : Str) :
    s.drop (s.takeWhile p).length = s.dropWhile p := by
  induction s with
  | nil => rfl
  | cons x xs ih =>
    by_cases hx : p x = true
    · simp [List.takeWhile_cons, List.dropWhile_cons, hx, ih]
    · simp [List.takeWhile_cons, List.dropWhile_cons, hx]

/-- The segments of a string: the text before the first separator, then the
segments of the text after it. -/
theorem segments_eq (sep : Char) (s : Str) :
    segments sep s =
      if sep ∈ s then
        s.takeWhile (fun x => x != sep) :: segments sep ((s.dropWhile (fun x => x != sep)).drop 1)
      else [s] := by
  induction s with
  | nil => simp [segments]
  | cons x xs ih =>
    have hunf : segments sep (x :: xs) =
        if x = sep then [] :: segments sep xs
        else
          match segments sep xs with
          | [] => [[x]]
          | seg :: segs => (x :: seg) :: segs := rfl
    rw [hunf]
    by_cases hx : x = sep
    · subst hx
      simp
    · have hx2 : ¬ sep = x := fun h => hx h.symm
      rw [if_neg hx, ih]
      by_cases hmem : sep ∈ xs
      · simp [hmem, hx, hx2, List.takeWhile_cons, List.dropWhile_cons]
      · simp [hmem, hx, hx2]


/-- The effect of a segment on the map in terms of its key and value. -/
theorem Request.assignSegment_eq (queries : List (Str × Str)) (seg : Str) :
    Request.assignSegment queries seg =
      if '=' ∈ seg then mapAssign queries (seg.takeWhile (fun c => c != '=')) (segmentValue seg)
      else queries := by
  unfold Request.assignSegment segmentValue
  rw [find_char]
  by_cases hmem : '=' ∈ seg
  · simp only [hmem, if_true, take_length_takeWhile]
    rw [← drop_length_takeWhile, List.drop_drop, Nat.add_comm]
  · simp only [hmem, if_false]

/-- With enough fuel, the loop over the query string followed by the handling
of the last segment assigns every segment in turn. -/
theorem Request.queryLoop_spec (fuel : Nat) (q : Str) (m : List (Str × Str))
    (hfuel : q.length ≤ fuel) :
    Request.assignSegment (Request.queryLoop fuel q m).2 (Request.queryLoop fuel q m).1 =
      (segments '&' q).foldl Request.assignSegment m := by
  induction fuel generalizing q m with
  | zero =>
    have hq : q = [] := List.length_eq_zero.mp (Nat.le_zero.mp hfuel)
    subst hq
    rfl
  | succ n ih =>
    unfold Request.queryLoop
    rw [segments_eq, find_char]
    by_cases hmem : '&' ∈ q
    · simp only [hmem, if_true, List.foldl_cons, take_length_takeWhile]
      have hdrop : q.drop ((q.takeWhile (fun x => x != '&')).length + 1) =
          (q.dropWhile (fun x => x != '&')).drop 1 := by
        rw [← drop_length_takeWhile, List.drop_drop, Nat.add_comm]
      rw [hdrop]
      have hlen : ((q.dropWhile (fun x => x != '&')).drop 1).length ≤ n := by
        rw [← hdrop, List.length_drop]
        omega
      exact ih _ _ hlen
    · simp only [hmem, if_false, List.foldl_cons, List.foldl_nil]

/-- The map that `ParseHeaders` builds from a query string. -/
theorem Request.parseQueries_snd (q : Str) (m : List (Str × Str)) :
    (Request.parseQueries q m).2 = (segments '&' q).foldl Request.assignSegment m := by
  unfold Request.parseQueries
  cases q with
  | nil => rfl
  | cons c cs =>
    simp only [List.isEmpty_cons, Bool.not_false, if_true]
    rw [← Request.queryLoop_spec (c :: cs).length (c :: cs) m (Nat.le_refl _)]
    unfold Request.assignSegment
    split <;> rfl

/-- The pairs of the map after an assignment. -/
theorem mem_mapAssign (m : List (Str × Str)) (key value k v : Str) :
    (k, v) ∈ mapAssign m key value ↔ (k = key ∧ v = value) ∨ ((k, v) ∈ m ∧ k ≠ key) := by
  unfold mapAssign
  simp

/-- Removing the pairs of another key does not change a lookup. -/
theorem find_filter_ne (m : List (Str × Str)) (key k : Str) (hk : ¬ key = k) :
    (m.filter (fun pair => pair.1 != key)).find? (fun pair => pair.1 == k) =
      m.find? (fun pair => pair.1 == k) := by
  induction m with
  | nil => rfl
  | cons x xs ih =>
    by_cases hx : x.1 = key
    · have hxk : ¬ x.1 = k := fun h => hk (hx ▸ h)
      have hb1 : (x.1 != key) = false := by simp [hx]
      have hb2 : (x.1 == k) = false := by simpa using hxk
      simp only [List.filter_cons, hb1, Bool.false_eq_true, if_false, List.find?_cons, hb2]
      exact ih
    · have hne : (x.1 != key) = true := by simpa using hx
      simp only [List.filter_cons, hne, if_true, List.find?_cons, ih]

/-- The lookup of a key after an assignment. -/
theorem find_mapAssign (m : List (Str × Str)) (key value k : Str) :
    (mapAssign m key value).find? (fun pair => pair.1 == k) =
      if key = k then some (key, value) else m.find? (fun pair => pair.1 == k) := by
  unfold mapAssign
  by_cases hk : key = k
  · simp [hk]
  · have hb : (key == k) = false := by simpa using hk
    simp only [hk, if_false, List.find?_cons, hb]
    exact find_filter_ne m key k hk

/-- The pairs of the map built from a list of segments: each key with the value
of the last segment that defines it. -/
theorem mem_foldl_assignSegment (segs : List Str) (k v : Str) :
    (k, v) ∈ segs.foldl Request.assignSegment [] ↔
      ((segs.filter (segmentDefines k)).getLast?).map segmentValue = some v := by
  induction segs using List.reverseRecOn generalizing v with
  | nil => simp
  | append_singleton init s ih =>
    rw [List.foldl_append, List.foldl_cons, List.foldl_nil, Request.assignSegment_eq,
      List.filter_append]
    by_cases hmem : '=' ∈ s
    · by_cases hkey : s.takeWhile (fun c => c != '=') = k
      · have hd : List.filter (segmentDefines k) [s] = [s] := by
          simp [segmentDefines, hmem, hkey]
        rw [hd, List.getLast?_concat, if_pos hmem, mem_mapAssign, hkey]
        constructor
        · rintro (⟨_, h⟩ | ⟨_, h⟩)
          · rw [h]
            rfl
          · exact absurd rfl h
        · intro h
          injection h with h
          exact Or.inl ⟨rfl, h.symm⟩
      · have hd : List.filter (segmentDefines k) [s] = [] := by
          simp [segmentDefines, hmem, hkey]
        have hkey2 : ¬ k = s.takeWhile (fun c => c != '=') := fun h => hkey h.symm
        rw [hd, List.append_nil, if_pos hmem, mem_mapAssign, ← ih v]
        constructor
        · rintro (⟨h, _⟩ | ⟨h, _⟩)
          · exact absurd h hkey2
          · exact h
        · intro h
          exact Or.inr ⟨h, hkey2⟩
    · have hd : List.filter (segmentDefines k) [s] = [] := by
        simp [segmentDefines, hmem]
      rw [hd, List.append_nil, if_neg hmem]
      exact ih v

/-- The lookup of a key in the map built from a list of segments. -/
theorem find_foldl_assignSegment (segs : List Str) (k : Str) :
    ((segs.foldl Request.assignSegment []).find? (fun pair => pair.1 == k)).map Prod.snd =
      ((segs.filter (segmentDefines k)).getLast?).map segmentValue := by
  induction segs using List.reverseRecOn with
  | nil => simp
  | append_singleton init s ih =>
    rw [List.foldl_append, List.foldl_cons, List.foldl_nil, Request.assignSegment_eq,
      List.filter_append]
    by_cases hmem : '=' ∈ s
    · by_cases hkey : s.takeWhile (fun c => c != '=') = k
      · have hd : List.filter (segmentDefines k) [s] = [s] := by
          simp [segmentDefines, hmem, hkey]
        rw [hd, List.getLast?_concat, if_pos hmem, find_mapAssign, if_pos hkey]
        rfl
      · have hd : List.filter (segmentDefines k) [s] = [] := by
          simp [segmentDefines, hmem, hkey]
        rw [hd, List.append_nil, if_pos hmem, find_mapAssign, if_neg hkey]
        exact ih
    · have hd : List.filter (segmentDefines k) [s] = [] := by
        simp [segmentDefines, hmem]
      rw [hd, List.append_nil, if_neg hmem]
      exact ih

/-- The token that the first extraction reads is the first token of the line. -/
theorem extract_fst (line : Str) :
    (match extract line with
      | none => []
      | some r => r.1) = firstToken line := by
  unfold extract firstToken
  cases h : line.dropWhile isspace with
  | nil => simp
  | cons c cs => simp

/-- A token that names a method is the name of the method it is mapped to. -/
theorem method_fromstring_tostring (t : Str) (h : method_fromstring t ≠ .INVALID) :
    method_tostring (method_fromstring t) = .ok t := by
  unfold method_fromstring at *
  split_ifs at h ⊢ with h1 h2 h3 h4 h5 h6
  all_goals first | (subst_vars; rfl) | exact absurd rfl h

/-- A token outside the six names is mapped to the sentinel. -/
theorem method_fromstring_invalid (t : Str) (h : t ∉ methodNames) :
    method_fromstring t = .INVALID := by
  unfold methodNames at h
  simp only [List.mem_cons, List.mem_singleton, not_or, List.not_mem_nil, or_false] at h
  obtain ⟨h1, h2, h3, h4, h5, h6⟩ := h
  unfold method_fromstring
  rw [if_neg h1, if_neg h2, if_neg h3, if_neg h4, if_neg h5, if_neg h6]

/-- The outcome of `ParseMethodAndPath` in terms of the first token of the
request line. -/
theorem Request.ParseMethodAndPath_method (self : Request) (req_data : Str) :
    self.ParseMethodAndPath req_data =
      if req_data = [] then .error "Invalid Http request"
      else if method_fromstring (firstToken (requestLine req_data)) = .INVALID then
        .error "Invalid Http method"
      else
        .ok { self with
          method := method_fromstring (firstToken (requestLine req_data)),
          path := (match extract (requestLine req_data) with
            | none => self.path
            | some r => match extract r.2 with
              | none => self.path
              | some r2 => r2.1) } := by
  unfold Request.ParseMethodAndPath getline
  cases req_data with
  | nil => rfl
  | cons c cs =>
    simp only [List.isEmpty_cons, Bool.false_eq_true, if_false]
    rw [← extract_fst]
    show _ = if method_fromstring (match extract (requestLine (c :: cs)) with | none => [] | some r => r.1) = .INVALID then _ else _
    cases h1 : extract (requestLine (c :: cs)) with
    | none => 
      unfold requestLine at h1
      simp [h1]
    | some r =>
      obtain ⟨t, rest⟩ := r
      unfold requestLine at h1
      simp only [h1]
      cases h2 : extract rest with
      | none => simp
      | some r2 => simp

/-- What a successful `ParseHeaders` leaves in the request. -/
theorem Request.ParseHeaders_ok (curl_url_set : Str → Option CurlParts) (self : Request)
    (req_data : Str) (r : Request) (h : self.ParseHeaders curl_url_set req_data = .ok r) :
    r.method = self.method ∧ r.path = self.path ∧ r.body = self.body ∧
      strstr req_data DOUBLE_LF = some r.header_end_pos ∧
      ∃ hostHeader url, r.findRequestHeader "Host".toList = some hostHeader ∧
        URL.new curl_url_set (SCHEME ++ "://".toList ++ hostHeader.2.value ++ r.path) = .ok url ∧
        r.queries = (Request.parseQueries url.query self.queries).2 := by
  unfold Request.ParseHeaders at h
  split at h
  · exact Except.noConfusion h
  · split at h
    · exact Except.noConfusion h
    · rename_i header_end hend
      dsimp only at h
      split at h
      · exact Except.noConfusion h
      · split at h
        · exact Except.noConfusion h
        · rename_i hostHeader hhost
          split at h
          · exact Except.noConfusion h
          · rename_i url hurl
            injection h with h
            subst h
            exact ⟨rfl, rfl, rfl, hend, hostHeader, url, hhost, hurl, rfl⟩

/-- What a successful `ParseBody` leaves in the request. -/
theorem Request.ParseBody_ok (self : Request) (req_data : Str) (r : Request)
    (h : self.ParseBody req_data = .ok r) :
    r.method = self.method ∧ (isSafeMethod self.method = true → r = self) ∧
      r.headers = self.headers ∧ r.path = self.path ∧ r.queries = self.queries ∧
      r.url = self.url := by
  unfold Request.ParseBody at h
  split at h
  · rename_i hsafe
    injection h with h
    subst h
    exact ⟨rfl, fun _ => rfl, rfl, rfl, rfl, rfl⟩
  · rename_i hsafe
    split at h
    · exact Except.noConfusion h
    · injection h with h
      subst h
      exact ⟨rfl, fun hs => absurd hs hsafe, rfl, rfl, rfl, rfl⟩

/-- A successful `ParseHttp` is a successful run of its three stages. -/
theorem Request.ParseHttp_ok (curl_url_set : Str → Option CurlParts) (self : Request)
    (req_data : Str) (r : Request) (h : self.ParseHttp curl_url_set req_data = .ok r) :
    ∃ self1 self2, self.ParseMethodAndPath req_data = .ok self1 ∧
      self1.ParseHeaders curl_url_set req_data = .ok self2 ∧
      self2.ParseBody req_data = .ok r := by
  unfold Request.ParseHttp at h
  split at h
  · exact Except.noConfusion h
  · rename_i self1 h1
    split at h
    · exact Except.noConfusion h
    · rename_i self2 h2
      exact ⟨self1, self2, h1, h2, h⟩

/-- The lines of a text: the text before the first CRLF, then the lines of the
text after it. -/
theorem linesCRLF_eq (s : Str) :
    linesCRLF s =
      match find "\r\n".toList s with
      | some pos => s.take pos :: linesCRLF (s.drop (pos + 2))
      | none => [s] := by
  induction s using linesCRLF.induct with
  | case1 => rfl
  | case2 c =>
    have : find "\r\n".toList [c] = none := by
      simp [find, List.isPrefixOf]
    rw [this]
    rfl
  | case3 c d rest hcd ih =>
    obtain ⟨rfl, rfl⟩ := hcd
    have : find "\r\n".toList ('\r' :: '\n' :: rest) = some 0 := by
      simp [find, List.isPrefixOf]
    rw [this]
    simp [linesCRLF]
  | case4 c d rest hcd hnil ih =>
    have hpre : ("\r\n".toList).isPrefixOf (c :: d :: rest) = false := by
      simp only [String.toList, List.isPrefixOf, Bool.and_true]
      by_cases h1 : c = '\r'
      · by_cases h2 : d = '\n'
        · exact absurd ⟨h1, h2⟩ hcd
        · simp [h1, h2, Ne.symm h2]
      · simp [h1, Ne.symm h1]
    have hfind : find "\r\n".toList (c :: d :: rest) =
        (find "\r\n".toList (d :: rest)).map (· + 1) := by
      rw [find, hpre]
      rfl
    have hunf : linesCRLF (c :: d :: rest) =
        match linesCRLF (d :: rest) with
        | [] => [[c]]
        | line :: lines => (c :: line) :: lines := by
      rw [linesCRLF, if_neg hcd]
    rw [hunf, hfind, ih]
    cases find "\r\n".toList (d :: rest) with
    | none => rfl
    | some pos => rfl
  | case5 c d rest hcd line lines hl ih =>
    have hpre : ("\r\n".toList).isPrefixOf (c :: d :: rest) = false := by
      simp only [String.toList, List.isPrefixOf, Bool.and_true]
      by_cases h1 : c = '\r'
      · by_cases h2 : d = '\n'
        · exact absurd ⟨h1, h2⟩ hcd
        · simp [h1, h2, Ne.symm h2]
      · simp [h1, Ne.symm h1]
    have hfind : find "\r\n".toList (c :: d :: rest) =
        (find "\r\n".toList (d :: rest)).map (· + 1) := by
      rw [find, hpre]
      rfl
    have hunf : linesCRLF (c :: d :: rest) =
        match linesCRLF (d :: rest) with
        | [] => [[c]]
        | line :: lines => (c :: line) :: lines := by
      rw [linesCRLF, if_neg hcd]
    rw [hunf, hfind, ih]
    cases find "\r\n".toList (d :: rest) with
    | none => rfl
    | some pos => rfl


/-- With enough fuel, the loop that splits the header block ends because no
CRLF is left, and it yields the lines of the block. -/
theorem Request.splitHeaderLines_spec (fuel : Nat) (header_content : Str)
    (header_lines : List Str) (hfuel : header_content.length ≤ fuel) :
    (Request.splitHeaderLines fuel header_content header_lines).2 ++
        [(Request.splitHeaderLines fuel header_content header_lines).1] =
      header_lines ++ linesCRLF header_content := by
  induction fuel generalizing header_content header_lines with
  | zero =>
    have hq : header_content = [] := List.length_eq_zero.mp (Nat.le_zero.mp hfuel)
    subst hq
    rfl
  | succ n ih =>
    unfold Request.splitHeaderLines
    rw [linesCRLF_eq]
    cases hf : find "\r\n".toList header_content with
    | none => rfl
    | some pos =>
      simp only
      have hlen : (header_content.drop (pos + 2)).length ≤ n := by
        rw [List.length_drop]
        omega
      rw [ih _ _ hlen, List.append_assoc]
      rfl

/-- The loop over the header lines appends one header per line that has a
colon-space and skips the other lines. -/
theorem Request.parseHeaderLines_eq (headers : List Header) (header_lines : List Str) :
    Request.parseHeaderLines headers header_lines =
      headers ++ header_lines.filterMap headerOfLine := by
  unfold Request.parseHeaderLines
  induction header_lines generalizing headers with
  | nil => simp
  | cons line rest ih =>
    rw [List.foldl_cons, ih, List.filterMap_cons]
    cases hf : find ": ".toList line with
    | none => simp only [Request.parseLine, headerOfLine, hf]
    | some pos =>
      simp only [Request.parseLine, headerOfLine, hf, List.append_assoc, List.singleton_append]

/-- The header list after a successful `ParseHeaders`. The length of the
header block is a `size_t` difference: when the first CRLF CRLF is the first
CRLF itself, it wraps around and the block runs to the end of the buffer. -/
theorem Request.ParseHeaders_headers (curl_url_set : Str → Option CurlParts) (self : Request)
    (req_data : Str) (r : Request) (h : self.ParseHeaders curl_url_set req_data = .ok r) :
    ∃ header_start header_end,
      strstr req_data LF = some header_start ∧ strstr req_data DOUBLE_LF = some header_end ∧
      r.header_start_pos = header_start + 2 ∧ r.header_end_pos = header_end ∧
      r.headers = self.headers ++
        (linesCRLF ((req_data.drop (header_start + 2)).take
          (sizeSub header_end (header_start + 2)) ++ ['\x00'])).filterMap headerOfLine := by
  unfold Request.ParseHeaders at h
  split at h
  · exact Except.noConfusion h
  · rename_i header_start hstart
    split at h
    · exact Except.noConfusion h
    · rename_i header_end hend
      dsimp only at h
      split at h
      · exact Except.noConfusion h
      · rename_i content hcontent
        have hc : content = (req_data.drop (header_start + 2)).take
            (sizeSub header_end (header_start + 2)) := by
          unfold substr at hcontent
          split at hcontent
          · exact Except.noConfusion hcontent
          · injection hcontent with hcontent
            exact hcontent.symm
        split at h
        · exact Except.noConfusion h
        · split at h
          · exact Except.noConfusion h
          · injection h with h
            subst h
            refine ⟨header_start, header_end, hstart, hend, rfl, rfl, ?_⟩
            show Request.parseHeaderLines self.headers _ = _
            rw [Request.parseHeaderLines_eq, Request.splitHeaderLines_spec _ _ _ (Nat.le_refl _),
              List.nil_append, hc]


/-- The header list of every successfully parsed request: one header per line,
cut at each CRLF, of the header block followed by a NUL byte; the block starts
after the first CRLF and its length is the `size_t` difference of the two
bounds. -/
theorem ParseHttp_headers (curl_url_set : Str → Option CurlParts)
    (header_start_pos header_end_pos content_length : Nat) (req_data : Str) (req : Request)
    (h : (Request.new header_start_pos header_end_pos content_length).ParseHttp
      curl_url_set req_data = .ok req) :
    ∃ header_start header_end,
      strstr req_data LF = some header_start ∧ strstr req_data DOUBLE_LF = some header_end ∧
      req.getHeaders =
        (linesCRLF ((req_data.drop (header_start + 2)).take
          (sizeSub header_end (header_start + 2)) ++ ['\x00'])).filterMap headerOfLine := by
  obtain ⟨self1, self2, h1, h2, h3⟩ := Request.ParseHttp_ok _ _ _ _ h
  obtain ⟨header_start, header_end, hs, he, _, _, hh⟩ := Request.ParseHeaders_headers _ _ _ _ h2
  obtain ⟨_, _, hh3, _⟩ := Request.ParseBody_ok _ _ _ h3
  have hh1 : self1.headers = [] := by
    rw [Request.ParseMethodAndPath_method] at h1
    split at h1
    · exact Except.noConfusion h1
    · split at h1
      · exact Except.noConfusion h1
      · injection h1 with h1
        rw [← h1]
        rfl
  refine ⟨header_start, header_end, hs, he, ?_⟩
  unfold Request.getHeaders
  rw [hh3, hh, hh1, List.nil_append]

/-- A buffer in which no line of the header block, as `ParseHeaders` delimits
it, is named Host under case folding is rejected. -/
theorem ParseHttp_fails_without_host (curl_url_set : Str → Option CurlParts)
    (header_start_pos header_end_pos content_length : Nat) (req_data : Str)
    (header_start header_end : Nat)
    (hs : strstr req_data LF = some header_start)
    (he : strstr req_data DOUBLE_LF = some header_end)
    (hno : ∀ h ∈ (linesCRLF ((req_data.drop (header_start + 2)).take
        (sizeSub header_end (header_start + 2)) ++ ['\x00'])).filterMap headerOfLine,
      ¬ CaseFoldEq h.name "Host".toList) :
    ∃ e, (Request.new header_start_pos header_end_pos content_length).ParseHttp
      curl_url_set req_data = .error e := by
  cases hp : (Request.new header_start_pos header_end_pos content_length).ParseHttp
      curl_url_set req_data with
  | error e => exact ⟨e, rfl⟩
  | ok req =>
    exfalso
    obtain ⟨hs1, he1, hs2, he2, hh⟩ := ParseHttp_headers _ _ _ _ _ _ hp
    rw [hs] at hs2
    rw [he] at he2
    injection hs2 with hs2
    injection he2 with he2
    subst hs2
    subst he2
    obtain ⟨self1, self2, _, h2, h3⟩ := Request.ParseHttp_ok _ _ _ _ hp
    obtain ⟨_, _, _, _, hostHeader, _, hhost, _⟩ := Request.ParseHeaders_ok _ _ _ _ h2
    obtain ⟨_, _, hh3, _⟩ := Request.ParseBody_ok _ _ _ h3
    unfold Request.findRequestHeader at hhost
    obtain ⟨n, _, hget, hfold, _⟩ :=
      (Request.findRequestHeader.loop_eq_some _ _ 0 hostHeader.1 hostHeader.2).mp hhost
    have hmem : hostHeader.2 ∈ req.getHeaders := by
      unfold Request.getHeaders
      rw [hh3]
      exact List.getElem?_mem hget
    rw [hh] at hmem
    exact hno _ hmem hfold

/-- The rejection of a buffer without a Host line, on a request whose only
header is `Accept`. -/
theorem ParseHttp_fails_without_host_witness :
    ∃ e, freshRequest.ParseHttp Plain.curl_url_set
      "GET / HTTP/1.1\r\nAccept: text/html\r\n\r\n".toList = .error e :=
  ParseHttp_fails_without_host Plain.curl_url_set 0 0 0
    "GET / HTTP/1.1\r\nAccept: text/html\r\n\r\n".toList 14 33 (by decide) (by decide)
    (by decide)


/-- C5. For every request buffer, `ParseHttp` fails whenever the first
whitespace-delimited token of the request line is not exactly one of OPTIONS,
GET, POST, PUT, PATCH, DELETE (the comparison is an exact, case-sensitive
string equality), and it fails on the empty buffer; whenever `ParseHttp`
succeeds, `getMethod()` is the method named by that token and is not the
INVALID sentinel. -/
theorem ParseHttp_method_token (curl_url_set : Str → Option CurlParts) (self : Request)
    (req_data : Str) :
    (firstToken (requestLine req_data) ∉ methodNames →
      ∃ e, self.ParseHttp curl_url_set req_data = .error e) ∧
    (∃ e, self.ParseHttp curl_url_set [] = .error e) ∧
    (∀ req, self.ParseHttp curl_url_set req_data = .ok req →
      req.getMethod ≠ .INVALID ∧
        method_tostring req.getMethod = .ok (firstToken (requestLine req_data)) ∧
        firstToken (requestLine req_data) ∈ methodNames) := by
  refine ⟨?_, ?_, ?_⟩
  · intro hnot
    have hinv := method_fromstring_invalid _ hnot
    unfold Request.ParseHttp
    rw [Request.ParseMethodAndPath_method]
    by_cases hnil : req_data = []
    · exact ⟨"Invalid Http request", by simp only [hnil, if_true]⟩
    · exact ⟨"Invalid Http method", by simp only [hnil, hinv, if_true, if_false]⟩
  · unfold Request.ParseHttp
    rw [Request.ParseMethodAndPath_method]
    exact ⟨"Invalid Http request", by simp only [if_true]⟩
  · intro req h
    obtain ⟨self1, self2, h1, h2, h3⟩ := Request.ParseHttp_ok _ _ _ _ h
    rw [Request.ParseMethodAndPath_method] at h1
    split at h1
    · exact Except.noConfusion h1
    · split at h1
      · exact Except.noConfusion h1
      · rename_i hvalid
        injection h1 with h1
        have hm1 : self1.method = method_fromstring (firstToken (requestLine req_data)) := by
          rw [← h1]
        have hm2 := (Request.ParseHeaders_ok _ _ _ _ h2).1
        have hm3 := (Request.ParseBody_ok _ _ _ h3).1
        have hm : req.getMethod = method_fromstring (firstToken (requestLine req_data)) := by
          unfold Request.getMethod
          rw [hm3, hm2, hm1]
        rw [hm]
        refine ⟨hvalid, method_fromstring_tostring _ hvalid, ?_⟩
        by_contra hnot
        exact hvalid (method_fromstring_invalid _ hnot)

/-- C5, on two requests: the scenario request with the method written `get` is
rejected, and a GET request is parsed with the method that its first token
names. -/
theorem ParseHttp_method_token_witness :
    (∃ e, freshRequest.ParseHttp Plain.curl_url_set lowerCaseMethod = .error e) ∧
      ∃ req, freshRequest.ParseHttp Plain.curl_url_set getWithBody = .ok req ∧
        req.getMethod ≠ .INVALID ∧ method_tostring req.getMethod = .ok "GET".toList :=
  ⟨(ParseHttp_method_token Plain.curl_url_set freshRequest lowerCaseMethod).1 (by decide),
    _, rfl,
    ((ParseHttp_method_token Plain.curl_url_set freshRequest getWithBody).2.2 _ rfl).1,
    ((ParseHttp_method_token Plain.curl_url_set freshRequest getWithBody).2.2 _ rfl).2.1⟩


/-- C6, at a request whose request line is immediately followed by the blank
line, with the text `Host: x` after the header terminator. The CRLF that ends
the request line and the first CRLF CRLF both start at offset 14, so the header
block holds no line at all; `header_end_pos - header_start_pos` is `14 - 16`,
which wraps around, the text after the terminator is read as the header block,
and `ParseHttp` succeeds with a Host header. -/
theorem ParseHttp_host_after_terminator_accepted :
    strstr hostAfterTerminator LF = some 14 ∧
      strstr hostAfterTerminator DOUBLE_LF = some 14 ∧
      sizeSub 14 (14 + 2) = 2 ^ 64 - 2 ∧
      ∃ req, freshRequest.ParseHttp Plain.curl_url_set hostAfterTerminator = .ok req ∧
        req.header_start_pos = 16 ∧ req.header_end_pos = 14 ∧
        req.findRequestHeader "Host".toList =
          some (0, { name := "Host".toList, value := ['x', '\x00'] }) :=
  ⟨by decide, by decide, by decide, _, rfl, rfl, rfl, rfl⟩

/-- C7, at the scenario request `GET / HTTP/1.1`, `Host: x`, blank line. The
parse succeeds with method GET, path `/` and an empty body, and the header list
holds one Host header whose value is the two-character string made of `x` and
a NUL byte, not the one-character string `x`: `ParseHeaders` appends a NUL byte
to the header block before it splits it into lines, and the byte ends up in the
value of the last header. -/
theorem ParseHttp_scenario_host_value :
    ∃ req, freshRequest.ParseHttp Plain.curl_url_set scenarioRequest = .ok req ∧
      req.getMethod = .GET ∧ req.path = "/".toList ∧ req.Body = [] ∧
      req.getHeaders = [{ name := "Host".toList, value := ['x', '\x00'] }] ∧
      req.getHeaders ≠ [{ name := "Host".toList, value := "x".toList }] :=
  ⟨_, rfl, rfl, rfl, rfl, rfl, by decide⟩


/-- The query map in terms of the query of the URL. For every request that a
fresh request parses successfully, with `q` the query that the constructor
`URL` decomposes from `http://` followed by the Host value and the request
path: the query map holds key `k` with value `v` if and only if the last
segment of `q`, cut at each ampersand, that contains an equals sign and whose
text before its first equals sign is `k`, has `v` as the text after that first
equals sign; `Query(k, d)` returns that `v`, and returns `d` when no segment
defines `k`. This `q` is the query string of the request target only when the
URL string is not cut before it. -/
theorem ParseHttp_query_map (curl_url_set : Str → Option CurlParts)
    (header_start_pos header_end_pos content_length : Nat) (req_data : Str) (req : Request)
    (h : (Request.new header_start_pos header_end_pos content_length).ParseHttp
      curl_url_set req_data = .ok req) :
    ∃ hostHeader url,
      req.findRequestHeader "Host".toList = some hostHeader ∧
      URL.new curl_url_set (SCHEME ++ "://".toList ++ hostHeader.2.value ++ req.path) = .ok url ∧
      (∀ k v, (k, v) ∈ req.queries ↔ queryValue url.query k = some v) ∧
      (∀ k d, req.Query k d = (queryValue url.query k).getD d) := by
  obtain ⟨self1, self2, h1, h2, h3⟩ := Request.ParseHttp_ok _ _ _ _ h
  obtain ⟨_, _, _, _, hostHeader, url, hhost, hurl, hq⟩ := Request.ParseHeaders_ok _ _ _ _ h2
  obtain ⟨_, _, hh3, hp3, hq3, _⟩ := Request.ParseBody_ok _ _ _ h3
  have hq1 : self1.queries = [] := by
    rw [Request.ParseMethodAndPath_method] at h1
    split at h1
    · exact Except.noConfusion h1
    · split at h1
      · exact Except.noConfusion h1
      · injection h1 with h1
        rw [← h1]
        rfl
  have hqueries : req.queries = (segments '&' url.query).foldl Request.assignSegment [] := by
    rw [hq3, hq, hq1, Request.parseQueries_snd]
  have hfind : req.findRequestHeader "Host".toList = some hostHeader := by
    unfold Request.findRequestHeader at hhost ⊢
    rw [hh3]
    exact hhost
  refine ⟨hostHeader, url, hfind, by rw [hp3]; exact hurl, ?_, ?_⟩
  · intro k v
    rw [hqueries]
    exact mem_foldl_assignSegment _ k v
  · intro k d
    have hf := find_foldl_assignSegment (segments '&' url.query) k
    unfold Request.Query queryValue
    rw [hqueries, ← hf]
    cases (List.foldl Request.assignSegment [] (segments '&' url.query)).find?
      (fun pair => pair.1 == k) with
    | none => rfl
    | some pair => rfl

/-- The query map of a GET request for `/a?b=c&d=e&b=f&zz` in which Host is
not the last header: the parse succeeds, the key `b` has the value of its last
definition, and the segment `zz`, which has no equals sign, defines nothing. -/
theorem ParseHttp_query_map_getWithQuery :
    ∃ req, freshRequest.ParseHttp Plain.curl_url_set getWithQuery = .ok req ∧
      req.Query "b".toList [] = "f".toList ∧
      req.Query "d".toList [] = "e".toList ∧
      req.Query "zz".toList "none".toList = "none".toList ∧
      ∃ hostHeader url,
        req.findRequestHeader "Host".toList = some hostHeader ∧
        URL.new Plain.curl_url_set
          (SCHEME ++ "://".toList ++ hostHeader.2.value ++ req.path) = .ok url ∧
        (∀ k v, (k, v) ∈ req.queries ↔ queryValue url.query k = some v) ∧
        (∀ k d, req.Query k d = (queryValue url.query k).getD d) :=
  ⟨_, rfl, rfl, rfl, rfl,
    ParseHttp_query_map Plain.curl_url_set 0 0 0 getWithQuery _ rfl⟩

/-- C9, at the request `GET /a?b=c` whose only header is Host. The parse
succeeds and the request target carries the query string `b=c`, whose one
segment defines `b` as `c`. But the value of Host, the last header, ends with
the NUL byte that `ParseHeaders` appends to the header block before it splits
it; the URL string is `http://x`, the NUL byte, `/a?b=c`; libcurl reads it up
to the NUL byte, and the URL has the path `/` and an empty query. The map is
empty, it does not hold `b`, and `Query("b", "d")` returns the default `d`. -/
theorem ParseHttp_query_lost_when_host_is_last :
    ∃ req url, freshRequest.ParseHttp Plain.curl_url_set queryHostLast = .ok req ∧
      req.getMethod = .GET ∧ req.path = "/a?b=c".toList ∧
      queryValue "b=c".toList "b".toList = some "c".toList ∧
      req.getHeaders = [{ name := "Host".toList, value := ['x', '\x00'] }] ∧
      req.url = some url ∧
      url.original_url = "http://x\x00/a?b=c".toList ∧
      url.path = "/".toList ∧ url.query = [] ∧
      req.queries = [] ∧
      ("b".toList, "c".toList) ∉ req.queries ∧
      req.Query "b".toList "d".toList = "d".toList :=
  ⟨_, _, rfl, rfl, rfl, by decide, rfl, rfl, rfl, rfl, rfl, rfl, by decide, rfl⟩


/-- C10. For every request buffer that a fresh request parses successfully
with method GET or OPTIONS, `Body()` is the empty string, whatever
Content-Length header the request carries and whatever bytes follow the header
terminator. -/
theorem ParseHttp_safe_method_body_empty (curl_url_set : Str → Option CurlParts)
    (header_start_pos header_end_pos content_length : Nat) (req_data : Str) (req : Request)
    (h : (Request.new header_start_pos header_end_pos content_length).ParseHttp
      curl_url_set req_data = .ok req)
    (hm : req.getMethod = .GET ∨ req.getMethod = .OPTIONS) :
    req.Body = [] := by
  obtain ⟨self1, self2, h1, h2, h3⟩ := Request.ParseHttp_ok _ _ _ _ h
  obtain ⟨hm3, hsafe, _⟩ := Request.ParseBody_ok _ _ _ h3
  have hsafe2 : isSafeMethod self2.method = true := by
    unfold Request.getMethod at hm
    rw [hm3] at hm
    rcases hm with hm | hm <;> rw [hm] <;> rfl
  have hreq : req = self2 := hsafe hsafe2
  have hb2 : self2.body = self1.body := (Request.ParseHeaders_ok _ _ _ _ h2).2.2.1
  rw [Request.ParseMethodAndPath_method] at h1
  split at h1
  · exact Except.noConfusion h1
  · split at h1
    · exact Except.noConfusion h1
    · injection h1 with h1
      have hb1 : self1.body = [] := by
        rw [← h1]
        rfl
      unfold Request.Body
      rw [hreq, hb2, hb1]

/-- C10, on a GET request that carries `Content-Length: 5` and the five bytes
`hello` after the header terminator: the parse succeeds and the body is
empty. -/
theorem ParseHttp_safe_method_body_empty_witness :
    ∃ req, freshRequest.ParseHttp Plain.curl_url_set getWithBody = .ok req ∧
      req.getMethod = .GET ∧
      req.findRequestHeader "content-length".toList =
        some (1, ⟨"Content-Length".toList, "5".toList⟩) ∧
      req.Body = [] :=
  ⟨_, rfl, rfl, rfl,
    ParseHttp_safe_method_body_empty Plain.curl_url_set 0 0 0 getWithBody _ rfl (Or.inl rfl)⟩


/-! ## Request body -/

/-- An occurrence that `find` reports lies inside the text. -/
theorem find_length_le (sub : Str) (s : Str) (j : Nat) (h : find sub s = some j) :
    j + sub.length ≤ s.length := by
  induction s generalizing j with
  | nil =>
    unfold find at h
    split at h
    · rename_i he
      injection h with h
      subst h
      simp [List.isEmpty_iff.mp he]
    · exact Option.noConfusion h
  | cons c cs ih =>
    unfold find at h
    split at h
    · rename_i hp
      injection h with h
      subst h
      have := (List.isPrefixOf_iff_prefix.mp hp).length_le
      omega
    · cases hf : find sub cs with
      | none => rw [hf] at h; exact Option.noConfusion h
      | some k =>
        rw [hf] at h
        simp only [Option.map_some', Option.some.injEq] at h
        have := ih k hf
        simp only [List.length_cons]
        omega

/-- The first occurrence in a text is the first occurrence in any extension of
the text. -/
theorem find_append (sub a b : Str) (j : Nat) (h : find sub a = some j) :
    find sub (a ++ b) = some j := by
  induction a generalizing j with
  | nil =>
    unfold find at h
    split at h
    · rename_i he
      injection h with h
      subst h
      have hs : sub = [] := List.isEmpty_iff.mp he
      subst hs
      cases b with
      | nil => rfl
      | cons x xs => simp [find]
    · exact Option.noConfusion h
  | cons c cs ih =>
    have hlen := find_length_le sub (c :: cs) j h
    unfold find at h
    rw [List.cons_append]
    unfold find
    split at h
    · rename_i hp
      injection h with h
      subst h
      have hpre : sub <+: (c :: (cs ++ b)) := by
        rw [← List.cons_append]
        exact (List.isPrefixOf_iff_prefix.mp hp).trans (List.prefix_append _ _)
      rw [if_pos (List.isPrefixOf_iff_prefix.mpr hpre)]
    · rename_i hp
      have hnp : ¬ sub.isPrefixOf (c :: (cs ++ b)) = true := by
        intro hq
        apply hp
        have hq2 : sub <+: (c :: cs) ++ b := by
          rw [List.cons_append]
          exact List.isPrefixOf_iff_prefix.mp hq
        have : sub <+: c :: cs :=
          List.prefix_of_prefix_length_le hq2 (List.prefix_append _ _) (by omega)
        exact List.isPrefixOf_iff_prefix.mpr this
      rw [if_neg hnp]
      cases hf : find sub cs with
      | none => rw [hf] at h; exact Option.noConfusion h
      | some k =>
        rw [hf] at h
        rw [ih k hf]
        exact h

/-- What `strstr` finds in the C string of a buffer is the first occurrence in
the buffer. -/
theorem strstr_find (s sub : Str) (j : Nat) (hsub : cstr sub = sub) (h : strstr s sub = some j) :
    find sub s = some j ∧ j + sub.length ≤ s.length := by
  unfold strstr at h
  rw [hsub] at h
  have hs : s = cstr s ++ s.dropWhile (fun c => c != '\x00') := by
    unfold cstr
    exact (List.takeWhile_append_dropWhile _ _).symm
  have h2 := find_append sub (cstr s) (s.dropWhile (fun c => c != '\x00')) j h
  rw [← hs] at h2
  exact ⟨h2, find_length_le sub s j h2⟩

/-- A decimal digit is not whitespace. -/
theorem isspace_of_isDigit (c : Char) (h : c.isDigit = true) : isspace c = false := by
  unfold isspace
  simp only [Bool.or_eq_false_iff, beq_eq_false_iff_ne, ne_eq]
  refine ⟨⟨⟨⟨⟨?_, ?_⟩, ?_⟩, ?_⟩, ?_⟩, ?_⟩ <;> (intro hc; subst hc; revert h; decide)

/-- On a numeral whose value fits an `int`, `atoi` returns that value. -/
theorem atoi_decimal (s : Str) (n : Nat) (hval : decimalValue (cstr s) = some n)
    (hfit : n < 2 ^ 31) : atoi s = (n : Int) := by
  unfold decimalValue at hval
  split at hval
  · rename_i hd
    obtain ⟨hne, hall⟩ := hd
    injection hval with hval
    rw [List.all_eq_true] at hall
    unfold atoi
    cases hc : cstr s with
    | nil => exact absurd hc hne
    | cons c cs =>
      rw [hc] at hall hval
      have hcd : c.isDigit = true := hall c (List.mem_cons_self _ _)
      have hsp : isspace c = false := isspace_of_isDigit c hcd
      have hdrop : (c :: cs).dropWhile isspace = c :: cs := by
        simp [List.dropWhile_cons, hsp]
      have hm : c ≠ '-' := by intro h; subst h; revert hcd; decide
      have hp : c ≠ '+' := by intro h; subst h; revert hcd; decide
      have htake : (c :: cs).takeWhile Char.isDigit = c :: cs := by
        rw [List.takeWhile_eq_self_iff]
        exact hall
      simp only [hdrop]
      split
      · rename_i heq
        exfalso
        split at heq
        · rename_i r hr
          injection hr with h1 h2
          exact hm h1
        · exact Bool.noConfusion heq
        · exact Bool.noConfusion heq
      · split
        · rename_i r hr
          injection hr with h1 h2
          exact absurd h1 hm
        · rename_i r hr
          injection hr with h1 h2
          exact absurd h1 hp
        · simp only [htake, hval]
          omega
  · exact Option.noConfusion hval
/-- The header that `findRequestHeader` returns is the first one that the
comparison accepts. -/
theorem Request.findRequestHeader.loop_find (name : Str) (headers : List Header) (k i : Nat)
    (h : Header) (hf : Request.findRequestHeader.loop name headers k = some (i, h)) :
    headers.find? (fun x => caseInsensitiveStringCompare x.name name) = some h := by
  induction headers generalizing k with
  | nil => exact Option.noConfusion hf
  | cons x rest ih =>
    unfold Request.findRequestHeader.loop at hf
    rw [List.find?_cons]
    by_cases hx : caseInsensitiveStringCompare x.name name = true
    · rw [if_pos hx] at hf
      injection hf with hf
      injection hf with _ hf
      subst hf
      simp only [hx]
    · rw [if_neg hx] at hf
      have hx2 : caseInsensitiveStringCompare x.name name = false := by simpa using hx
      simp only [hx2]
      exact ih (k + 1) hf

/-- The member `content_length` after a successful `ParseHeaders`. -/
theorem Request.ParseHeaders_content_length (curl_url_set : Str → Option CurlParts)
    (self : Request) (req_data : Str) (r : Request)
    (h : self.ParseHeaders curl_url_set req_data = .ok r) :
    r.content_length = Request.parseContentLength self.method r.headers self.content_length := by
  unfold Request.ParseHeaders at h
  split at h
  · exact Except.noConfusion h
  · split at h
    · exact Except.noConfusion h
    · dsimp only at h
      split at h
      · exact Except.noConfusion h
      · split at h
        · exact Except.noConfusion h
        · split at h
          · exact Except.noConfusion h
          · injection h with h
            subst h
            rfl

/-- For a method with a body, `ParseBody` cuts the body out of the buffer. -/
theorem Request.ParseBody_unsafe (self : Request) (req_data : Str)
    (hm : isSafeMethod self.method = false)
    (hlen : self.header_end_pos + 4 ≤ req_data.length) :
    self.ParseBody req_data =
      .ok { self with body := (req_data.drop (self.header_end_pos + 4)).take self.content_length } := by
  unfold Request.ParseBody substr
  have hnot : ¬ self.header_end_pos + 4 > req_data.length := by omega
  simp only [hm, Bool.false_eq_true, if_false, hnot]

/-- C11. For every request that a fresh request parses successfully with
method POST, PUT, PATCH or DELETE, and whose first Content-Length header (name
compared under case folding) has as its value the decimal numeral of `n`, with
`n` below `2 ^ 31`: the body is the first `min n r` bytes that follow the first
CRLF CRLF of the buffer, `r` being the number of bytes that the buffer holds
after it. Once the request line and the headers are parsed, `ParseBody` never
fails, whatever length is declared. -/
theorem ParseHttp_body_content_length (curl_url_set : Str → Option CurlParts)
    (header_start_pos header_end_pos content_length : Nat) (req_data : Str) :
    (∀ req, (Request.new header_start_pos header_end_pos content_length).ParseHttp
        curl_url_set req_data = .ok req →
      (req.getMethod = .POST ∨ req.getMethod = .PUT ∨ req.getMethod = .PATCH ∨
        req.getMethod = .DELETE) →
      ∀ i header n, req.findRequestHeader "Content-Length".toList = some (i, header) →
        decimalValue (cstr header.value) = some n → n < 2 ^ 31 →
        ∃ j, find DOUBLE_LF req_data = some j ∧
          req.Body = (req_data.drop (j + 4)).take n ∧
          req.Body.length = min n (req_data.length - (j + 4))) ∧
    (∀ self1 self2,
      (Request.new header_start_pos header_end_pos content_length).ParseMethodAndPath
        req_data = .ok self1 →
      self1.ParseHeaders curl_url_set req_data = .ok self2 →
      ∃ req, (Request.new header_start_pos header_end_pos content_length).ParseHttp
        curl_url_set req_data = .ok req) := by
  have hbound : ∀ (self1 self2 : Request), self1.ParseHeaders curl_url_set req_data = .ok self2 →
      find DOUBLE_LF req_data = some self2.header_end_pos ∧
        self2.header_end_pos + 4 ≤ req_data.length := by
    intro self1 self2 h2
    have hs := (Request.ParseHeaders_ok _ _ _ _ h2).2.2.2.1
    exact strstr_find req_data DOUBLE_LF _ (by decide) hs
  constructor
  · intro req h hm i header n hfind hval hfit
    obtain ⟨self1, self2, h1, h2, h3⟩ := Request.ParseHttp_ok _ _ _ _ h
    obtain ⟨hfd, hle⟩ := hbound self1 self2 h2
    obtain ⟨hm3, _, hh3, _⟩ := Request.ParseBody_ok _ _ _ h3
    have hunsafe : isSafeMethod self2.method = false := by
      unfold Request.getMethod at hm
      rw [hm3] at hm
      rcases hm with hm | hm | hm | hm <;> rw [hm] <;> rfl
    rw [Request.ParseBody_unsafe self2 req_data hunsafe hle] at h3
    injection h3 with h3
    have hcl : self2.content_length = n := by
      rw [Request.ParseHeaders_content_length _ _ _ _ h2]
      have hm2 : self1.method = self2.method := (Request.ParseHeaders_ok _ _ _ _ h2).1.symm
      unfold Request.parseContentLength
      rw [hm2, hunsafe]
      unfold Request.findRequestHeader at hfind
      rw [hh3] at hfind
      rw [Request.findRequestHeader.loop_find _ _ _ _ _ hfind]
      simp only [Bool.not_false, if_true]
      rw [atoi_decimal header.value n hval hfit]
      unfold intToSize SIZE_MOD
      omega
    have hbody : req.Body = (req_data.drop (self2.header_end_pos + 4)).take n := by
      unfold Request.Body
      rw [← h3, hcl]
    refine ⟨self2.header_end_pos, hfd, hbody, ?_⟩
    rw [hbody, List.length_take, List.length_drop]
  · intro self1 self2 h1 h2
    obtain ⟨_, hle⟩ := hbound self1 self2 h2
    unfold Request.ParseHttp
    rw [h1]
    simp only [h2]
    by_cases hs : isSafeMethod self2.method = true
    · refine ⟨self2, ?_⟩
      unfold Request.ParseBody
      rw [if_pos hs]
    · have hs2 : isSafeMethod self2.method = false := by simpa using hs
      exact ⟨_, Request.ParseBody_unsafe self2 req_data hs2 hle⟩

/-- C11, on a POST request that declares ten body bytes and carries the five
bytes `hello`: the parse succeeds and the body is `hello`. -/
theorem ParseHttp_body_content_length_witness :
    ∃ req, freshRequest.ParseHttp Plain.curl_url_set postTruncated = .ok req ∧
      req.getMethod = .POST ∧
      req.findRequestHeader "content-length".toList =
        some (1, ⟨"Content-Length".toList, "10".toList⟩) ∧
      req.Body = "hello".toList ∧
      ∃ j, find DOUBLE_LF postTruncated = some j ∧
        req.Body = (postTruncated.drop (j + 4)).take 10 ∧
        req.Body.length = min 10 (postTruncated.length - (j + 4)) :=
  ⟨_, rfl, rfl, rfl, rfl,
    (ParseHttp_body_content_length Plain.curl_url_set 0 0 0 postTruncated).1 _ rfl
      (Or.inl rfl) 1 ⟨"Content-Length".toList, "10".toList⟩ 10 rfl (by decide) (by decide)⟩

/-! ## URL -/

/-- The port of every URL that the constructor accepts: the port that libcurl
reports; without one, `443` for the scheme `https`, and for the scheme `http`
the single character of code 80, the letter `P`. -/
theorem URL.new_port (curl_url_set : Str → Option CurlParts) (url_string : Str) (url : URL)
    (h : URL.new curl_url_set url_string = .ok url) :
    ∃ parts, curl_url_set (cstr url_string) = some parts ∧
      parts.scheme = some url.scheme ∧
      url.port =
        match parts.port with
        | some m_port => m_port
        | none =>
          if url.scheme = "https".toList then "443".toList
          else if url.scheme = "http".toList then ['P']
          else [] := by
  unfold URL.new at h
  split at h
  · exact Except.noConfusion h
  · rename_i parts hparts
    split at h
    · exact Except.noConfusion h
    · rename_i m_scheme hscheme
      split at h
      · exact Except.noConfusion h
      · split at h
        · exact Except.noConfusion h
        · injection h with h
          subst h
          refine ⟨parts, hparts, hscheme, ?_⟩
          cases parts.port with
          | none => rfl
          | some m_port => rfl

/-- C12, at the URL `http://x/`, which carries no port. The constructor accepts
it with the scheme `http`, and the port field is the one-character string `P`,
not the string `80`: the source assigns the integer 80 to the `std::string`,
which stores the character of code 80. The sibling branch for `https` stores
the string `443`, and a port carried by the input is stored as its text. -/
theorem URL_new_http_default_port :
    (∃ url, URL.new Plain.curl_url_set "http://x/".toList = .ok url ∧
      url.scheme = "http".toList ∧ url.port = ['P'] ∧ url.port ≠ "80".toList) ∧
    (∃ url, URL.new Plain.curl_url_set "https://x/".toList = .ok url ∧
      url.scheme = "https".toList ∧ url.port = "443".toList) ∧
    (∃ url, URL.new Plain.curl_url_set "http://x:8080/".toList = .ok url ∧
      url.port = "8080".toList) :=
  ⟨⟨_, rfl, rfl, rfl, by decide⟩, ⟨_, rfl, rfl, rfl⟩, ⟨_, rfl, rfl⟩⟩

/-! ## Response writer -/

/-- The lines that `writeHeaders` builds are those of the wire format. -/
theorem Response.headerLines_eq (headers : List Header) :
    Response.headerLines headers =
      ((headers.filter (fun h => !h.name.isEmpty)).map
        (fun h => h.name ++ ": ".toList ++ h.value ++ "\r\n".toList)).flatten := by
  induction headers with
  | nil => rfl
  | cons h rest ih =>
    unfold Response.headerLines
    rw [ih, List.filter_cons]
    by_cases hn : (!h.name.isEmpty) = true
    · simp only [hn, if_true, List.map_cons, List.flatten_cons]
    · simp only [hn, if_false, List.nil_append, Bool.false_eq_true]

/-- A count of bytes is never the failure value -1. -/
theorem natCast_ne_neg_one (n : Nat) : ((n : Int) = -1) = False := by
  simp only [eq_iff_iff, iff_false]
  omega

/-- A write that the client accepts whole. -/
theorem Client.Send_accepted (sock : Socket) (hsock : sock.acceptsAll) (conn : Conn)
    (data : Str) :
    Client.Send sock conn data =
      ((data.length : Int), { wire := conn.wire ++ data, calls := conn.calls + 1 }) := by
  unfold Client.Send send
  rw [hsock conn.calls data]
  simp

/-- A flush when the headers are already sent does nothing. -/
theorem Response.writeHeaders_sent (StatusText : HttpStatus → Str) (sock : Socket)
    (self : Response) (conn : Conn) (h : self.headers_sent = true) :
    self.writeHeaders StatusText sock conn =
      { ret := .returned (), response := self, conn := conn } := by
  unfold Response.writeHeaders
  rw [if_pos h]

/-- A first flush on a client that accepts every write. -/
theorem Response.writeHeaders_accepted (StatusText : HttpStatus → Str) (sock : Socket)
    (hsock : sock.acceptsAll) (self : Response) (conn : Conn)
    (h : self.headers_sent = false) (hs : self.status ≠ 0) :
    self.writeHeaders StatusText sock conn =
      { ret := .returned (), response := { self with headers_sent := true },
        conn := { wire := conn.wire ++ headerBlock StatusText self.status self.headers,
                  calls := conn.calls + 1 } } := by
  unfold Response.writeHeaders headerBlock
  simp only [h, Bool.false_eq_true, if_false, hs, Client.Send_accepted sock hsock,
    natCast_ne_neg_one, Response.headerLines_eq]

/-- The lookup of Content-Type that `Send` makes after it has added
Content-Length. -/
theorem Response.find_content_type (self : Response) (value : Str) :
    ((self.setHeader "Content-Length".toList value).findResponseHeader
        "Content-Type".toList = none) ↔
      ¬ hasHeader self.headers "Content-Type".toList := by
  unfold Response.findResponseHeader Response.setHeader hasHeader
  rw [Request.findRequestHeader.loop_eq_none]
  simp only [List.mem_append, List.mem_singleton, not_exists, not_and]
  constructor
  · intro h x hx
    exact h x (Or.inl hx)
  · intro h x hx
    rcases hx with hx | hx
    · exact h x hx
    · subst hx
      show ¬ CaseFoldEq "Content-Length".toList "Content-Type".toList
      decide

/-- The response on which `Send` flushes the headers: the header list is the
one that `sendHeaders` describes. -/
theorem Response.Send_headers (self : Response) (d : Str) :
    (match (self.setHeader "Content-Length".toList (to_string d.length)).findResponseHeader
        "Content-Type".toList with
      | none =>
        (self.setHeader "Content-Length".toList (to_string d.length)).setHeader
          "Content-Type".toList "text/html".toList
      | some _ => self.setHeader "Content-Length".toList (to_string d.length)) =
      { self with headers := sendHeaders self.headers d } := by
  by_cases hct : hasHeader self.headers "Content-Type".toList
  · have hsome : (self.setHeader "Content-Length".toList (to_string d.length)).findResponseHeader
        "Content-Type".toList ≠ none :=
      fun hn => (Response.find_content_type self _).mp hn hct
    obtain ⟨p, hp⟩ := Option.ne_none_iff_exists'.mp hsome
    rw [hp]
    simp only [Response.setHeader, sendHeaders, hct, if_true, List.append_nil]
  · rw [(Response.find_content_type self _).mpr hct]
    simp only [Response.setHeader, sendHeaders, hct, if_false]

/-- What `Send` does on a response in the state `Idle` with a non-zero status
and a client that accepts every write. -/
theorem Response.Send_whole_accepted (StatusText : HttpStatus → Str) (sock : Socket)
    (hsock : sock.acceptsAll) (self : Response) (conn : Conn) (d : Str)
    (hidle : self.Idle) (hs : self.status ≠ 0) :
    self.Send StatusText sock conn d =
      { ret := .returned (d.length : Int),
        response := { self with headers := sendHeaders self.headers d, headers_sent := true,
                                body_sent := true },
        conn := { wire := conn.wire ++ headerBlock StatusText self.status
                    (sendHeaders self.headers d) ++ d,
                  calls := conn.calls + 2 } } := by
  obtain ⟨hh, hb⟩ := hidle
  have hw := Response.writeHeaders_accepted StatusText sock hsock
    { self with headers := sendHeaders self.headers d } conn hh hs
  unfold Response.Send
  rw [if_neg (by rw [hb]; exact Bool.false_ne_true)]
  simp only [Response.Send_headers]
  rw [hw]
  simp only [Client.Send_accepted sock hsock, natCast_ne_neg_one, if_false, List.append_assoc]


/-- A write at a call that fails returns -1 and puts nothing on the wire. -/
theorem Client.Send_failed (sock : Socket) (conn : Conn) (data : Str)
    (h : sock.failsAt conn.calls) :
    Client.Send sock conn data = (-1, { conn with calls := conn.calls + 1 }) := by
  unfold Client.Send send
  rcases h data with h | h <;> rw [h]

/-- A write at a call that accepts bytes does not return -1. -/
theorem Client.Send_accepts (sock : Socket) (conn : Conn) (data : Str)
    (h : sock.acceptsAt conn.calls) :
    (Client.Send sock conn data).1 ≠ -1 ∧
      (Client.Send sock conn data).2.calls = conn.calls + 1 := by
  obtain ⟨n, hn⟩ := h data
  unfold Client.Send send
  rw [hn]
  exact ⟨by simp only [ne_eq, natCast_ne_neg_one, not_false_eq_true], rfl⟩

/-- The number of calls of `send` after a write. -/
theorem Client.Send_calls (sock : Socket) (conn : Conn) (data : Str) :
    (Client.Send sock conn data).2.calls = conn.calls + 1 := by
  unfold Client.Send send
  cases sock conn.calls data <;> rfl

/-- The flush has no retry loop: it returns or it throws. It never touches the
flag `body_sent`, and it throws exactly when it makes a write that fails. -/
theorem Response.writeHeaders_cases (StatusText : HttpStatus → Str) (sock : Socket)
    (self : Response) (conn : Conn) :
    (self.writeHeaders StatusText sock conn).response.body_sent = self.body_sent ∧
      (((self.writeHeaders StatusText sock conn).ret = .returned () ∧
          (self.writeHeaders StatusText sock conn).response.headers_sent = true) ∨
        (∃ what, (self.writeHeaders StatusText sock conn).ret = .threw what ∧
          (self.writeHeaders StatusText sock conn).response.headers_sent = false ∧
          self.headers_sent = false)) := by
  unfold Response.writeHeaders
  by_cases hh : self.headers_sent = true
  · rw [if_pos hh]
    exact ⟨rfl, Or.inl ⟨rfl, hh⟩⟩
  · have hh2 : self.headers_sent = false := by simpa using hh
    rw [if_neg hh]
    dsimp only
    generalize hself1 : (if self.status = 0 then
      ({ self with status := StatusOK } : Response) else self) = self1
    have hb1 : self1.body_sent = self.body_sent := by
      rw [← hself1]
      split <;> rfl
    have hh1 : self1.headers_sent = false := by
      rw [← hself1]
      split
      · exact hh2
      · exact hh2
    split
    · exact ⟨hb1, Or.inr ⟨_, rfl, hh1, hh2⟩⟩
    · exact ⟨hb1, Or.inl ⟨rfl, rfl⟩⟩

/-- A first flush whose write fails throws and leaves the headers unsent. -/
theorem Response.writeHeaders_failed (StatusText : HttpStatus → Str) (sock : Socket)
    (self : Response) (conn : Conn) (hh : self.headers_sent = false)
    (hf : sock.failsAt conn.calls) :
    ∃ what, (self.writeHeaders StatusText sock conn).ret = .threw what := by
  unfold Response.writeHeaders
  simp only [hh, Bool.false_eq_true, if_false, Client.Send_failed sock conn _ hf, if_true]
  exact ⟨_, rfl⟩

/-- A first flush whose write is accepted returns, after one call of `send`. -/
theorem Response.writeHeaders_accepts (StatusText : HttpStatus → Str) (sock : Socket)
    (self : Response) (conn : Conn) (hh : self.headers_sent = false)
    (ha : sock.acceptsAt conn.calls) :
    (self.writeHeaders StatusText sock conn).ret = .returned () ∧
      (self.writeHeaders StatusText sock conn).conn.calls = conn.calls + 1 := by
  unfold Response.writeHeaders
  simp only [hh, Bool.false_eq_true, if_false]
  rw [if_neg (Client.Send_accepts sock conn _ ha).1]
  exact ⟨rfl, Client.Send_calls sock conn _⟩

/-- The outcome of `Send` on a response whose body is not sent, in terms of the
flush and of the write of the body. -/
theorem Response.Send_unsent (StatusText : HttpStatus → Str) (sock : Socket)
    (self : Response) (conn : Conn) (d : Str) (hb : self.body_sent = false) :
    let self2 : Response := { self with headers := sendHeaders self.headers d }
    let flushed := self2.writeHeaders StatusText sock conn
    let sent := Client.Send sock flushed.conn d
    self.Send StatusText sock conn d =
      if flushed.ret = .returned () ∧ sent.1 ≠ -1 then
        { ret := .returned sent.1, response := { flushed.response with body_sent := true },
          conn := sent.2 }
      else if flushed.ret = .returned () then
        { ret := .returned (-1), response := flushed.response, conn := sent.2 }
      else
        { ret := .returned (-1), response := flushed.response, conn := flushed.conn } := by
  intro self2 flushed sent
  unfold Response.Send
  rw [if_neg (by rw [hb]; exact Bool.false_ne_true)]
  simp only [Response.Send_headers]
  rcases (Response.writeHeaders_cases StatusText sock self2 conn).2 with ⟨hr, _⟩ | ⟨w, hr, _⟩
  · have hr2 : flushed.ret = .returned () := hr
    simp only [hr, hr2, true_and]
    by_cases hs : sent.1 = -1
    · have hs2 : (Client.Send sock (self2.writeHeaders StatusText sock conn).conn d).1 = -1 := hs
      simp only [hs2, if_true, hs, ne_eq, not_true_eq_false, if_false]
    · have hs2 : ¬ (Client.Send sock (self2.writeHeaders StatusText sock conn).conn d).1 = -1 := hs
      simp only [hs2, if_false, hs, ne_eq, not_false_eq_true, if_true]
  · have hr2 : flushed.ret = .threw w := hr
    simp only [hr, hr2, false_and, if_false, reduceCtorEq]

/-- A first flush on a client that accepts every write, for every status: the
status written, and left in the response, is `StatusOK` when the status is 0
and the status itself when it is not. -/
theorem Response.writeHeaders_accepted_any (StatusText : HttpStatus → Str) (sock : Socket)
    (hsock : sock.acceptsAll) (self : Response) (conn : Conn)
    (h : self.headers_sent = false) :
    self.writeHeaders StatusText sock conn =
      { ret := .returned (),
        response := { self with status := if self.status = 0 then StatusOK else self.status,
                                headers_sent := true },
        conn := { wire := conn.wire ++ headerBlock StatusText
                    (if self.status = 0 then StatusOK else self.status) self.headers,
                  calls := conn.calls + 1 } } := by
  by_cases hs : self.status = 0
  · unfold Response.writeHeaders headerBlock
    simp only [h, Bool.false_eq_true, if_false, hs, if_true, Client.Send_accepted sock hsock,
      natCast_ne_neg_one, Response.headerLines_eq]
  · rw [Response.writeHeaders_accepted StatusText sock hsock self conn h hs, if_neg hs]

/-- What `Send` does on a response in the state `Idle`, for every status, with
a client that accepts every write. -/
theorem Response.Send_whole_accepted_any (StatusText : HttpStatus → Str) (sock : Socket)
    (hsock : sock.acceptsAll) (self : Response) (conn : Conn) (d : Str)
    (hidle : self.Idle) :
    self.Send StatusText sock conn d =
      { ret := .returned (d.length : Int),
        response := { self with status := if self.status = 0 then StatusOK else self.status,
                                headers := sendHeaders self.headers d, headers_sent := true,
                                body_sent := true },
        conn := { wire := conn.wire ++ headerBlock StatusText
                    (if self.status = 0 then StatusOK else self.status)
                    (sendHeaders self.headers d) ++ d,
                  calls := conn.calls + 2 } } := by
  obtain ⟨hh, hb⟩ := hidle
  have hw := Response.writeHeaders_accepted_any StatusText sock hsock
    { self with headers := sendHeaders self.headers d } conn hh
  unfold Response.Send
  rw [if_neg (by rw [hb]; exact Bool.false_ne_true)]
  simp only [Response.Send_headers]
  rw [hw]
  simp only [Client.Send_accepted sock hsock, natCast_ne_neg_one, if_false, List.append_assoc]

/-- C13, as amended. For every response in the state `Idle` with status `s` and
header list `H`, every body `d`, and a client that accepts every write:
`Send(d)` writes exactly the status line `HTTP/1.1 t reason(t)`, where `t` is
`s` when `s` is not 0 and is 200 when `s` is 0, then one line per header with a
non-empty name in list order, then the blank line, then `d`; the header list
written is `H` followed by Content-Length with the decimal length of `d` and,
if and only if `H` names no Content-Type under case folding,
`Content-Type: text/html`; `Send` returns the length of `d` and leaves the
response in the body-sent state, with the status `t`. -/
theorem Send_wire_format (StatusText : HttpStatus → Str) (sock : Socket) (self : Response)
    (conn : Conn) (d : Str) (hsock : sock.acceptsAll) (hidle : self.Idle) :
    (self.Send StatusText sock conn d).ret = .returned (d.length : Int) ∧
      (self.Send StatusText sock conn d).conn.wire =
        conn.wire ++ headerBlock StatusText (if self.status = 0 then StatusOK else self.status)
          (sendHeaders self.headers d) ++ d ∧
      (self.status ≠ 0 →
        (self.Send StatusText sock conn d).conn.wire =
          conn.wire ++ headerBlock StatusText self.status (sendHeaders self.headers d) ++ d ∧
        (self.Send StatusText sock conn d).response.status = self.status) ∧
      (self.status = 0 →
        (self.Send StatusText sock conn d).conn.wire =
          conn.wire ++ headerBlock StatusText 200 (sendHeaders self.headers d) ++ d ∧
        (self.Send StatusText sock conn d).response.status = 200) ∧
      (self.Send StatusText sock conn d).response.headers = sendHeaders self.headers d ∧
      (self.Send StatusText sock conn d).response.status =
        (if self.status = 0 then StatusOK else self.status) ∧
      (self.Send StatusText sock conn d).response.headers_sent = true ∧
      (self.Send StatusText sock conn d).response.body_sent = true := by
  rw [Response.Send_whole_accepted_any StatusText sock hsock self conn d hidle]
  refine ⟨rfl, rfl, ?_, ?_, rfl, rfl, rfl, rfl⟩
  · intro hs
    rw [if_neg hs]
    exact ⟨rfl, rfl⟩
  · intro hs
    rw [if_pos hs]
    exact ⟨rfl, rfl⟩

/-- C13 as amended, on a response whose handler has set `content-type:
text/plain`: `Send("Hello")` returns 5, and the wire holds the status line, the
handler's header, Content-Length, the blank line and the body, with no second
content type. On the response in the state `Idle` with status 0 the status
line written is that of the status 200, and 200 is the status left in the
response. -/
theorem Send_wire_format_witness :
    (plainTextResponse.Send Modelled.StatusText acceptAll Conn.fresh "Hello".toList).ret =
        .returned 5 ∧
      (plainTextResponse.Send Modelled.StatusText acceptAll Conn.fresh "Hello".toList).conn.wire =
        "HTTP/1.1 200 OK\r\ncontent-type: text/plain\r\nContent-Length: 5\r\n\r\nHello".toList ∧
      (plainTextResponse.Send Modelled.StatusText acceptAll Conn.fresh
        "Hello".toList).response.body_sent = true ∧
      (zeroStatusResponse.Send Modelled.StatusText acceptAll Conn.fresh "Hello".toList).conn.wire =
        "HTTP/1.1 200 OK\r\nContent-Length: 5\r\nContent-Type: text/html\r\n\r\nHello".toList ∧
      (zeroStatusResponse.Send Modelled.StatusText acceptAll Conn.fresh
        "Hello".toList).response.status = 200 :=
  have h := Send_wire_format Modelled.StatusText acceptAll plainTextResponse Conn.fresh
    "Hello".toList (fun _ _ => rfl) ⟨rfl, rfl⟩
  have h0 := Send_wire_format Modelled.StatusText acceptAll zeroStatusResponse Conn.fresh
    "Hello".toList (fun _ _ => rfl) ⟨rfl, rfl⟩
  ⟨h.1, ((h.2.2.1 (by decide)).1).trans (by decide), h.2.2.2.2.2.2.2,
    ((h0.2.2.2.1 rfl).1).trans (by decide), (h0.2.2.2.1 rfl).2⟩

/-- C13 as stated, at the status 0. The response is in the state `Idle` with
status 0 and no header, the client accepts every write, and `Send("Hello")`
writes the status line of the status 200, not a status line that carries 0:
`writeHeaders` replaces a status of 0 by `StatusOK` before it builds the
line. -/
theorem Send_status_zero_writes_200 :
    zeroStatusResponse.Idle ∧ zeroStatusResponse.status = 0 ∧ acceptAll.acceptsAll ∧
      (zeroStatusResponse.Send Modelled.StatusText acceptAll Conn.fresh "Hello".toList).conn.wire =
        helloWire ∧
      (zeroStatusResponse.Send Modelled.StatusText acceptAll Conn.fresh "Hello".toList).conn.wire ≠
        Conn.fresh.wire ++ headerBlock Modelled.StatusText zeroStatusResponse.status
          (sendHeaders zeroStatusResponse.headers "Hello".toList) ++ "Hello".toList :=
  ⟨⟨rfl, rfl⟩, rfl, fun _ _ => rfl, by decide, by decide⟩

/-- C14, as amended. For a fresh response (status 200, no header set by the
handler), a reason phrase `OK` for 200 and a client that accepts every write,
`Send("Hello")` puts exactly these bytes on the wire: the status line
`HTTP/1.1 200 OK`, the line `Content-Length: 5`, the line
`Content-Type: text/html`, the blank line, and the five body bytes. -/
theorem Send_hello_wire (StatusText : HttpStatus → Str) (sock : Socket) (conn : Conn)
    (hsock : sock.acceptsAll) (hok : StatusText 200 = "OK".toList) :
    (Response.new.Send StatusText sock conn "Hello".toList).conn.wire = conn.wire ++ helloWire ∧
      (Response.new.Send StatusText sock conn "Hello".toList).ret = .returned 5 := by
  rw [Response.Send_whole_accepted StatusText sock hsock Response.new conn "Hello".toList
    ⟨rfl, rfl⟩ (by decide)]
  refine ⟨?_, rfl⟩
  show conn.wire ++ headerBlock StatusText 200 (sendHeaders [] "Hello".toList) ++
    "Hello".toList = conn.wire ++ helloWire
  unfold headerBlock
  rw [hok, List.append_assoc]
  congr 1

/-- C14 as amended, with the reason phrases of the specification and the
client that accepts every write, on a connection that has carried nothing. -/
theorem Send_hello_wire_witness :
    (Response.new.Send Modelled.StatusText acceptAll Conn.fresh "Hello".toList).conn.wire =
        helloWire ∧
      (Response.new.Send Modelled.StatusText acceptAll Conn.fresh "Hello".toList).ret =
        .returned 5 :=
  Send_hello_wire Modelled.StatusText acceptAll Conn.fresh (fun _ _ => rfl) rfl

/-- C14 as stated. The bytes that a fresh response puts on the wire for
`Send("Hello")` do not match the pattern of the scenario: the line
`Content-Length: 5` is followed by the line `Content-Type: text/html`, not by
the blank line. -/
theorem Send_hello_not_scenario_pattern :
    (Response.new.Send Modelled.StatusText acceptAll Conn.fresh "Hello".toList).conn.wire =
        helloWire ∧
      ¬ matchesScenario
        (Response.new.Send Modelled.StatusText acceptAll Conn.fresh "Hello".toList).conn.wire ∧
      find "Content-Length: 5\r\nContent-Type: text/html\r\n\r\nHello".toList helloWire =
        some 17 :=
  ⟨by decide, by decide, by decide⟩

/-- C18. For every response whose body is not sent and every body `d`,
`Send(d)` returns and never throws, and when it returns -1 the response is not
in the body-sent state. If the write of the header block reports a failure, or
if the write of the body does (after a flush that was accepted, or with the
headers already flushed), `Send(d)` returns -1. `Send` throws exactly when the
body was already sent. -/
theorem Send_reports_io_failure (StatusText : HttpStatus → Str) (sock : Socket)
    (self : Response) (conn : Conn) (d : Str) :
    (self.body_sent = true ↔ ∃ what, (self.Send StatusText sock conn d).ret = .threw what) ∧
    (self.body_sent = false →
      (∃ v, (self.Send StatusText sock conn d).ret = .returned v ∧
        (v = -1 → (self.Send StatusText sock conn d).response.body_sent = false)) ∧
      (self.headers_sent = false → sock.failsAt conn.calls →
        (self.Send StatusText sock conn d).ret = .returned (-1)) ∧
      (self.headers_sent = false → sock.acceptsAt conn.calls → sock.failsAt (conn.calls + 1) →
        (self.Send StatusText sock conn d).ret = .returned (-1)) ∧
      (self.headers_sent = true → sock.failsAt conn.calls →
        (self.Send StatusText sock conn d).ret = .returned (-1))) := by
  have hunsent : self.body_sent = false →
      (∃ v, (self.Send StatusText sock conn d).ret = .returned v ∧
        (v = -1 → (self.Send StatusText sock conn d).response.body_sent = false)) ∧
      (self.headers_sent = false → sock.failsAt conn.calls →
        (self.Send StatusText sock conn d).ret = .returned (-1)) ∧
      (self.headers_sent = false → sock.acceptsAt conn.calls → sock.failsAt (conn.calls + 1) →
        (self.Send StatusText sock conn d).ret = .returned (-1)) ∧
      (self.headers_sent = true → sock.failsAt conn.calls →
        (self.Send StatusText sock conn d).ret = .returned (-1)) := by
    intro hb
    have hsend := Response.Send_unsent StatusText sock self conn d hb
    dsimp only at hsend
    have hbs := (Response.writeHeaders_cases StatusText sock
      { self with headers := sendHeaders self.headers d } conn).1
    refine ⟨?_, ?_, ?_, ?_⟩
    · rw [hsend]
      split
      · rename_i h
        exact ⟨_, rfl, fun hv => absurd hv h.2⟩
      · split
        · exact ⟨_, rfl, fun _ => hbs.trans hb⟩
        · exact ⟨_, rfl, fun _ => hbs.trans hb⟩
    · intro hh hf
      obtain ⟨w, hw⟩ := Response.writeHeaders_failed StatusText sock
        { self with headers := sendHeaders self.headers d } conn hh hf
      rw [hsend]
      simp only [hw, reduceCtorEq, false_and, if_false]
    · intro hh ha hf
      obtain ⟨hr, hc⟩ := Response.writeHeaders_accepts StatusText sock
        { self with headers := sendHeaders self.headers d } conn hh ha
      have hfail := Client.Send_failed sock _ d (by rw [hc]; exact hf)
      rw [hsend]
      simp only [hr, hfail, ne_eq, not_true_eq_false, and_false, if_false, if_true]
    · intro hh hf
      have hw := Response.writeHeaders_sent StatusText sock
        { self with headers := sendHeaders self.headers d } conn hh
      have hfail := Client.Send_failed sock conn d hf
      rw [hsend]
      simp only [hw, hfail, ne_eq, not_true_eq_false, and_false, if_false, if_true]
  refine ⟨?_, hunsent⟩
  constructor
  · intro hb
    unfold Response.Send
    rw [if_pos hb]
    exact ⟨_, rfl⟩
  · rintro ⟨w, hw⟩
    by_contra hb
    have hb2 : self.body_sent = false := by simpa using hb
    obtain ⟨v, hv, _⟩ := (hunsent hb2).1
    rw [hv] at hw
    exact Ret.noConfusion hw

/-- C18, on a fresh response and a client that refuses every write, then on a
client that accepts the header block and refuses the body: `Send("Hello")`
returns -1 in both cases and the body is not marked sent. -/
theorem Send_reports_io_failure_witness :
    (Response.new.Send Modelled.StatusText refuseAll Conn.fresh "Hello".toList).ret =
        .returned (-1) ∧
      (Response.new.Send Modelled.StatusText refuseAll Conn.fresh
        "Hello".toList).response.body_sent = false ∧
      (Response.new.Send Modelled.StatusText acceptFirst Conn.fresh "Hello".toList).ret =
        .returned (-1) ∧
      (Response.new.Send Modelled.StatusText acceptFirst Conn.fresh
        "Hello".toList).response.body_sent = false :=
  have h1 := (Send_reports_io_failure Modelled.StatusText refuseAll Response.new Conn.fresh
    "Hello".toList).2 rfl
  have h2 := (Send_reports_io_failure Modelled.StatusText acceptFirst Response.new Conn.fresh
    "Hello".toList).2 rfl
  ⟨h1.2.1 rfl (fun _ => Or.inl rfl), by decide,
    h2.2.2.1 rfl (fun data => ⟨data.length, rfl⟩) (fun _ => Or.inl rfl), by decide⟩

/-- Equality under case folding is symmetric. -/
theorem CaseFoldEq.symm {a b : Str} (h : CaseFoldEq a b) : CaseFoldEq b a :=
  ⟨h.1.symm, h.2.symm⟩

/-- Equality under case folding is transitive. -/
theorem CaseFoldEq.trans {a b c : Str} (h1 : CaseFoldEq a b) (h2 : CaseFoldEq b c) :
    CaseFoldEq a c :=
  ⟨h1.1.trans h2.1, h1.2.trans h2.2⟩

/-- C19, as amended. For every response, every name `n`, value `v` and every
`n'` equal to `n` under case folding: after `setHeader(n, v)`,
`findResponseHeader(n')` returns a header whose name equals `n` under case
folding. When the response held no header of that name, it is the header just
set, with value `v`; when it held one, it is the first header of that name that
was already there, which is what the lookup returned before the call. -/
theorem setHeader_then_find (self : Response) (n v n' : Str) (hfold : CaseFoldEq n' n) :
    ∃ i h, (self.setHeader n v).findResponseHeader n' = some (i, h) ∧
      CaseFoldEq h.name n ∧
      (¬ hasHeader self.headers n →
        i = self.headers.length ∧ h = { name := n, value := v }) ∧
      (hasHeader self.headers n → self.findResponseHeader n' = some (i, h)) := by
  unfold Response.findResponseHeader Response.setHeader
  by_cases hhas : hasHeader self.headers n
  · have hsome : Request.findRequestHeader.loop n' self.headers 0 ≠ none := by
      intro hnone
      rw [Request.findRequestHeader.loop_eq_none] at hnone
      obtain ⟨x, hx, hxn⟩ := hhas
      exact hnone x hx (hxn.trans hfold.symm)
    obtain ⟨⟨i, h⟩, hp⟩ := Option.ne_none_iff_exists'.mp hsome
    obtain ⟨k, hk, hget, hc, hmin⟩ := (Request.findRequestHeader.loop_eq_some _ _ _ _ _).mp hp
    have hik : i = k := by omega
    subst hik
    have hlt : i < self.headers.length := by
      rcases Nat.lt_or_ge i self.headers.length with hlt | hge
      · exact hlt
      · rw [List.getElem?_eq_none hge] at hget
        exact Option.noConfusion hget
    refine ⟨i, h, ?_, hc.trans hfold, fun hno => absurd hhas hno, fun _ => hp⟩
    rw [Request.findRequestHeader.loop_eq_some]
    refine ⟨i, by omega, ?_, hc, ?_⟩
    · rw [List.getElem?_append_left hlt]
      exact hget
    · intro j x hj hx
      rw [List.getElem?_append_left (by omega)] at hx
      exact hmin j x hj hx
  · refine ⟨self.headers.length, { name := n, value := v }, ?_, ?_, fun _ => ⟨rfl, rfl⟩,
      fun h => absurd h hhas⟩
    · rw [Request.findRequestHeader.loop_eq_some]
      refine ⟨self.headers.length, by omega, ?_, hfold.symm, ?_⟩
      · rw [List.getElem?_append_right (Nat.le_refl _)]
        simp
      · intro j x hj hx hc
        rw [List.getElem?_append_left hj] at hx
        exact hhas ⟨x, List.getElem?_mem hx, hc.trans hfold⟩
    · exact ⟨rfl, rfl⟩

/-- C19 as amended, on a fresh response: after `setHeader("X-Id", "7")` the
lookup of `x-id` returns that header. -/
theorem setHeader_then_find_witness :
    (Response.new.setHeader "X-Id".toList "7".toList).findResponseHeader "x-id".toList =
        some (0, { name := "X-Id".toList, value := "7".toList }) ∧
      ∃ i h, (Response.new.setHeader "X-Id".toList "7".toList).findResponseHeader
          "x-id".toList = some (i, h) ∧
        CaseFoldEq h.name "X-Id".toList ∧
        (¬ hasHeader Response.new.headers "X-Id".toList →
          i = Response.new.headers.length ∧
            h = { name := "X-Id".toList, value := "7".toList }) ∧
        (hasHeader Response.new.headers "X-Id".toList →
          Response.new.findResponseHeader "x-id".toList = some (i, h)) :=
  ⟨rfl, setHeader_then_find Response.new "X-Id".toList "7".toList "x-id".toList (by decide)⟩

/-- C19 as stated, at a response that already holds `Content-Type: a`: after
`setHeader("content-type", "b")` the lookup of `CONTENT-TYPE` returns the
header that was already there, whose value is `a`, not `b`. -/
theorem setHeader_then_find_returns_older_header :
    CaseFoldEq "CONTENT-TYPE".toList "content-type".toList ∧
      (typedResponse.setHeader "content-type".toList "b".toList).findResponseHeader
          "CONTENT-TYPE".toList =
        some (0, { name := "Content-Type".toList, value := "a".toList }) ∧
      "a".toList ≠ "b".toList :=
  ⟨by decide, rfl, by decide⟩

/-! ## Sending a file -/

/-- A call of `Send` that returns a count has set `body_sent`. -/
theorem Response.Send_success_body_sent (StatusText : HttpStatus → Str) (sock : Socket)
    (self : Response) (conn : Conn) (d : Str) (v : Int)
    (hret : (self.Send StatusText sock conn d).ret = .returned v) (hv : v ≠ -1) :
    (self.Send StatusText sock conn d).response.body_sent = true := by
  by_cases hb : self.body_sent = true
  · unfold Response.Send at hret ⊢
    rw [if_pos hb] at hret ⊢
    exact hb
  · have hb2 : self.body_sent = false := by simpa using hb
    have h := Response.Send_unsent StatusText sock self conn d hb2
    dsimp only at h
    rw [h] at hret ⊢
    split at hret
    · rw [if_pos (by assumption)]
    · split at hret
      · injection hret with hret
        exact absurd hret.symm hv
      · injection hret with hret
        exact absurd hret.symm hv

/-- C17. For every response whose body is sent, the state that a successful
`Send` or a `SendFile` that ran to its end leaves, every further call of `Send`
and of `SendFile` throws the error `body already sent`, and leaves the response,
its header list included, and the connection as they were: no byte is written
and no call of `send` is made. -/
theorem body_sent_calls_fail (StatusText : HttpStatus → Str) (getContentType : Str → Str)
    (fopen64 : Str → Option Str) (sock : Socket) (fuel : Nat) (request : Request)
    (self : Response) (conn : Conn) (h : self.body_sent = true) (data fname : Str) :
    self.Send StatusText sock conn data =
        { ret := .threw "body already sent", response := self, conn := conn } ∧
      self.SendFile StatusText getContentType fopen64 sock fuel request conn fname =
        { ret := .threw "body already sent", response := self, conn := conn } := by
  constructor
  · unfold Response.Send
    rw [if_pos h]
  · unfold Response.SendFile
    rw [if_pos h]

/-- C17 at the response that a successful `Send("Hello")` leaves and at the
response that a `SendFile` of a ten-byte file leaves: both have the body sent,
and a further `Send` and `SendFile` on them throw. -/
theorem body_sent_calls_fail_witness :
    (sentResponse.body_sent = true ∧
      sentResponse.Send Modelled.StatusText acceptAll
          { wire := helloWire, calls := 2 } "again".toList =
        { ret := .threw "body already sent", response := sentResponse,
          conn := { wire := helloWire, calls := 2 } } ∧
      sentResponse.SendFile Modelled.StatusText Modelled.getContentType twoFiles acceptAll 1
          freshRequest { wire := helloWire, calls := 2 } "/digits.txt".toList =
        { ret := .threw "body already sent", response := sentResponse,
          conn := { wire := helloWire, calls := 2 } }) ∧
    (fileSentResponse.body_sent = true ∧
      fileSentResponse.Send Modelled.StatusText acceptAll Conn.fresh "again".toList =
        { ret := .threw "body already sent", response := fileSentResponse,
          conn := Conn.fresh } ∧
      fileSentResponse.SendFile Modelled.StatusText Modelled.getContentType twoFiles acceptAll 1
          freshRequest Conn.fresh "/digits.txt".toList =
        { ret := .threw "body already sent", response := fileSentResponse,
          conn := Conn.fresh }) :=
  ⟨⟨by decide,
    body_sent_calls_fail Modelled.StatusText Modelled.getContentType twoFiles acceptAll 1
      freshRequest sentResponse { wire := helloWire, calls := 2 } (by decide)
      "again".toList "/digits.txt".toList⟩,
   ⟨by decide,
    body_sent_calls_fail Modelled.StatusText Modelled.getContentType twoFiles acceptAll 1
      freshRequest fileSentResponse Conn.fresh (by decide)
      "again".toList "/digits.txt".toList⟩⟩

/-- With the headers flushed, a failure path of `SendFile` sets the status,
writes nothing and returns -1. -/
theorem SendFile.fail_sent (StatusText : HttpStatus → Str) (sock : Socket) (self : Response)
    (conn : Conn) (status : HttpStatus) (h : self.headers_sent = true) :
    SendFile.fail StatusText sock self conn status =
      { ret := .returned (-1), response := self.setStatus status, conn := conn } := by
  unfold SendFile.fail
  rw [Response.writeHeaders_sent StatusText sock (self.setStatus status) conn h]

/-- With the headers flushed, the end of `SendFile` is the transmission loop,
started on the connection as it is. -/
theorem SendFile.stream_sent (StatusText : HttpStatus → Str) (sock : Socket) (fuel : Nat)
    (self : Response) (conn : Conn) (valid_range : Bool) (start end_ : Int) (file : Str)
    (h : self.headers_sent = true) :
    SendFile.stream StatusText sock fuel self conn valid_range start end_ file =
      { ret := (SendFile.transmit sock fuel valid_range (end_ - start + 1) file
          (file.length + 1) start.toNat
          (if valid_range then SendFile.rangeBufferSize (end_ - start + 1) else (BUFSIZ : Int))
          0 conn).1,
        response :=
          if (SendFile.transmit sock fuel valid_range (end_ - start + 1) file
              (file.length + 1) start.toNat
              (if valid_range then SendFile.rangeBufferSize (end_ - start + 1)
               else (BUFSIZ : Int)) 0 conn).2.1
          then { self.setHeader "Connection".toList "close".toList with body_sent := true }
          else self.setHeader "Connection".toList "close".toList,
        conn := (SendFile.transmit sock fuel valid_range (end_ - start + 1) file
          (file.length + 1) start.toNat
          (if valid_range then SendFile.rangeBufferSize (end_ - start + 1) else (BUFSIZ : Int))
          0 conn).2.2 } := by
  unfold SendFile.stream
  dsimp only
  rw [Response.writeHeaders_sent StatusText sock
    (self.setHeader "Connection".toList "close".toList) conn h]

/-- Setting `body_sent` or not leaves `headers_sent` as it is. -/
theorem Response.body_sent_ite (c : Bool) (r : Response) (h : r.headers_sent = true) :
    (if c = true then ({ r with body_sent := true } : Response) else r).headers_sent = true := by
  cases c <;> exact h

/-- With the headers flushed, `SendFile` leaves them flushed, and the
connection is either as it was or as the transmission loop over the opened
file, started on the connection as it was, leaves it. -/
theorem Response.SendFile_sent (StatusText : HttpStatus → Str) (getContentType : Str → Str)
    (fopen64 : Str → Option Str) (sock : Socket) (fuel : Nat) (request : Request)
    (self : Response) (conn : Conn) (fname : Str) (h : self.headers_sent = true) :
    (self.SendFile StatusText getContentType fopen64 sock fuel request conn
        fname).response.headers_sent = true ∧
      ((self.SendFile StatusText getContentType fopen64 sock fuel request conn fname).conn = conn ∨
        ∃ file, fopen64 (urldecode (fname.length + 1) fname) = some file ∧
          ∃ valid_range range_length pos buffer_size,
            (self.SendFile StatusText getContentType fopen64 sock fuel request conn fname).conn =
              (SendFile.transmit sock fuel valid_range range_length file (file.length + 1) pos
                buffer_size 0 conn).2.2) := by
  unfold Response.SendFile
  by_cases hb : self.body_sent = true
  · rw [if_pos hb]
    exact ⟨h, Or.inl rfl⟩
  · rw [if_neg hb]
    dsimp only
    generalize hself1 : (match self.findResponseHeader "Content-Type".toList with
      | none => self.setHeader "Content-Type".toList
          (getContentType (urldecode (fname.length + 1) fname))
      | some _ => self) = self1
    have h1 : self1.headers_sent = true := by
      rw [← hself1]
      split
      · exact h
      · exact h
    rcases Option.eq_none_or_eq_some (fopen64 (urldecode (fname.length + 1) fname)) with
      hf | ⟨file, hf⟩
    · rw [hf]
      dsimp only
      rw [SendFile.fail_sent StatusText sock self1 conn _ h1]
      exact ⟨h1, Or.inl rfl⟩
    · rw [hf]
      dsimp only
      split
      · split
        · rw [SendFile.fail_sent StatusText sock self1 conn _ h1]
          exact ⟨h1, Or.inl rfl⟩
        · split
          · rw [SendFile.fail_sent StatusText sock self1 conn _ h1]
            exact ⟨h1, Or.inl rfl⟩
          · rw [SendFile.stream_sent StatusText sock fuel (write_range_headers self1 _ _ _) conn
              _ _ _ _ h1]
            exact ⟨Response.body_sent_ite _ _ h1, Or.inr ⟨file, rfl, _, _, _, _, rfl⟩⟩
      · rw [SendFile.stream_sent StatusText sock fuel
          (self1.setHeader "Content-Length".toList _) conn _ _ _ _ h1]
        exact ⟨Response.body_sent_ite _ _ h1, Or.inr ⟨file, rfl, _, _, _, _, rfl⟩⟩
/-- With the headers flushed, `Send` makes one write, of the body. -/
theorem Response.Send_sent (StatusText : HttpStatus → Str) (sock : Socket)
    (self : Response) (conn : Conn) (d : Str) (h : self.headers_sent = true) :
    self.Send StatusText sock conn d =
      if self.body_sent = true then
        { ret := .threw "body already sent", response := self, conn := conn }
      else if (Client.Send sock conn d).1 = -1 then
        { ret := .returned (-1), response := { self with headers := sendHeaders self.headers d },
          conn := (Client.Send sock conn d).2 }
      else
        { ret := .returned (Client.Send sock conn d).1,
          response := { self with headers := sendHeaders self.headers d, body_sent := true },
          conn := (Client.Send sock conn d).2 } := by
  by_cases hb : self.body_sent = true
  · unfold Response.Send
    rw [if_pos hb, if_pos hb]
  · have hb2 : self.body_sent = false := by simpa using hb
    have hs := Response.Send_unsent StatusText sock self conn d hb2
    dsimp only at hs
    rw [hs, if_neg hb,
      Response.writeHeaders_sent StatusText sock
        { self with headers := sendHeaders self.headers d } conn h]
    by_cases hc : (Client.Send sock conn d).1 = -1
    · rw [if_pos hc, if_neg (fun hand => hand.2 hc), if_pos rfl]
    · rw [if_neg hc, if_pos ⟨rfl, hc⟩]

/-- No operation takes a response out of the state in which the headers are
flushed. -/
theorem Response.apply_headers_sent (StatusText : HttpStatus → Str)
    (getContentType : Str → Str) (fopen64 : Str → Option Str) (sock : Socket) (fuel : Nat)
    (request : Request) (state : Response × Conn) (op : Response.Op)
    (h : state.1.headers_sent = true) :
    (Response.apply StatusText getContentType fopen64 sock fuel request state
      op).1.headers_sent = true := by
  cases op with
  | setStatus value => exact h
  | setHeader name value => exact h
  | setChunked value => exact h
  | setStreamComplete value => exact h
  | writeHeaders =>
    show (state.1.writeHeaders StatusText sock state.2).response.headers_sent = true
    rw [Response.writeHeaders_sent StatusText sock state.1 state.2 h]
    exact h
  | Send data =>
    show (state.1.Send StatusText sock state.2 data).response.headers_sent = true
    rw [Response.Send_sent StatusText sock state.1 state.2 data h]
    split
    · exact h
    · split
      · exact h
      · exact h
  | SendFile fname =>
    exact (Response.SendFile_sent StatusText getContentType fopen64 sock fuel request
      state.1 state.2 fname h).1

/-- No sequence of operations takes a response out of the state in which the
headers are flushed. -/
theorem Response.run_headers_sent (StatusText : HttpStatus → Str)
    (getContentType : Str → Str) (fopen64 : Str → Option Str) (sock : Socket) (fuel : Nat)
    (request : Request) (ops : List Response.Op) (state : Response × Conn)
    (h : state.1.headers_sent = true) :
    (Response.run StatusText getContentType fopen64 sock fuel request ops
      state).1.headers_sent = true := by
  induction ops generalizing state with
  | nil => exact h
  | cons op rest ih =>
    unfold Response.run
    rw [List.foldl_cons]
    exact ih _ (Response.apply_headers_sent StatusText getContentType fopen64 sock fuel request
      state op h)

/-- A write that returns -1 puts nothing on the wire. -/
theorem Client.Send_wire_of_failed (sock : Socket) (conn : Conn) (data : Str)
    (h : (Client.Send sock conn data).1 = -1) :
    (Client.Send sock conn data).2.wire = conn.wire := by
  unfold Client.Send send at h ⊢
  cases hs : sock conn.calls data with
  | wrote n =>
    rw [hs] at h
    simp only [natCast_ne_neg_one] at h
  | wouldBlock => rfl
  | failed => rfl

/-- A flush that puts bytes on the wire starts with the headers unsent and
leaves them sent: a flush that throws has written nothing. -/
theorem Response.writeHeaders_wire (StatusText : HttpStatus → Str) (sock : Socket)
    (self : Response) (conn : Conn)
    (h : (self.writeHeaders StatusText sock conn).conn.wire ≠ conn.wire) :
    self.headers_sent = false ∧
      (self.writeHeaders StatusText sock conn).response.headers_sent = true := by
  unfold Response.writeHeaders at h ⊢
  by_cases hh : self.headers_sent = true
  · rw [if_pos hh] at h
    exact absurd rfl h
  · have hh2 : self.headers_sent = false := by simpa using hh
    rw [if_neg hh] at h ⊢
    dsimp only at h ⊢
    generalize (if self.status = 0 then
      ({ self with status := StatusOK } : Response) else self) = self1 at h ⊢
    split at h
    · rename_i hfail
      exact absurd (Client.Send_wire_of_failed sock conn _ hfail) h
    · rename_i hok
      rw [if_neg hok]
      exact ⟨hh2, rfl⟩

/-- C15. For every response on which a flush has succeeded, which is what the
flag `headers_sent` records, and every sequence of operations on it (setters,
flushes, `Send`, `SendFile`, however each one ends), the response that the
sequence leaves still has the headers flushed, and at that response: a direct
flush returns with the response and the connection as they were; `Send` makes
one write, with the body as its data, and changes only what `Send` itself sets,
so that its flush wrote nothing and changed nothing; and `SendFile` leaves the
connection either as it was or as the transmission loop over the opened file,
started on the connection as it was, leaves it. So no operation after the
successful flush writes a header block: the block of that flush is the only
one on the wire. -/
theorem flush_writes_once (StatusText : HttpStatus → Str) (getContentType : Str → Str)
    (fopen64 : Str → Option Str) (sock : Socket) (fuel : Nat) (request : Request)
    (ops : List Response.Op) (self : Response) (conn : Conn)
    (h : self.headers_sent = true) (data fname : Str) :
    let state := Response.run StatusText getContentType fopen64 sock fuel request ops (self, conn)
    state.1.headers_sent = true ∧
      state.1.writeHeaders StatusText sock state.2 =
        { ret := .returned (), response := state.1, conn := state.2 } ∧
      state.1.Send StatusText sock state.2 data =
        (if state.1.body_sent = true then
          { ret := .threw "body already sent", response := state.1, conn := state.2 }
        else if (Client.Send sock state.2 data).1 = -1 then
          { ret := .returned (-1),
            response := { state.1 with headers := sendHeaders state.1.headers data },
            conn := (Client.Send sock state.2 data).2 }
        else
          { ret := .returned (Client.Send sock state.2 data).1,
            response := { state.1 with headers := sendHeaders state.1.headers data,
                                       body_sent := true },
            conn := (Client.Send sock state.2 data).2 }) ∧
      ((state.1.SendFile StatusText getContentType fopen64 sock fuel request state.2
          fname).conn = state.2 ∨
        ∃ file, fopen64 (urldecode (fname.length + 1) fname) = some file ∧
          ∃ valid_range range_length pos buffer_size,
            (state.1.SendFile StatusText getContentType fopen64 sock fuel request state.2
                fname).conn =
              (SendFile.transmit sock fuel valid_range range_length file (file.length + 1) pos
                buffer_size 0 state.2).2.2) := by
  intro state
  have hrun : state.1.headers_sent = true :=
    Response.run_headers_sent StatusText getContentType fopen64 sock fuel request ops
      (self, conn) h
  exact ⟨hrun, Response.writeHeaders_sent StatusText sock state.1 state.2 hrun,
    Response.Send_sent StatusText sock state.1 state.2 data hrun,
    (Response.SendFile_sent StatusText getContentType fopen64 sock fuel request
      state.1 state.2 fname hrun).2⟩

/-- C15 at a fresh response after its first flush, with a client that accepts
every write, and a handler that flushes again, sets a header, sends `Hello` and
flushes once more: the one header block and the body are all that is on the
wire. -/
theorem flush_writes_once_witness :
    flushedOnce.1.headers_sent = true ∧
    (let state := Response.run Modelled.StatusText Modelled.getContentType twoFiles acceptAll 1
        freshRequest flushAgainOps (flushedOnce.1, flushedOnce.2)
     state.1.headers_sent = true ∧
      state.1.writeHeaders Modelled.StatusText acceptAll state.2 =
        { ret := .returned (), response := state.1, conn := state.2 } ∧
      state.1.Send Modelled.StatusText acceptAll state.2 "more".toList =
        (if state.1.body_sent = true then
          { ret := .threw "body already sent", response := state.1, conn := state.2 }
        else if (Client.Send acceptAll state.2 "more".toList).1 = -1 then
          { ret := .returned (-1),
            response := { state.1 with headers := sendHeaders state.1.headers "more".toList },
            conn := (Client.Send acceptAll state.2 "more".toList).2 }
        else
          { ret := .returned (Client.Send acceptAll state.2 "more".toList).1,
            response := { state.1 with headers := sendHeaders state.1.headers "more".toList,
                                       body_sent := true },
            conn := (Client.Send acceptAll state.2 "more".toList).2 }) ∧
      ((state.1.SendFile Modelled.StatusText Modelled.getContentType twoFiles acceptAll 1
          freshRequest state.2 "/digits.txt".toList).conn = state.2 ∨
        ∃ file, twoFiles (urldecode ("/digits.txt".toList.length + 1) "/digits.txt".toList) =
            some file ∧
          ∃ valid_range range_length pos buffer_size,
            (state.1.SendFile Modelled.StatusText Modelled.getContentType twoFiles acceptAll 1
                freshRequest state.2 "/digits.txt".toList).conn =
              (SendFile.transmit acceptAll 1 valid_range range_length file (file.length + 1) pos
                buffer_size 0 state.2).2.2)) ∧
    (Response.run Modelled.StatusText Modelled.getContentType twoFiles acceptAll 1
        freshRequest flushAgainOps (flushedOnce.1, flushedOnce.2)).2.wire =
      "HTTP/1.1 200 OK\r\n\r\nHello".toList :=
  ⟨by decide,
   flush_writes_once Modelled.StatusText Modelled.getContentType twoFiles acceptAll 1
     freshRequest flushAgainOps flushedOnce.1 flushedOnce.2 (by decide)
     "more".toList "/digits.txt".toList,
   by decide⟩

/-- One call of `send` only appends to the wire. -/
theorem send_wire (sock : Socket) (conn : Conn) (data : Str) :
    ∃ w, (send sock conn data).2.wire = conn.wire ++ w := by
  unfold send
  cases sock conn.calls data with
  | wrote n => exact ⟨data.take n, rfl⟩
  | wouldBlock => exact ⟨[], (List.append_nil _).symm⟩
  | failed => exact ⟨[], (List.append_nil _).symm⟩

/-- The inner loop of `SendFile` only appends to the wire. -/
theorem SendFile.sendChunk_wire (sock : Socket) (fuel : Nat) (pending : Str) (total : Int)
    (conn : Conn) :
    ∃ w, (SendFile.sendChunk sock fuel pending total conn).2.2.wire = conn.wire ++ w := by
  induction fuel generalizing pending total conn with
  | zero =>
    unfold SendFile.sendChunk
    split <;> exact ⟨[], (List.append_nil _).symm⟩
  | succ fuel ih =>
    unfold SendFile.sendChunk
    split
    · exact ⟨[], (List.append_nil _).symm⟩
    · obtain ⟨w1, hw1⟩ := send_wire sock conn pending
      rcases hsend : send sock conn pending with ⟨res, conn1⟩
      rw [hsend] at hw1
      cases res with
      | wouldBlock =>
        obtain ⟨w2, hw2⟩ := ih pending total conn1
        refine ⟨w1 ++ w2, ?_⟩
        show (SendFile.sendChunk sock fuel pending total conn1).2.2.wire = _
        rw [hw2, hw1, List.append_assoc]
      | failed => exact ⟨w1, hw1⟩
      | wrote n =>
        dsimp only
        split
        · exact ⟨w1, hw1⟩
        · obtain ⟨w2, hw2⟩ := ih (pending.drop n) (total + n) conn1
          refine ⟨w1 ++ w2, ?_⟩
          rw [hw2, hw1, List.append_assoc]

/-- The transmission loop of `SendFile` only appends to the wire. -/
theorem SendFile.transmit_wire (sock : Socket) (fuel : Nat) (valid_range : Bool)
    (range_length : Int) (file : Str) (steps pos : Nat) (buffer_size total : Int) (conn : Conn) :
    ∃ w, (SendFile.transmit sock fuel valid_range range_length file steps pos buffer_size total
      conn).2.2.wire = conn.wire ++ w := by
  induction steps generalizing pos buffer_size total conn with
  | zero => exact ⟨[], (List.append_nil _).symm⟩
  | succ steps ih =>
    unfold SendFile.transmit
    dsimp only
    split
    · exact ⟨[], (List.append_nil _).symm⟩
    · obtain ⟨w1, hw1⟩ := SendFile.sendChunk_wire sock fuel
        ((file.drop pos).take (intToSize buffer_size)) total conn
      rcases hchunk : SendFile.sendChunk sock fuel
        ((file.drop pos).take (intToSize buffer_size)) total conn with ⟨ended, total1, conn1⟩
      rw [hchunk] at hw1
      cases ended with
      | some ret => exact ⟨w1, hw1⟩
      | none =>
        dsimp only
        split
        · exact ⟨w1, hw1⟩
        · obtain ⟨w2, hw2⟩ := ih
            (pos + ((file.drop pos).take (intToSize buffer_size)).length)
            (if valid_range = true then SendFile.rangeBufferSize (range_length - total1)
             else buffer_size) total1 conn1
          refine ⟨w1 ++ w2, ?_⟩
          rw [hw2, hw1, List.append_assoc]
/-- A flush leaves the header list as it is, and the status too when it is
not 0. -/
theorem Response.writeHeaders_fields (StatusText : HttpStatus → Str) (sock : Socket)
    (self : Response) (conn : Conn) (hs : self.status ≠ 0) :
    (self.writeHeaders StatusText sock conn).response.status = self.status ∧
      (self.writeHeaders StatusText sock conn).response.headers = self.headers := by
  unfold Response.writeHeaders
  rw [if_neg hs]
  dsimp only
  split
  · exact ⟨rfl, rfl⟩
  · split
    · exact ⟨rfl, rfl⟩
    · exact ⟨rfl, rfl⟩

/-- Setting `body_sent` or not leaves the status and the header list as they
are. -/
theorem Response.body_sent_ite_fields (c : Bool) (r : Response) :
    (if c = true then ({ r with body_sent := true } : Response) else r).status = r.status ∧
      (if c = true then ({ r with body_sent := true } : Response) else r).headers =
        r.headers := by
  cases c <;> exact ⟨rfl, rfl⟩

/-- The end of `SendFile` on a response with a non-zero status: the status
stays, `Connection: close` is the one header added, and the wire is what the
flush leaves, followed by what the transmission loop writes. -/
theorem SendFile.stream_fields (StatusText : HttpStatus → Str) (sock : Socket) (fuel : Nat)
    (self : Response) (conn : Conn) (valid_range : Bool) (start end_ : Int) (file : Str)
    (hs : self.status ≠ 0) :
    (SendFile.stream StatusText sock fuel self conn valid_range start end_
        file).response.status = self.status ∧
      (SendFile.stream StatusText sock fuel self conn valid_range start end_
        file).response.headers =
          self.headers ++ [{ name := "Connection".toList, value := "close".toList }] ∧
      ∃ body, (SendFile.stream StatusText sock fuel self conn valid_range start end_
        file).conn.wire =
          ((self.setHeader "Connection".toList "close".toList).writeHeaders StatusText sock
            conn).conn.wire ++ body := by
  have hf := Response.writeHeaders_fields StatusText sock
    (self.setHeader "Connection".toList "close".toList) conn hs
  unfold SendFile.stream
  dsimp only
  generalize (self.setHeader "Connection".toList "close".toList).writeHeaders StatusText sock
    conn = flushed at hf ⊢
  obtain ⟨hf1, hf2⟩ := hf
  split
  · exact ⟨hf1, hf2, [], (List.append_nil _).symm⟩
  · exact ⟨hf1, hf2, [], (List.append_nil _).symm⟩
  · refine ⟨?_, ?_, ?_⟩
    · exact (Response.body_sent_ite_fields _ _).1.trans hf1
    · exact (Response.body_sent_ite_fields _ _).2.trans hf2
    · exact SendFile.transmit_wire sock fuel valid_range _ file _ _ _ _ flushed.conn

/-- The header list on which `SendFile` goes on after the lookup of
Content-Type. -/
theorem Response.SendFile_headers (getContentType : Str → Str) (self : Response)
    (filename : Str) :
    (match self.findResponseHeader "Content-Type".toList with
      | none => self.setHeader "Content-Type".toList (getContentType filename)
      | some _ => self) =
      { self with headers := fileHeaders getContentType self.headers filename } := by
  unfold fileHeaders
  by_cases hct : hasHeader self.headers "Content-Type".toList
  · have hsome : self.findResponseHeader "Content-Type".toList ≠ none := by
      intro hn
      unfold Response.findResponseHeader at hn
      rw [Request.findRequestHeader.loop_eq_none] at hn
      obtain ⟨x, hx, hfold⟩ := hct
      exact hn x hx hfold
    obtain ⟨p, hp⟩ := Option.ne_none_iff_exists'.mp hsome
    rw [hp, if_pos hct]
  · have hnone : self.findResponseHeader "Content-Type".toList = none := by
      unfold Response.findResponseHeader
      rw [Request.findRequestHeader.loop_eq_none]
      intro x hx hfold
      exact hct ⟨x, hx, hfold⟩
    rw [hnone, if_neg hct]
    rfl

/-- The Range header `bytes=0-` is read as a valid range that starts at 0 and
has no end. -/
theorem SendFile.parseRange_from_zero (request : Request) (i : Nat) (h : Header)
    (hrange : request.findRequestHeader "Range".toList = some (i, h))
    (hvalue : cstr h.value = "bytes=0-".toList) :
    SendFile.parseRange request =
      { valid_range := true, has_end_range := false, start := 0, end_ := 0 } := by
  unfold SendFile.parseRange
  rw [hrange]
  dsimp only
  rw [hvalue]
  rfl
/-- A range that starts at 0 and has no end resolves to the whole file. -/
theorem SendFile.resolveRange_from_zero (file_size : Int) :
    SendFile.resolveRange false 0 0 file_size = (0, file_size - 1) := by
  rfl

/-- The response that `SendFile` flushes for the whole of a file as a range. -/
theorem write_range_headers_whole (self : Response) (S : Nat) :
    (write_range_headers self 0 ((S : Int) - 1) (S : Int)).setHeader "Connection".toList
        "close".toList =
      { self with status := StatusPartialContent,
                  headers := self.headers ++ wholeFileRangeHeaders S } := by
  have harith : (S : Int) - 1 - 0 + 1 = (S : Int) := by omega
  unfold write_range_headers Response.setHeader Response.setStatus wholeFileRangeHeaders
  dsimp only
  rw [harith]
  simp only [List.append_assoc]
  rfl

/-- C20, as amended. For every response whose body is not sent, every request
whose first Range header has the value `bytes=0-`, and every file that can be
opened and has a size S of at least 1: `SendFile` leaves the status 206, and
the header list is the one it started from, with the content type settled,
followed by `Accept-Ranges: bytes`, `Content-Length: S`,
`Content-Range: bytes 0-(S-1)/S` and `Connection: close`, so the range is the
whole file, not capped by the window; and what `SendFile` puts on the wire
starts with what the flush of the response with that status and those headers
writes. This holds for every client and however the transmission ends. -/
theorem SendFile_range_from_zero (StatusText : HttpStatus → Str) (getContentType : Str → Str)
    (fopen64 : Str → Option Str) (sock : Socket) (fuel : Nat) (request : Request)
    (self : Response) (conn : Conn) (fname : Str) (i : Nat) (h : Header) (file : Str)
    (hbody : self.body_sent = false)
    (hrange : request.findRequestHeader "Range".toList = some (i, h))
    (hvalue : cstr h.value = "bytes=0-".toList)
    (hfile : fopen64 (urldecode (fname.length + 1) fname) = some file)
    (hsize : 1 ≤ file.length) :
    let out := self.SendFile StatusText getContentType fopen64 sock fuel request conn fname
    let answer : List Header :=
      fileHeaders getContentType self.headers (urldecode (fname.length + 1) fname) ++
        wholeFileRangeHeaders file.length
    out.response.status = StatusPartialContent ∧
      out.response.headers = answer ∧
      ∃ body, out.conn.wire =
        (({ self with status := StatusPartialContent, headers := answer } :
          Response).writeHeaders StatusText sock conn).conn.wire ++ body := by
  intro out answer
  have hout : out = SendFile.stream StatusText sock fuel
      (write_range_headers
        { self with headers := (fileHeaders getContentType self.headers
            (urldecode (fname.length + 1) fname)) }
        0 ((file.length : Int) - 1) (file.length : Int))
      conn true 0 ((file.length : Int) - 1) file := by
    show self.SendFile StatusText getContentType fopen64 sock fuel request conn fname = _
    unfold Response.SendFile
    rw [if_neg (by rw [hbody]; exact Bool.false_ne_true)]
    dsimp only
    rw [Response.SendFile_headers, SendFile.parseRange_from_zero request i h hrange hvalue, hfile]
    dsimp only
    rw [if_pos rfl, if_neg (by omega), SendFile.resolveRange_from_zero]
    dsimp only
    rw [if_neg (by omega)]
  have hfields := SendFile.stream_fields StatusText sock fuel
    (write_range_headers
      { self with headers := (fileHeaders getContentType self.headers
          (urldecode (fname.length + 1) fname)) }
      0 ((file.length : Int) - 1) (file.length : Int))
    conn true 0 ((file.length : Int) - 1) file
    (by show StatusPartialContent ≠ 0; decide)
  have hwhole := write_range_headers_whole
    { self with headers := (fileHeaders getContentType self.headers
        (urldecode (fname.length + 1) fname)) } file.length
  rw [← hout, hwhole] at hfields
  obtain ⟨h1, h2, h3⟩ := hfields
  exact ⟨h1, h2.trans (congrArg Response.headers hwhole), h3⟩

set_option maxRecDepth 4096 in
/-- C20 at a fresh response, the ten-byte file `/digits.txt` and a client that
accepts every write: the status is 206, the headers are those of the whole
file as a range, and the wire holds the header block and the ten bytes. -/
theorem SendFile_range_from_zero_witness :
    (Response.new.body_sent = false ∧
      wholeRangeRequest.findRequestHeader "Range".toList =
        some (1, { name := "Range".toList, value := "bytes=0-".toList ++ [Char.ofNat 0] }) ∧
      cstr ("bytes=0-".toList ++ [Char.ofNat 0]) = "bytes=0-".toList ∧
      twoFiles (urldecode ("/digits.txt".toList.length + 1) "/digits.txt".toList) =
        some "0123456789".toList ∧
      1 ≤ "0123456789".toList.length) ∧
    (let out := Response.new.SendFile Modelled.StatusText Modelled.getContentType twoFiles
        acceptAll 1 wholeRangeRequest Conn.fresh "/digits.txt".toList
     let answer : List Header :=
      fileHeaders Modelled.getContentType Response.new.headers
          (urldecode ("/digits.txt".toList.length + 1) "/digits.txt".toList) ++
        wholeFileRangeHeaders "0123456789".toList.length
     out.response.status = StatusPartialContent ∧
      out.response.headers = answer ∧
      ∃ body, out.conn.wire =
        (({ Response.new with status := StatusPartialContent, headers := answer } :
          Response).writeHeaders Modelled.StatusText acceptAll Conn.fresh).conn.wire ++ body) ∧
    (Response.new.SendFile Modelled.StatusText Modelled.getContentType twoFiles
        acceptAll 1 wholeRangeRequest Conn.fresh "/digits.txt".toList).conn.wire =
      ("HTTP/1.1 206 Partial Content\r\nContent-Type: text/plain\r\nAccept-Ranges: bytes\r\n" ++
        "Content-Length: 10\r\nContent-Range: bytes 0-9/10\r\nConnection: close\r\n\r\n" ++
        "0123456789").toList :=
  ⟨⟨by decide, by decide, by decide, by decide, by decide⟩,
   SendFile_range_from_zero Modelled.StatusText Modelled.getContentType twoFiles acceptAll 1
     wholeRangeRequest Response.new Conn.fresh "/digits.txt".toList 1
     { name := "Range".toList, value := "bytes=0-".toList ++ [Char.ofNat 0] }
     "0123456789".toList (by decide) (by decide) (by decide) (by decide) (by decide),
   by decide⟩

/-- C20 as stated fails on the empty file. The file `/empty.txt` can be opened
and has size 0, the Range header of the request is `bytes=0-`, and `SendFile`
answers with status 416 and no Content-Range header, and returns -1: a start
of 0 is not below the size 0. -/
theorem SendFile_range_from_zero_empty_file :
    twoFiles (urldecode ("/empty.txt".toList.length + 1) "/empty.txt".toList) = some [] ∧
      (wholeRangeRequest.findRequestHeader "Range".toList).map (fun p => cstr p.2.value) =
        some "bytes=0-".toList ∧
      emptyFileOutcome.ret = .returned (-1) ∧
      emptyFileOutcome.response.status = StatusRequestedRangeNotSatisfiable ∧
      emptyFileOutcome.response.status ≠ StatusPartialContent ∧
      ¬ hasHeader emptyFileOutcome.response.headers "Content-Range".toList ∧
      emptyFileOutcome.conn.wire =
        ("HTTP/1.1 416 Requested Range Not Satisfiable\r\n" ++
          "Content-Type: text/plain\r\n\r\n").toList := by
  decide

/-! ## Range requests -/

/-- The response that `SendFile` flushes for a range: the status is 206 and
the four headers of the range are added. -/
theorem write_range_headers_close (self : Response) (start end_ file_size : Int) :
    (write_range_headers self start end_ file_size).setHeader "Connection".toList
        "close".toList =
      { self with status := StatusPartialContent,
                  headers := self.headers ++ rangeAnswerHeaders start end_ file_size } := by
  unfold write_range_headers Response.setHeader Response.setStatus rangeAnswerHeaders
  simp only [List.append_assoc]
  rfl

/-- The paths of `SendFile` for a request with a valid range and a file that
can be opened: the failure path with status 416 when the start is not below the
size or the resolved range fails the sanity checks, and otherwise the flush and
the transmission of the resolved range. -/
theorem Response.SendFile_range (StatusText : HttpStatus → Str) (getContentType : Str → Str)
    (fopen64 : Str → Option Str) (sock : Socket) (fuel : Nat) (request : Request)
    (self : Response) (conn : Conn) (fname : Str) (has_end_range : Bool) (start end_ : Int)
    (file : Str) (hbody : self.body_sent = false)
    (hparse : SendFile.parseRange request =
      { valid_range := true, has_end_range := has_end_range, start := start, end_ := end_ })
    (hfile : fopen64 (urldecode (fname.length + 1) fname) = some file) :
    self.SendFile StatusText getContentType fopen64 sock fuel request conn fname =
      if start ≥ (file.length : Int) ∨
          (SendFile.resolveRange has_end_range start end_ file.length).1 < 0 ∨
          (SendFile.resolveRange has_end_range start end_ file.length).2 < 0 ∨
          (SendFile.resolveRange has_end_range start end_ file.length).2 ≥ (file.length : Int)
      then
        SendFile.fail StatusText sock
          { self with headers := (fileHeaders getContentType self.headers
              (urldecode (fname.length + 1) fname)) }
          conn StatusRequestedRangeNotSatisfiable
      else
        SendFile.stream StatusText sock fuel
          (write_range_headers
            { self with headers := (fileHeaders getContentType self.headers
                (urldecode (fname.length + 1) fname)) }
            (SendFile.resolveRange has_end_range start end_ file.length).1
            (SendFile.resolveRange has_end_range start end_ file.length).2 file.length)
          conn true (SendFile.resolveRange has_end_range start end_ file.length).1
          (SendFile.resolveRange has_end_range start end_ file.length).2 file := by
  unfold Response.SendFile
  rw [if_neg (by rw [hbody]; exact Bool.false_ne_true)]
  dsimp only
  rw [Response.SendFile_headers, hparse, hfile]
  dsimp only
  rw [if_pos rfl]
  by_cases h1 : start ≥ (file.length : Int)
  · rw [if_pos h1, if_pos (Or.inl h1)]
  · rw [if_neg h1]
    by_cases h2 : (SendFile.resolveRange has_end_range start end_ file.length).1 < 0 ∨
        (SendFile.resolveRange has_end_range start end_ file.length).2 < 0 ∨
        (SendFile.resolveRange has_end_range start end_ file.length).2 ≥ (file.length : Int)
    · rw [if_pos h2, if_pos (Or.inr h2)]
    · rw [if_neg h2, if_neg (by rintro (h | h); exact h1 h; exact h2 h)]

/-- The failure path of `SendFile` on a response with a non-zero status to
set: the status is set, no header is added, the connection is as the flush
leaves it, `body_sent` stays, and the call returns -1 unless the flush
throws. -/
theorem SendFile.fail_fields (StatusText : HttpStatus → Str) (sock : Socket) (self : Response)
    (conn : Conn) (status : HttpStatus) (hs : status ≠ 0) :
    (SendFile.fail StatusText sock self conn status).response.status = status ∧
      (SendFile.fail StatusText sock self conn status).response.headers = self.headers ∧
      (SendFile.fail StatusText sock self conn status).response.body_sent = self.body_sent ∧
      (SendFile.fail StatusText sock self conn status).conn =
        ((self.setStatus status).writeHeaders StatusText sock conn).conn ∧
      (SendFile.fail StatusText sock self conn status).ret =
        (match ((self.setStatus status).writeHeaders StatusText sock conn).ret with
          | .returned _ => .returned (-1)
          | .threw what => .threw what
          | .spinning => .spinning) := by
  have hf := Response.writeHeaders_fields StatusText sock (self.setStatus status) conn hs
  have hb := (Response.writeHeaders_cases StatusText sock (self.setStatus status) conn).1
  unfold SendFile.fail
  dsimp only
  generalize (self.setStatus status).writeHeaders StatusText sock conn = flushed at hf hb ⊢
  obtain ⟨hf1, hf2⟩ := hf
  split
  · exact ⟨hf1, hf2, hb, rfl, rfl⟩
  · exact ⟨hf1, hf2, hb, rfl, rfl⟩
  · exact ⟨hf1, hf2, hb, rfl, rfl⟩

/-- A first flush whose write fails throws the exception of `writeHeaders`,
puts nothing on the wire and leaves the headers unsent. -/
theorem Response.writeHeaders_refused (StatusText : HttpStatus → Str) (sock : Socket)
    (self : Response) (conn : Conn) (hh : self.headers_sent = false)
    (hf : sock.failsAt conn.calls) :
    (self.writeHeaders StatusText sock conn).ret =
        .threw "failed to send HTTP headers to client" ∧
      (self.writeHeaders StatusText sock conn).conn = { conn with calls := conn.calls + 1 } ∧
      (self.writeHeaders StatusText sock conn).response.headers_sent = false := by
  have hcases := (Response.writeHeaders_cases StatusText sock self conn).2
  have hret : (self.writeHeaders StatusText sock conn).ret =
        .threw "failed to send HTTP headers to client" ∧
      (self.writeHeaders StatusText sock conn).conn = { conn with calls := conn.calls + 1 } := by
    unfold Response.writeHeaders
    simp only [hh, Bool.false_eq_true, if_false, Client.Send_failed sock conn _ hf, if_true,
      and_self]
  refine ⟨hret.1, hret.2, ?_⟩
  rcases hcases with ⟨hr, _⟩ | ⟨_, _, hs, _⟩
  · rw [hret.1] at hr
    exact Ret.noConfusion hr
  · exact hs

/-- C21, as amended. For every response whose body is not sent, every request
whose Range header is read as a valid range (with or without an end), and every
file that can be opened, of size S: if the requested start is at least S, or if
the resolved range has a negative start, a negative end, or an end of at least
S, then `SendFile` sets the status 416 and adds no range header, the connection
is as the flush of that response leaves it, so that no body byte is written,
and `body_sent` stays unset. The call returns -1 when the flush returns, which
it does when the headers were already sent (nothing is written then) and when
the client accepts the write of the header block. When the headers are unsent
and that write fails, the call does not return -1: the exception of
`writeHeaders` leaves `SendFile`, with nothing on the wire and the headers
unsent. -/
theorem SendFile_unsatisfiable_range (StatusText : HttpStatus → Str)
    (getContentType : Str → Str) (fopen64 : Str → Option Str) (sock : Socket) (fuel : Nat)
    (request : Request) (self : Response) (conn : Conn) (fname : Str) (has_end_range : Bool)
    (start end_ : Int) (file : Str) (hbody : self.body_sent = false)
    (hparse : SendFile.parseRange request =
      { valid_range := true, has_end_range := has_end_range, start := start, end_ := end_ })
    (hfile : fopen64 (urldecode (fname.length + 1) fname) = some file)
    (hout : start ≥ (file.length : Int) ∨
      (SendFile.resolveRange has_end_range start end_ file.length).1 < 0 ∨
      (SendFile.resolveRange has_end_range start end_ file.length).2 < 0 ∨
      (SendFile.resolveRange has_end_range start end_ file.length).2 ≥ (file.length : Int)) :
    let out := self.SendFile StatusText getContentType fopen64 sock fuel request conn fname
    let flushed :=
      ({ self with status := StatusRequestedRangeNotSatisfiable,
                   headers := (fileHeaders getContentType self.headers
                     (urldecode (fname.length + 1) fname)) } : Response).writeHeaders
        StatusText sock conn
    out.response.status = StatusRequestedRangeNotSatisfiable ∧
      out.response.headers =
        fileHeaders getContentType self.headers (urldecode (fname.length + 1) fname) ∧
      out.response.body_sent = false ∧
      out.conn = flushed.conn ∧
      out.ret = (match flushed.ret with
        | .returned _ => .returned (-1)
        | .threw what => .threw what
        | .spinning => .spinning) ∧
      (self.headers_sent = true → out.ret = .returned (-1) ∧ out.conn = conn) ∧
      (self.headers_sent = false → sock.acceptsAt conn.calls →
        out.ret = .returned (-1) ∧ out.conn.calls = conn.calls + 1 ∧
          out.response.headers_sent = true) ∧
      (self.headers_sent = false → sock.failsAt conn.calls →
        out.ret = .threw "failed to send HTTP headers to client" ∧
          out.ret ≠ .returned (-1) ∧ out.conn.wire = conn.wire ∧
          out.response.headers_sent = false) := by
  intro out flushed
  have hpath : out = SendFile.fail StatusText sock
      { self with headers := (fileHeaders getContentType self.headers
          (urldecode (fname.length + 1) fname)) }
      conn StatusRequestedRangeNotSatisfiable := by
    show self.SendFile StatusText getContentType fopen64 sock fuel request conn fname = _
    rw [Response.SendFile_range StatusText getContentType fopen64 sock fuel request self conn
      fname has_end_range start end_ file hbody hparse hfile, if_pos hout]
  have hf := SendFile.fail_fields StatusText sock
    { self with headers := (fileHeaders getContentType self.headers
        (urldecode (fname.length + 1) fname)) }
    conn StatusRequestedRangeNotSatisfiable (by decide)
  rw [← hpath] at hf
  obtain ⟨h1, h2, h3, h4, h5⟩ := hf
  have h4f : out.conn = flushed.conn := h4
  have h5f : out.ret = (match flushed.ret with
      | .returned _ => .returned (-1)
      | .threw what => .threw what
      | .spinning => .spinning) := h5
  have hresp : out.response.headers_sent = flushed.response.headers_sent := by
    rw [hpath]
    unfold SendFile.fail
    dsimp only
    split <;> rfl
  refine ⟨h1, h2, h3.trans hbody, h4f, h5f, ?_, ?_, ?_⟩
  · intro hsent
    have hw : flushed = _ := Response.writeHeaders_sent StatusText sock
      ({ self with status := StatusRequestedRangeNotSatisfiable,
                   headers := (fileHeaders getContentType self.headers
                     (urldecode (fname.length + 1) fname)) } : Response) conn hsent
    rw [h5f, h4f, hw]
    exact ⟨rfl, rfl⟩
  · intro hunsent hacc
    have hw := Response.writeHeaders_accepts StatusText sock
      ({ self with status := StatusRequestedRangeNotSatisfiable,
                   headers := (fileHeaders getContentType self.headers
                     (urldecode (fname.length + 1) fname)) } : Response) conn hunsent hacc
    have hc := (Response.writeHeaders_cases StatusText sock
      ({ self with status := StatusRequestedRangeNotSatisfiable,
                   headers := (fileHeaders getContentType self.headers
                     (urldecode (fname.length + 1) fname)) } : Response) conn).2
    have hret : flushed.ret = .returned () := hw.1
    refine ⟨by rw [h5f, hret], by rw [h4f]; exact hw.2, ?_⟩
    rw [hresp]
    rcases hc with ⟨_, hs⟩ | ⟨what, hr, _⟩
    · exact hs
    · have hr2 : flushed.ret = .threw what := hr
      rw [hret] at hr2
      exact Ret.noConfusion hr2
  · intro hunsent hfail
    have hw := Response.writeHeaders_refused StatusText sock
      ({ self with status := StatusRequestedRangeNotSatisfiable,
                   headers := (fileHeaders getContentType self.headers
                     (urldecode (fname.length + 1) fname)) } : Response) conn hunsent hfail
    have hret : flushed.ret = .threw "failed to send HTTP headers to client" := hw.1
    have hconn : flushed.conn = { conn with calls := conn.calls + 1 } := hw.2.1
    have houtret : out.ret = .threw "failed to send HTTP headers to client" := by
      rw [h5f, hret]
    refine ⟨houtret, ?_, by rw [h4f, hconn], by rw [hresp]; exact hw.2.2⟩
    rw [houtret]
    exact fun h => Ret.noConfusion h

set_option maxRecDepth 4096 in
/-- C21 as amended, at a fresh response, the ten-byte file `/digits.txt` and
the Range header `bytes=999999-`. With a client that accepts every write the
answer is the header block of status 416 and nothing else, and the call returns
-1; with a client that refuses every write the call throws and the wire stays
empty. -/
theorem SendFile_unsatisfiable_range_witness :
    (Response.new.body_sent = false ∧
      SendFile.parseRange farRangeRequest =
        { valid_range := true, has_end_range := false, start := 999999, end_ := 0 } ∧
      twoFiles (urldecode ("/digits.txt".toList.length + 1) "/digits.txt".toList) =
        some "0123456789".toList ∧
      ((999999 : Int) ≥ ("0123456789".toList.length : Int) ∨
        (SendFile.resolveRange false 999999 0 "0123456789".toList.length).1 < 0 ∨
        (SendFile.resolveRange false 999999 0 "0123456789".toList.length).2 < 0 ∨
        (SendFile.resolveRange false 999999 0 "0123456789".toList.length).2 ≥
          ("0123456789".toList.length : Int))) ∧
    (Response.new.headers_sent = false ∧ acceptAll.acceptsAt Conn.fresh.calls ∧
      refuseAll.failsAt Conn.fresh.calls) ∧
    (farRangeOutcome.response.status = StatusRequestedRangeNotSatisfiable ∧
      farRangeOutcome.response.headers =
        fileHeaders Modelled.getContentType Response.new.headers
          (urldecode ("/digits.txt".toList.length + 1) "/digits.txt".toList) ∧
      farRangeOutcome.response.body_sent = false) ∧
    (farRangeOutcome.ret = .returned (-1) ∧ farRangeOutcome.conn.calls = Conn.fresh.calls + 1 ∧
      farRangeOutcome.response.headers_sent = true) ∧
    (farRangeRefusedOutcome.ret = .threw "failed to send HTTP headers to client" ∧
      farRangeRefusedOutcome.ret ≠ .returned (-1) ∧
      farRangeRefusedOutcome.conn.wire = Conn.fresh.wire ∧
      farRangeRefusedOutcome.response.headers_sent = false) ∧
    farRangeOutcome.conn.wire =
      ("HTTP/1.1 416 Requested Range Not Satisfiable\r\n" ++
        "Content-Type: text/plain\r\n\r\n").toList :=
  have ha := SendFile_unsatisfiable_range Modelled.StatusText Modelled.getContentType twoFiles
    acceptAll 1 farRangeRequest Response.new Conn.fresh "/digits.txt".toList false 999999 0
    "0123456789".toList (by decide) (by decide) (by decide) (Or.inl (by decide))
  have hr := SendFile_unsatisfiable_range Modelled.StatusText Modelled.getContentType twoFiles
    refuseAll 1 farRangeRequest Response.new Conn.fresh "/digits.txt".toList false 999999 0
    "0123456789".toList (by decide) (by decide) (by decide) (Or.inl (by decide))
  ⟨⟨by decide, by decide, by decide, Or.inl (by decide)⟩,
   ⟨rfl, fun data => ⟨data.length, rfl⟩, fun _ => Or.inl rfl⟩,
   ⟨ha.1, ha.2.1, ha.2.2.1⟩,
   ha.2.2.2.2.2.2.1 rfl (fun data => ⟨data.length, rfl⟩),
   hr.2.2.2.2.2.2.2 rfl (fun _ => Or.inl rfl),
   by decide⟩

set_option maxRecDepth 4096 in
/-- C21 as stated fails with a client that refuses the write of the header
block. The file `/digits.txt` can be opened and has ten bytes, the Range header
`bytes=999999-` is read as a range whose start is not below the size, and
`SendFile` sets the status 416; but the one call of `send` fails, no header
block is flushed, and `SendFile` does not return -1: it ends with the exception
that `writeHeaders` throws. -/
theorem SendFile_unsatisfiable_range_refused_throws :
    twoFiles (urldecode ("/digits.txt".toList.length + 1) "/digits.txt".toList) =
        some "0123456789".toList ∧
      SendFile.parseRange farRangeRequest =
        { valid_range := true, has_end_range := false, start := 999999, end_ := 0 } ∧
      (999999 : Int) ≥ ("0123456789".toList.length : Int) ∧
      Response.new.body_sent = false ∧
      farRangeRefusedOutcome.response.status = StatusRequestedRangeNotSatisfiable ∧
      farRangeRefusedOutcome.ret = .threw "failed to send HTTP headers to client" ∧
      farRangeRefusedOutcome.ret ≠ .returned (-1) ∧
      farRangeRefusedOutcome.response.headers_sent = false ∧
      farRangeRefusedOutcome.conn = { wire := [], calls := 1 } := by
  decide

/-- The path of `SendFile` for a file that cannot be opened: the failure path
with status 500, on the response with the content type settled. -/
theorem Response.SendFile_open_failure (StatusText : HttpStatus → Str)
    (getContentType : Str → Str) (fopen64 : Str → Option Str) (sock : Socket) (fuel : Nat)
    (request : Request) (self : Response) (conn : Conn) (fname : Str)
    (hbody : self.body_sent = false)
    (hfile : fopen64 (urldecode (fname.length + 1) fname) = none) :
    self.SendFile StatusText getContentType fopen64 sock fuel request conn fname =
      SendFile.fail StatusText sock
        { self with headers := (fileHeaders getContentType self.headers
            (urldecode (fname.length + 1) fname)) }
        conn StatusInternalServerError := by
  unfold Response.SendFile
  rw [if_neg (by rw [hbody]; exact Bool.false_ne_true)]
  dsimp only
  rw [Response.SendFile_headers, hfile]

/-- C26 fails on the two failure paths. For the range `bytes=999999-` on a
ten-byte file `SendFile` flushes a header block of status 416, and for a file
that cannot be opened it flushes a header block of status 500; in both the
header list has no header named Connection, and the block on the wire is the
status line and the Content-Type line only. -/
theorem SendFile_failure_blocks_lack_connection_close :
    (farRangeOutcome.response.status = StatusRequestedRangeNotSatisfiable ∧
      farRangeOutcome.response.headers_sent = true ∧
      ¬ hasHeader farRangeOutcome.response.headers "Connection".toList ∧
      farRangeOutcome.conn.wire =
        ("HTTP/1.1 416 Requested Range Not Satisfiable\r\n" ++
          "Content-Type: text/plain\r\n\r\n").toList) ∧
    (missingFileOutcome.response.status = StatusInternalServerError ∧
      missingFileOutcome.response.headers_sent = true ∧
      ¬ hasHeader missingFileOutcome.response.headers "Connection".toList ∧
      missingFileOutcome.conn.wire =
        ("HTTP/1.1 500 Internal Server Error\r\n" ++
          "Content-Type: text/plain\r\n\r\n").toList) := by
  decide

/-- A run of digits followed by a text that does not start with a digit: the
run is what `takeWhile` takes and the text is what `dropWhile` leaves. -/
theorem digits_append (ds rest : Str) (hall : ∀ c ∈ ds, c.isDigit = true)
    (hrest : ∀ c, rest.head? = some c → c.isDigit = false) :
    (ds ++ rest).takeWhile Char.isDigit = ds ∧ (ds ++ rest).dropWhile Char.isDigit = rest := by
  induction ds with
  | nil =>
    cases rest with
    | nil => exact ⟨rfl, rfl⟩
    | cons c cs =>
      have hc := hrest c rfl
      simp only [List.nil_append, List.takeWhile_cons, List.dropWhile_cons, hc]
      exact ⟨rfl, rfl⟩
  | cons d ds ih =>
    have hd := hall d (List.mem_cons_self _ _)
    obtain ⟨h1, h2⟩ := ih (fun c hc => hall c (List.mem_cons_of_mem _ hc))
    simp only [List.cons_append, List.takeWhile_cons, List.dropWhile_cons, hd, h1, h2]
    exact ⟨rfl, rfl⟩

/-- What a numeral is made of. -/
theorem decimalValue_some (ds : Str) (n : Nat) (h : decimalValue ds = some n) :
    ds ≠ [] ∧ (∀ c ∈ ds, c.isDigit = true) ∧
      ds.foldl (fun acc c => acc * 10 + (c.toNat - '0'.toNat)) 0 = n := by
  unfold decimalValue at h
  split at h
  · rename_i hd
    injection h with h
    exact ⟨hd.1, fun c hc => List.all_eq_true.mp hd.2 c hc, h⟩
  · exact absurd h (by simp)

/-- The conversion `%ld` on a text that starts with a digit reads the run of
digits at its start. -/
theorem scanLong_digits (d : Char) (s : Str) (hd : d.isDigit = true) :
    scanLong (d :: s) =
      some (min ((((d :: s).takeWhile Char.isDigit).foldl
          (fun acc c => acc * 10 + (c.toNat - '0'.toNat)) 0 : Nat) : Int) (2 ^ 63 - 1),
        (d :: s).dropWhile Char.isDigit) := by
  have hsp : isspace d = false := isspace_of_isDigit d hd
  have hminus : d ≠ '-' := by intro hc; subst hc; revert hd; decide
  have hplus : d ≠ '+' := by intro hc; subst hc; revert hd; decide
  have hdrop : (d :: s).dropWhile isspace = d :: s := by
    rw [List.dropWhile_cons, hsp]
    rfl
  have htake : ((d :: s).takeWhile Char.isDigit).isEmpty = false := by
    rw [List.takeWhile_cons, hd]
    rfl
  have hsign : (match d :: s with
      | '-' :: r => (true, r)
      | '+' :: r => (false, r)
      | _ => (false, d :: s)) = (false, d :: s) := by
    split
    · rename_i heq
      injection heq with h1 h2
      exact absurd h1 hminus
    · rename_i heq
      injection heq with h1 h2
      exact absurd h1 hplus
    · rfl
  unfold scanLong
  rw [hdrop]
  dsimp only
  rw [hsign]
  dsimp only
  rw [htake]
  rfl

/-- The conversion `%ld` on a numeral followed by a text that does not start
with a digit gives the value of the numeral, capped at the largest `long`. -/
theorem scanLong_decimal (ds rest : Str) (n : Nat) (hval : decimalValue ds = some n)
    (hrest : ∀ c, rest.head? = some c → c.isDigit = false) :
    scanLong (ds ++ rest) = some (min (n : Int) (2 ^ 63 - 1), rest) := by
  obtain ⟨hne, hall, hfold⟩ := decimalValue_some ds n hval
  obtain ⟨h1, h2⟩ := digits_append ds rest hall hrest
  cases ds with
  | nil => exact absurd rfl hne
  | cons d ds =>
    have hd := hall d (List.mem_cons_self _ _)
    rw [List.cons_append, scanLong_digits d (ds ++ rest) hd, ← List.cons_append, h1, h2, hfold]

/-- The shared start of the two formats on a text that starts with `bytes=`. -/
theorem scanBytesStart_bytes (t : Str) :
    scanBytesStart ("bytes=".toList ++ t) = scanLong t := by
  unfold scanBytesStart
  rw [if_pos (by simp [List.isPrefixOf])]
  rfl

/-- A text that starts with `bytes=` holds `bytes=`. -/
theorem find_bytes (t : Str) : (find "bytes=".toList ("bytes=".toList ++ t)).isSome = true := by
  have h : find "bytes=".toList ("bytes=".toList ++ t) = some 0 :=
    find_append "bytes=".toList "bytes=".toList t 0 (by decide)
  rw [h]
  rfl

/-- How `SendFile` reads a Range header `bytes=`, a start, `-` and an end. -/
theorem SendFile.parseRange_start_end (request : Request) (i : Nat) (h : Header) (t rest : Str)
    (start end_ : Int) (rest2 : Str)
    (hrange : request.findRequestHeader "Range".toList = some (i, h))
    (hvalue : cstr h.value = "bytes=".toList ++ t)
    (hstart : scanLong t = some (start, '-' :: rest))
    (hend : scanLong rest = some (end_, rest2)) :
    SendFile.parseRange request =
      { valid_range := true, has_end_range := true, start := start, end_ := end_ } := by
  unfold SendFile.parseRange
  rw [hrange]
  dsimp only
  rw [hvalue, if_pos (find_bytes t)]
  unfold sscanf_bytes_ld_ld
  rw [scanBytesStart_bytes, hstart]
  simp [hend]

/-- How `SendFile` reads a Range header `bytes=`, a start and `-`, with no
end after it. -/
theorem SendFile.parseRange_open (request : Request) (i : Nat) (h : Header) (t rest : Str)
    (start : Int)
    (hrange : request.findRequestHeader "Range".toList = some (i, h))
    (hvalue : cstr h.value = "bytes=".toList ++ t)
    (hstart : scanLong t = some (start, '-' :: rest))
    (hend : scanLong rest = none) :
    SendFile.parseRange request =
      { valid_range := true, has_end_range := false, start := start, end_ := 0 } := by
  unfold SendFile.parseRange
  rw [hrange]
  dsimp only
  rw [hvalue, if_pos (find_bytes t)]
  unfold sscanf_bytes_ld_ld sscanf_bytes_ld
  rw [scanBytesStart_bytes, hstart]
  simp [hend]

/-- With nothing left to send, the inner loop ends at once. -/
theorem SendFile.sendChunk_nil (sock : Socket) (fuel : Nat) (total : Int) (conn : Conn) :
    SendFile.sendChunk sock fuel [] total conn = (none, total, conn) := by
  cases fuel <;> rfl

/-- The inner loop on any socket: it writes a prefix of the chunk, in order,
and counts it; it sends the chunk whole, or it ends `SendFile` with -1, or
with the count of the bytes sent so far, or the fuel of the model runs out. -/
theorem SendFile.sendChunk_spec (sock : Socket) (fuel : Nat) (pending : Str) (sent : Nat)
    (conn : Conn) :
    ∃ m, m ≤ pending.length ∧
      (SendFile.sendChunk sock fuel pending (sent : Int) conn).2.1 = ((sent + m : Nat) : Int) ∧
      (SendFile.sendChunk sock fuel pending (sent : Int) conn).2.2.wire =
        conn.wire ++ pending.take m ∧
      (((SendFile.sendChunk sock fuel pending (sent : Int) conn).1 = none ∧
          m = pending.length) ∨
        (SendFile.sendChunk sock fuel pending (sent : Int) conn).1 = some (.returned (-1)) ∨
        (SendFile.sendChunk sock fuel pending (sent : Int) conn).1 =
          some (.returned (toInt ((sent + m : Nat) : Int))) ∨
        (SendFile.sendChunk sock fuel pending (sent : Int) conn).1 = some .spinning) := by
  induction fuel generalizing pending sent conn with
  | zero =>
    refine ⟨0, Nat.zero_le _, ?_⟩
    unfold SendFile.sendChunk
    by_cases hp : pending.isEmpty = true
    · rw [if_pos hp]
      have hnil : pending = [] := List.isEmpty_iff.mp hp
      subst hnil
      exact ⟨rfl, by simp, Or.inl ⟨rfl, rfl⟩⟩
    · rw [if_neg hp]
      exact ⟨rfl, by simp, Or.inr (Or.inr (Or.inr rfl))⟩
  | succ fuel ih =>
    unfold SendFile.sendChunk
    by_cases hp : pending.isEmpty = true
    · rw [if_pos hp]
      have hnil : pending = [] := List.isEmpty_iff.mp hp
      subst hnil
      exact ⟨0, Nat.le_refl _, rfl, by simp, Or.inl ⟨rfl, rfl⟩⟩
    · rw [if_neg hp]
      unfold send
      cases hs : sock conn.calls pending with
      | wouldBlock =>
        dsimp only
        obtain ⟨m, hm, h1, h2, h3⟩ := ih pending sent { conn with calls := conn.calls + 1 }
        exact ⟨m, hm, h1, h2, h3⟩
      | failed =>
        dsimp only
        exact ⟨0, Nat.zero_le _, rfl, by simp, Or.inr (Or.inl rfl)⟩
      | wrote n =>
        dsimp only
        by_cases hz : min n pending.length = 0
        · rw [if_pos hz]
          have hn : n = 0 := by
            rcases Nat.min_eq_zero_iff.mp hz with h | h
            · exact h
            · exact absurd (List.length_eq_zero.mp h) (by simpa using hp)
          subst hn
          exact ⟨0, Nat.zero_le _, rfl, rfl, Or.inr (Or.inr (Or.inl rfl))⟩
        · rw [if_neg hz]
          obtain ⟨m, hm, h1, h2, h3⟩ := ih (pending.drop (min n pending.length))
            (sent + min n pending.length)
            { wire := conn.wire ++ pending.take n, calls := conn.calls + 1 }
          have hcast : ((sent : Int) + ((min n pending.length : Nat) : Int)) =
              ((sent + min n pending.length : Nat) : Int) := by push_cast; rfl
          rw [hcast]
          have hlen : m ≤ pending.length - min n pending.length := by
            rw [List.length_drop] at hm
            exact hm
          have htake : pending.take n = pending.take (min n pending.length) := by
            rcases Nat.le_total n pending.length with h | h
            · rw [Nat.min_eq_left h]
            · rw [Nat.min_eq_right h, List.take_of_length_le h, List.take_of_length_le
                (Nat.le_refl _)]
          refine ⟨min n pending.length + m, by omega, ?_, ?_, ?_⟩
          · rw [h1]
            congr 1
            omega
          · rw [h2, htake, List.append_assoc, List.take_add]
          · rw [← Nat.add_assoc]
            rcases h3 with ⟨h3, h4⟩ | h3 | h3 | h3
            · refine Or.inl ⟨h3, ?_⟩
              rw [h4, List.length_drop]
              omega
            · exact Or.inr (Or.inl h3)
            · exact Or.inr (Or.inr (Or.inl h3))
            · exact Or.inr (Or.inr (Or.inr h3))

/-- The inner loop on a socket that makes progress: when the call `j` calls
ahead does not block and the fuel covers that wait and a full wait for every
further byte, the chunk is sent whole. -/
theorem SendFile.sendChunk_progress_aux (sock : Socket) (B : Nat)
    (hprog : sock.progresses) (hlive : sock.blocksAtMost B) (fuel : Nat) (pending : Str)
    (total : Int) (conn : Conn) (j : Nat)
    (hj : ∀ data, sock (conn.calls + j) data ≠ .wouldBlock)
    (hfuel : (pending.length - 1) * (B + 1) + j + 1 ≤ fuel) :
    (SendFile.sendChunk sock fuel pending total conn).1 = none := by
  induction fuel generalizing pending total conn j with
  | zero => omega
  | succ fuel ih =>
    unfold SendFile.sendChunk
    by_cases hp : pending.isEmpty = true
    · rw [if_pos hp]
    · rw [if_neg hp]
      have hpos : 1 ≤ pending.length := by
        cases pending with
        | nil => exact absurd rfl hp
        | cons c cs => simp
      unfold send
      rcases hprog conn.calls pending (by intro h; rw [h] at hp; exact hp rfl) with
        hs | ⟨n, hn, hs⟩
      · rw [hs]
        dsimp only
        have hj0 : j ≠ 0 := by
          intro h0
          subst h0
          exact hj pending hs
        refine ih pending total { conn with calls := conn.calls + 1 } (j - 1) ?_ (by omega)
        intro data
        have := hj data
        have hidx : conn.calls + 1 + (j - 1) = conn.calls + j := by omega
        show sock (conn.calls + 1 + (j - 1)) data ≠ .wouldBlock
        rw [hidx]
        exact this
      · rw [hs]
        dsimp only
        rw [if_neg (by omega)]
        by_cases hd : (pending.drop (min n pending.length)).isEmpty = true
        · rw [List.isEmpty_iff.mp hd, SendFile.sendChunk_nil]
        · obtain ⟨j2, hj2, hlive2⟩ := hlive (conn.calls + 1)
          refine ih _ _ _ j2 hlive2 ?_
          rw [List.length_drop]
          have hmin : 1 ≤ min n pending.length := by omega
          have hmul : (pending.length - min n pending.length - 1) * (B + 1) + (B + 1) ≤
              (pending.length - 1) * (B + 1) := by
            have hlt : min n pending.length < pending.length := by
              have : (pending.drop (min n pending.length)).length ≠ 0 := by
                intro h
                exact hd (by rw [List.length_eq_zero.mp h]; rfl)
              rw [List.length_drop] at this
              omega
            have : pending.length - min n pending.length - 1 + 1 ≤ pending.length - 1 := by
              omega
            calc (pending.length - min n pending.length - 1) * (B + 1) + (B + 1)
                = (pending.length - min n pending.length - 1 + 1) * (B + 1) := by
                  rw [Nat.add_mul, Nat.one_mul]
              _ ≤ (pending.length - 1) * (B + 1) := Nat.mul_le_mul_right _ this
          omega

/-- The inner loop on a socket that makes progress and blocks at most `B`
times in a row: with fuel for `B + 1` calls per byte, the chunk is sent
whole. -/
theorem SendFile.sendChunk_progress (sock : Socket) (B : Nat)
    (hprog : sock.progresses) (hlive : sock.blocksAtMost B) (fuel : Nat) (pending : Str)
    (total : Int) (conn : Conn) (hfuel : pending.length * (B + 1) ≤ fuel) :
    (SendFile.sendChunk sock fuel pending total conn).1 = none := by
  cases pending with
  | nil => rw [SendFile.sendChunk_nil]
  | cons c cs =>
    obtain ⟨j, hj, hlive2⟩ := hlive conn.calls
    refine SendFile.sendChunk_progress_aux sock B hprog hlive fuel (c :: cs) total conn j
      hlive2 ?_
    have : (c :: cs).length = cs.length + 1 := rfl
    rw [this] at hfuel ⊢
    rw [Nat.add_mul, Nat.one_mul] at hfuel
    simp only [Nat.add_sub_cancel]
    omega

/-- The inner loop at a call of `send` that returns zero: `SendFile` ends with
the count of the bytes sent so far, and nothing more is on the wire. -/
theorem SendFile.sendChunk_zero (sock : Socket) (fuel : Nat) (pending : Str) (total : Int)
    (conn : Conn) (hp : pending ≠ []) (hs : sock conn.calls pending = .wrote 0) :
    (SendFile.sendChunk sock (fuel + 1) pending total conn).1 = some (.returned (toInt total)) ∧
      (SendFile.sendChunk sock (fuel + 1) pending total conn).2.2.wire = conn.wire := by
  unfold SendFile.sendChunk send
  rw [if_neg (by simpa using hp), hs]
  simp

/-- The inner loop at a call of `send` that fails with a hard error:
`SendFile` ends with -1, and nothing more is on the wire. -/
theorem SendFile.sendChunk_failed (sock : Socket) (fuel : Nat) (pending : Str) (total : Int)
    (conn : Conn) (hp : pending ≠ []) (hs : sock conn.calls pending = .failed) :
    (SendFile.sendChunk sock (fuel + 1) pending total conn).1 = some (.returned (-1)) ∧
      (SendFile.sendChunk sock (fuel + 1) pending total conn).2.2.wire = conn.wire := by
  unfold SendFile.sendChunk send
  rw [if_neg (by simpa using hp), hs]
  exact ⟨rfl, rfl⟩

/-- A client that accepts every write blocks never and makes progress on every
non-empty write. -/
theorem SendFile.sendChunk_acceptsAll (sock : Socket) (hsock : sock.acceptsAll) (fuel : Nat)
    (pending : Str) (total : Int) (conn : Conn) (hfuel : 1 ≤ fuel) :
    (SendFile.sendChunk sock fuel pending total conn).1 = none := by
  cases fuel with
  | zero => omega
  | succ fuel =>
    unfold SendFile.sendChunk
    by_cases hp : pending.isEmpty = true
    · rw [if_pos hp]
    · rw [if_neg hp]
      unfold send
      rw [hsock conn.calls pending]
      dsimp only
      have hne : pending.length ≠ 0 := by
        intro h
        exact hp (by rw [List.length_eq_zero.mp h]; rfl)
      rw [Nat.min_self, if_neg hne, List.drop_length, SendFile.sendChunk_nil]

/-- The count that `fread` takes for a range with bytes still to send: the
number of these bytes, capped at the size of the buffer. -/
theorem SendFile.intToSize_rangeBufferSize (len sent : Nat) (h : sent < len) :
    intToSize (SendFile.rangeBufferSize ((len : Int) - (sent : Int))) = min (len - sent) BUFSIZ := by
  unfold SendFile.rangeBufferSize intToSize SIZE_MOD BUFSIZ
  split
  · rename_i hlt
    have h1 : ((len : Int) - (sent : Int)) % ((2 ^ 64 : Nat) : Int) = (len : Int) - (sent : Int) := by
      apply Int.emod_eq_of_lt
      · omega
      · have : ((8192 : Nat) : Int) < ((2 ^ 64 : Nat) : Int) := by norm_num
        omega
    rw [h1]
    omega
  · rename_i hge
    have h1 : ((8192 : Nat) : Int) % ((2 ^ 64 : Nat) : Int) = ((8192 : Nat) : Int) := by
      norm_num
    rw [h1]
    omega

/-- The count that `fread` takes with the full buffer. -/
theorem SendFile.intToSize_BUFSIZ : intToSize (BUFSIZ : Int) = BUFSIZ := by
  unfold intToSize SIZE_MOD BUFSIZ
  norm_num
  rfl

/-- Two reads in a row are one read. -/
theorem take_drop_append (file : Str) (pos c m : Nat) :
    (file.drop pos).take c ++ (file.drop (pos + c)).take m = (file.drop pos).take (c + m) := by
  rw [List.take_add, List.drop_drop]

/-- The transmission loop of a range on any socket, at the head of an
iteration with `sent` bytes of the `len` bytes of the range sent: the loop
writes bytes of the range, in order and none past its end; it ends with the
whole range sent, `body_sent` set and the length of the range as the result,
or it ends from inside the inner loop (with -1, with the count of the bytes
sent so far, or with the fuel of the model used up) for a chunk that the inner
loop does not send whole. -/
theorem SendFile.transmit_range_spec (sock : Socket) (fuel : Nat) (file : Str)
    (start len : Nat) (hlen : start + len ≤ file.length) (steps sent : Nat) (conn : Conn)
    (hsent : sent < len) (hsteps : len - sent < steps) :
    ∃ m, sent + m ≤ len ∧
      (SendFile.transmit sock fuel true (len : Int) file steps (start + sent)
        (SendFile.rangeBufferSize ((len : Int) - (sent : Int))) (sent : Int) conn).2.2.wire =
          conn.wire ++ (file.drop (start + sent)).take m ∧
      (((SendFile.transmit sock fuel true (len : Int) file steps (start + sent)
          (SendFile.rangeBufferSize ((len : Int) - (sent : Int))) (sent : Int) conn).1 =
            .returned (toInt (len : Int)) ∧
        (SendFile.transmit sock fuel true (len : Int) file steps (start + sent)
          (SendFile.rangeBufferSize ((len : Int) - (sent : Int))) (sent : Int) conn).2.1 = true ∧
        sent + m = len) ∨
       ((SendFile.transmit sock fuel true (len : Int) file steps (start + sent)
          (SendFile.rangeBufferSize ((len : Int) - (sent : Int))) (sent : Int) conn).2.1 = false ∧
        ((SendFile.transmit sock fuel true (len : Int) file steps (start + sent)
            (SendFile.rangeBufferSize ((len : Int) - (sent : Int))) (sent : Int) conn).1 =
              .returned (-1) ∨
          (SendFile.transmit sock fuel true (len : Int) file steps (start + sent)
            (SendFile.rangeBufferSize ((len : Int) - (sent : Int))) (sent : Int) conn).1 =
              .returned (toInt ((sent + m : Nat) : Int)) ∨
          (SendFile.transmit sock fuel true (len : Int) file steps (start + sent)
            (SendFile.rangeBufferSize ((len : Int) - (sent : Int))) (sent : Int) conn).1 =
              .spinning) ∧
        ∃ pending total conn1, pending.length ≤ BUFSIZ ∧
          (SendFile.sendChunk sock fuel pending total conn1).1 ≠ none)) := by
  induction steps generalizing sent conn with
  | zero => omega
  | succ steps ih =>
    unfold SendFile.transmit
    dsimp only
    rw [SendFile.intToSize_rangeBufferSize len sent hsent]
    have hclen : ((file.drop (start + sent)).take (min (len - sent) BUFSIZ)).length =
        min (len - sent) BUFSIZ := by
      rw [List.length_take, List.length_drop]
      omega
    have hcpos : 1 ≤ min (len - sent) BUFSIZ := by
      unfold BUFSIZ
      omega
    have hcle : min (len - sent) BUFSIZ ≤ BUFSIZ := Nat.min_le_right _ _
    generalize hchunk : (file.drop (start + sent)).take (min (len - sent) BUFSIZ) = chunk at hclen
    generalize hc : min (len - sent) BUFSIZ = c at hclen hcpos hcle hchunk
    have hcs : c ≤ len - sent := by rw [← hc]; exact Nat.min_le_left _ _
    have hne : chunk.isEmpty = false := by
      cases chunk with
      | nil => simp at hclen; omega
      | cons x xs => rfl
    rw [hne]
    simp only [Bool.false_eq_true, if_false]
    obtain ⟨m1, hm1, hs1, hs2, hs3⟩ := SendFile.sendChunk_spec sock fuel chunk sent conn
    rcases hsc : SendFile.sendChunk sock fuel chunk (sent : Int) conn with ⟨res, total1, conn1⟩
    rw [hsc] at hs1 hs2 hs3
    dsimp only at hs1 hs2 hs3
    have htake : chunk.take m1 = (file.drop (start + sent)).take m1 := by
      rw [← hchunk, List.take_take, Nat.min_eq_left (by omega)]
    cases res with
    | some ret =>
      dsimp only
      refine ⟨m1, by omega, by rw [hs2, htake], Or.inr ⟨rfl, ?_, chunk, (sent : Int), conn,
        by omega, by rw [hsc]; simp⟩⟩
      rcases hs3 with ⟨h, _⟩ | h | h | h
      · exact absurd h (by simp)
      · injection h with h
        exact Or.inl h
      · injection h with h
        exact Or.inr (Or.inl h)
      · injection h with h
        exact Or.inr (Or.inr h)
    | none =>
      dsimp only
      have hm1c : m1 = c := by
        rcases hs3 with ⟨_, h⟩ | h | h | h
        · omega
        · exact absurd h (by simp)
        · exact absurd h (by simp)
        · exact absurd h (by simp)
      subst hm1c
      rw [hs1]
      by_cases hdone : ((sent + m1 : Nat) : Int) ≥ (len : Int)
      · have hdec : (true && decide (((sent + m1 : Nat) : Int) ≥ (len : Int))) = true := by
          rw [Bool.true_and, decide_eq_true_eq]
          exact hdone
        rw [if_pos hdec]
        have heq : sent + m1 = len := by omega
        refine ⟨m1, by omega, by rw [hs2, htake], Or.inl ⟨?_, rfl, heq⟩⟩
        rw [heq]
      · have hdec : ¬ (true && decide (((sent + m1 : Nat) : Int) ≥ (len : Int))) = true := by
          rw [Bool.true_and, decide_eq_true_eq]
          exact hdone
        rw [if_neg hdec]
        simp only [if_true]
        have hsent2 : sent + m1 < len := by omega
        obtain ⟨m2, hm2, hw, hcases⟩ := ih (sent + m1) conn1 hsent2 (by omega)
        have hpos : start + sent + chunk.length = start + (sent + m1) := by omega
        rw [hpos]
        refine ⟨m1 + m2, by omega, ?_, ?_⟩
        · rw [hw, hs2, htake, List.append_assoc, ← Nat.add_assoc start sent m1,
            take_drop_append]
        · rcases hcases with ⟨h1, h2, h3⟩ | ⟨h1, h2, h3⟩
          · exact Or.inl ⟨h1, h2, by omega⟩
          · refine Or.inr ⟨h1, ?_, h3⟩
            rw [← Nat.add_assoc sent m1 m2]
            exact h2

/-- The transmission loop of a whole file on any socket, at the head of an
iteration with the first `sent` bytes of the file sent: the loop writes bytes
of the file, in order; it ends with the whole file sent, `body_sent` set and
the size of the file as the result, or it ends from inside the inner loop for
a chunk that the inner loop does not send whole. -/
theorem SendFile.transmit_whole_spec (sock : Socket) (fuel : Nat) (file : Str)
    (range_length : Int) (steps sent : Nat) (conn : Conn)
    (hsent : sent ≤ file.length) (hsteps : file.length - sent < steps) :
    ∃ m, sent + m ≤ file.length ∧
      (SendFile.transmit sock fuel false range_length file steps sent (BUFSIZ : Int)
        (sent : Int) conn).2.2.wire = conn.wire ++ (file.drop sent).take m ∧
      (((SendFile.transmit sock fuel false range_length file steps sent (BUFSIZ : Int)
          (sent : Int) conn).1 = .returned (toInt (file.length : Int)) ∧
        (SendFile.transmit sock fuel false range_length file steps sent (BUFSIZ : Int)
          (sent : Int) conn).2.1 = true ∧
        sent + m = file.length) ∨
       ((SendFile.transmit sock fuel false range_length file steps sent (BUFSIZ : Int)
          (sent : Int) conn).2.1 = false ∧
        ((SendFile.transmit sock fuel false range_length file steps sent (BUFSIZ : Int)
            (sent : Int) conn).1 = .returned (-1) ∨
          (SendFile.transmit sock fuel false range_length file steps sent (BUFSIZ : Int)
            (sent : Int) conn).1 = .returned (toInt ((sent + m : Nat) : Int)) ∨
          (SendFile.transmit sock fuel false range_length file steps sent (BUFSIZ : Int)
            (sent : Int) conn).1 = .spinning) ∧
        ∃ pending total conn1, pending.length ≤ BUFSIZ ∧
          (SendFile.sendChunk sock fuel pending total conn1).1 ≠ none)) := by
  induction steps generalizing sent conn with
  | zero => omega
  | succ steps ih =>
    unfold SendFile.transmit
    dsimp only
    rw [SendFile.intToSize_BUFSIZ]
    have hclen : ((file.drop sent).take BUFSIZ).length = min BUFSIZ (file.length - sent) := by
      rw [List.length_take, List.length_drop]
    generalize hchunk : (file.drop sent).take BUFSIZ = chunk at hclen
    by_cases hempty : chunk.isEmpty = true
    · rw [if_pos hempty]
      have hnil : chunk = [] := List.isEmpty_iff.mp hempty
      have hend : sent = file.length := by
        rw [hnil] at hclen
        unfold BUFSIZ at hclen
        simp only [List.length_nil] at hclen
        omega
      refine ⟨0, by omega, by simp, Or.inl ⟨?_, rfl, by omega⟩⟩
      rw [hend]
    · rw [if_neg hempty]
      have hcpos : 1 ≤ chunk.length := by
        cases chunk with
        | nil => exact absurd rfl hempty
        | cons x xs => simp
      have hcle : chunk.length ≤ BUFSIZ := by rw [hclen]; exact Nat.min_le_left _ _
      have hcs : chunk.length ≤ file.length - sent := by rw [hclen]; exact Nat.min_le_right _ _
      obtain ⟨m1, hm1, hs1, hs2, hs3⟩ := SendFile.sendChunk_spec sock fuel chunk sent conn
      rcases hsc : SendFile.sendChunk sock fuel chunk (sent : Int) conn with ⟨res, total1, conn1⟩
      rw [hsc] at hs1 hs2 hs3
      dsimp only at hs1 hs2 hs3
      have htake : chunk.take m1 = (file.drop sent).take m1 := by
        rw [← hchunk, List.take_take, Nat.min_eq_left (by omega)]
      cases res with
      | some ret =>
        dsimp only
        refine ⟨m1, by omega, by rw [hs2, htake], Or.inr ⟨rfl, ?_, chunk, (sent : Int), conn,
          hcle, by rw [hsc]; simp⟩⟩
        rcases hs3 with ⟨h, _⟩ | h | h | h
        · exact absurd h (by simp)
        · injection h with h
          exact Or.inl h
        · injection h with h
          exact Or.inr (Or.inl h)
        · injection h with h
          exact Or.inr (Or.inr h)
      | none =>
        dsimp only
        have hm1c : m1 = chunk.length := by
          rcases hs3 with ⟨_, h⟩ | h | h | h
          · exact h
          · exact absurd h (by simp)
          · exact absurd h (by simp)
          · exact absurd h (by simp)
        rw [hs1]
        simp only [Bool.false_and, Bool.false_eq_true, if_false]
        obtain ⟨m2, hm2, hw, hcases⟩ := ih (sent + m1) conn1 (by omega) (by omega)
        rw [← hm1c]
        refine ⟨m1 + m2, by omega, ?_, ?_⟩
        · rw [hw, hs2, htake, List.append_assoc, take_drop_append]
        · rcases hcases with ⟨h1, h2, h3⟩ | ⟨h1, h2, h3⟩
          · exact Or.inl ⟨h1, h2, by omega⟩
          · refine Or.inr ⟨h1, ?_, h3⟩
            rw [← Nat.add_assoc sent m1 m2]
            exact h2

/-- The transmission loop of a range, from its start, when the inner loop
sends every chunk whole: the loop writes the bytes of the range and no other,
sets `body_sent`, and the result is the length of the range as an `int`. -/
theorem SendFile.transmit_range_complete (sock : Socket) (fuel : Nat) (file : Str)
    (start len : Nat) (hlen : start + len ≤ file.length) (hpos : 1 ≤ len) (conn : Conn)
    (hchunks : ∀ pending total conn1, pending.length ≤ BUFSIZ →
      (SendFile.sendChunk sock fuel pending total conn1).1 = none) :
    (SendFile.transmit sock fuel true (len : Int) file (file.length + 1) start
        (SendFile.rangeBufferSize (len : Int)) 0 conn).1 = .returned (toInt (len : Int)) ∧
      (SendFile.transmit sock fuel true (len : Int) file (file.length + 1) start
        (SendFile.rangeBufferSize (len : Int)) 0 conn).2.1 = true ∧
      (SendFile.transmit sock fuel true (len : Int) file (file.length + 1) start
        (SendFile.rangeBufferSize (len : Int)) 0 conn).2.2.wire =
          conn.wire ++ (file.drop start).take len := by
  have hT : SendFile.transmit sock fuel true (len : Int) file (file.length + 1) (start + 0)
      (SendFile.rangeBufferSize ((len : Int) - ((0 : Nat) : Int))) ((0 : Nat) : Int) conn =
      SendFile.transmit sock fuel true (len : Int) file (file.length + 1) start
        (SendFile.rangeBufferSize (len : Int)) 0 conn := by
    rw [Nat.cast_zero, sub_zero]
    rfl
  obtain ⟨m, _, hw, hcases⟩ := SendFile.transmit_range_spec sock fuel file start len hlen
    (file.length + 1) 0 conn (by omega) (by omega)
  rw [hT] at hw hcases
  rcases hcases with ⟨h1, h2, h3⟩ | ⟨_, _, pending, total, conn1, hp, hbad⟩
  · rw [Nat.zero_add] at h3
    subst h3
    exact ⟨h1, h2, hw⟩
  · exact absurd (hchunks pending total conn1 hp) hbad

/-- The transmission loop of a whole file, from its start, when the inner loop
sends every chunk whole: the loop writes the file, sets `body_sent`, and the
result is the size of the file as an `int`. -/
theorem SendFile.transmit_whole_complete (sock : Socket) (fuel : Nat) (file : Str)
    (range_length : Int) (conn : Conn)
    (hchunks : ∀ pending total conn1, pending.length ≤ BUFSIZ →
      (SendFile.sendChunk sock fuel pending total conn1).1 = none) :
    (SendFile.transmit sock fuel false range_length file (file.length + 1) 0 (BUFSIZ : Int) 0
        conn).1 = .returned (toInt (file.length : Int)) ∧
      (SendFile.transmit sock fuel false range_length file (file.length + 1) 0 (BUFSIZ : Int) 0
        conn).2.1 = true ∧
      (SendFile.transmit sock fuel false range_length file (file.length + 1) 0 (BUFSIZ : Int) 0
        conn).2.2.wire = conn.wire ++ file := by
  have hT : SendFile.transmit sock fuel false range_length file (file.length + 1) 0
      (BUFSIZ : Int) ((0 : Nat) : Int) conn =
      SendFile.transmit sock fuel false range_length file (file.length + 1) 0 (BUFSIZ : Int) 0
        conn := by
    rw [Nat.cast_zero]
  obtain ⟨m, _, hw, hcases⟩ := SendFile.transmit_whole_spec sock fuel file range_length
    (file.length + 1) 0 conn (by omega) (by omega)
  rw [hT] at hw hcases
  rcases hcases with ⟨h1, h2, h3⟩ | ⟨_, _, pending, total, conn1, hp, hbad⟩
  · rw [Nat.zero_add] at h3
    subst h3
    rw [List.drop_zero, List.take_length] at hw
    exact ⟨h1, h2, hw⟩
  · exact absurd (hchunks pending total conn1 hp) hbad

/-- The transmission loop of a range on a socket that makes progress and
blocks at most `B` times in a row, with fuel for `B + 1` calls of `send` per
byte of the buffer: the loop writes the bytes of the range and no other, sets
`body_sent`, and the result is the length of the range as an `int`. -/
theorem SendFile.transmit_range_progress (sock : Socket) (B fuel : Nat) (file : Str)
    (start len : Nat) (hlen : start + len ≤ file.length) (hpos : 1 ≤ len) (conn : Conn)
    (hprog : sock.progresses) (hlive : sock.blocksAtMost B) (hfuel : BUFSIZ * (B + 1) ≤ fuel) :
    (SendFile.transmit sock fuel true (len : Int) file (file.length + 1) start
        (SendFile.rangeBufferSize (len : Int)) 0 conn).1 = .returned (toInt (len : Int)) ∧
      (SendFile.transmit sock fuel true (len : Int) file (file.length + 1) start
        (SendFile.rangeBufferSize (len : Int)) 0 conn).2.1 = true ∧
      (SendFile.transmit sock fuel true (len : Int) file (file.length + 1) start
        (SendFile.rangeBufferSize (len : Int)) 0 conn).2.2.wire =
          conn.wire ++ (file.drop start).take len :=
  SendFile.transmit_range_complete sock fuel file start len hlen hpos conn
    (fun pending total conn1 hp =>
      SendFile.sendChunk_progress sock B hprog hlive fuel pending total conn1
        (Nat.le_trans (Nat.mul_le_mul_right _ hp) hfuel))

/-- The end of `SendFile` for a whole file, on a response with the headers
unsent and a non-zero status, with a client that accepts every write: the
header block and the file are written, both flags are set, and the result is
the size of the file as an `int`. -/
theorem SendFile.stream_whole_accepted (StatusText : HttpStatus → Str) (sock : Socket)
    (hsock : sock.acceptsAll) (fuel : Nat) (hfuel : 1 ≤ fuel) (self : Response) (conn : Conn)
    (file : Str) (hh : self.headers_sent = false) (hs : self.status ≠ 0) :
    (SendFile.stream StatusText sock fuel self conn false 0 0 file).ret =
        .returned (toInt (file.length : Int)) ∧
      (SendFile.stream StatusText sock fuel self conn false 0 0 file).response =
        { self.setHeader "Connection".toList "close".toList with
          headers_sent := true, body_sent := true } ∧
      (SendFile.stream StatusText sock fuel self conn false 0 0 file).conn.wire =
        conn.wire ++ headerBlock StatusText self.status
          (self.headers ++ [{ name := "Connection".toList, value := "close".toList }]) ++
          file := by
  have hw := Response.writeHeaders_accepted StatusText sock hsock
    (self.setHeader "Connection".toList "close".toList) conn hh hs
  obtain ⟨h1, h2, h3⟩ := SendFile.transmit_whole_complete sock fuel file (0 - 0 + 1)
    { wire := conn.wire ++ headerBlock StatusText self.status
        (self.headers ++ [{ name := "Connection".toList, value := "close".toList }]),
      calls := conn.calls + 1 }
    (fun pending total conn1 _ =>
      SendFile.sendChunk_acceptsAll sock hsock fuel pending total conn1 hfuel)
  unfold SendFile.stream
  dsimp only
  rw [hw]
  dsimp only
  refine ⟨h1, ?_, h3⟩
  have h2b : (SendFile.transmit sock fuel false (0 - 0 + 1) file (file.length + 1)
      (0 : Int).toNat (if false = true then SendFile.rangeBufferSize (0 - 0 + 1)
        else (BUFSIZ : Int)) 0
      { wire := conn.wire ++ headerBlock StatusText
          (self.setHeader "Connection".toList "close".toList).status
          (self.setHeader "Connection".toList "close".toList).headers,
        calls := conn.calls + 1 }).2.1 = true := h2
  rw [if_pos h2b]

/-- The transmission loop of a range when the inner loop sends every chunk
whole, with the arguments as `SendFile` computes them. -/
theorem SendFile.transmit_range_complete_at (sock : Socket) (fuel : Nat) (file : Str)
    (s len : Nat) (hfit : s + len ≤ file.length) (hpos : 1 ≤ len) (conn : Conn)
    (hchunks : ∀ pending total conn1, pending.length ≤ BUFSIZ →
      (SendFile.sendChunk sock fuel pending total conn1).1 = none)
    (range_length : Int) (pos : Nat) (hrl : range_length = (len : Int)) (hp : pos = s) :
    (SendFile.transmit sock fuel true range_length file (file.length + 1) pos
        (SendFile.rangeBufferSize range_length) 0 conn).1 = .returned (toInt (len : Int)) ∧
      (SendFile.transmit sock fuel true range_length file (file.length + 1) pos
        (SendFile.rangeBufferSize range_length) 0 conn).2.1 = true ∧
      (SendFile.transmit sock fuel true range_length file (file.length + 1) pos
        (SendFile.rangeBufferSize range_length) 0 conn).2.2.wire =
          conn.wire ++ (file.drop s).take len := by
  subst hrl hp
  exact SendFile.transmit_range_complete sock fuel file pos len hfit hpos conn hchunks

/-- The end of `SendFile` for a range of `len` bytes from the byte `s` on, on
a response with the headers unsent and a non-zero status, with a client that
accepts every write: the header block and the bytes of the range are written,
both flags are set, and the result is the length of the range as an `int`. -/
theorem SendFile.stream_range_accepted (StatusText : HttpStatus → Str) (sock : Socket)
    (hsock : sock.acceptsAll) (fuel : Nat) (hfuel : 1 ≤ fuel) (self : Response) (conn : Conn)
    (start end_ : Int) (s len : Nat) (file : Str) (hstart : start = (s : Int))
    (hlength : end_ - start + 1 = (len : Int)) (hpos : 1 ≤ len)
    (hfit : s + len ≤ file.length)
    (hh : self.headers_sent = false) (hs : self.status ≠ 0) :
    (SendFile.stream StatusText sock fuel self conn true start end_ file).ret =
        .returned (toInt (len : Int)) ∧
      (SendFile.stream StatusText sock fuel self conn true start end_ file).response =
        { self.setHeader "Connection".toList "close".toList with
          headers_sent := true, body_sent := true } ∧
      (SendFile.stream StatusText sock fuel self conn true start end_ file).conn.wire =
        conn.wire ++ headerBlock StatusText self.status
          (self.headers ++ [{ name := "Connection".toList, value := "close".toList }]) ++
          (file.drop s).take len := by
  have hw := Response.writeHeaders_accepted StatusText sock hsock
    (self.setHeader "Connection".toList "close".toList) conn hh hs
  obtain ⟨h1, h2, h3⟩ := SendFile.transmit_range_complete_at sock fuel file s len hfit hpos
    { wire := conn.wire ++ headerBlock StatusText self.status
        (self.headers ++ [{ name := "Connection".toList, value := "close".toList }]),
      calls := conn.calls + 1 }
    (fun pending total conn1 _ =>
      SendFile.sendChunk_acceptsAll sock hsock fuel pending total conn1 hfuel)
    (end_ - start + 1) start.toNat hlength (by omega)
  unfold SendFile.stream
  dsimp only
  rw [hw]
  dsimp only
  refine ⟨h1, ?_, h3⟩
  have h2b : (SendFile.transmit sock fuel true (end_ - start + 1) file (file.length + 1)
      start.toNat
      (if true = true then SendFile.rangeBufferSize (end_ - start + 1) else (BUFSIZ : Int)) 0
      { wire := conn.wire ++ headerBlock StatusText
          (self.setHeader "Connection".toList "close".toList).status
          (self.setHeader "Connection".toList "close".toList).headers,
        calls := conn.calls + 1 }).2.1 = true := h2
  rw [if_pos h2b]

/-! ## Whole files -/

/-- A request without a Range header carries no valid range. -/
theorem SendFile.parseRange_none (request : Request)
    (h : request.findRequestHeader "Range".toList = none) :
    SendFile.parseRange request =
      { valid_range := false, has_end_range := false, start := 0, end_ := 0 } := by
  unfold SendFile.parseRange
  rw [h]

/-- A Range header whose value is not `bytes=` followed by an integer, as the
conversion `%ld` reads one, is no valid range. -/
theorem SendFile.parseRange_not_bytes (request : Request) (i : Nat) (h : Header)
    (hrange : request.findRequestHeader "Range".toList = some (i, h))
    (hvalue : scanBytesStart (cstr h.value) = none) :
    SendFile.parseRange request =
      { valid_range := false, has_end_range := false, start := 0, end_ := 0 } := by
  unfold SendFile.parseRange sscanf_bytes_ld_ld sscanf_bytes_ld
  rw [hrange]
  dsimp only
  rw [hvalue]
  split <;> rfl

/-- The path of `SendFile` for a request without a valid range and a file that
can be opened: Content-Length is set to the size of the file, then come the
flush and the transmission of the whole file. -/
theorem Response.SendFile_no_range (StatusText : HttpStatus → Str)
    (getContentType : Str → Str) (fopen64 : Str → Option Str) (sock : Socket) (fuel : Nat)
    (request : Request) (self : Response) (conn : Conn) (fname : Str) (file : Str)
    (hbody : self.body_sent = false)
    (hparse : (SendFile.parseRange request).valid_range = false)
    (hfile : fopen64 (urldecode (fname.length + 1) fname) = some file) :
    self.SendFile StatusText getContentType fopen64 sock fuel request conn fname =
      SendFile.stream StatusText sock fuel
        (({ self with headers := (fileHeaders getContentType self.headers
            (urldecode (fname.length + 1) fname)) } : Response).setHeader
          "Content-Length".toList (to_string (file.length : Int)))
        conn false 0 0 file := by
  unfold Response.SendFile
  rw [if_neg (by rw [hbody]; exact Bool.false_ne_true)]
  dsimp only
  rw [Response.SendFile_headers, hfile]
  dsimp only
  rw [hparse]
  simp only [Bool.false_eq_true, if_false]

/-- What `SendFile` does for a request without a valid range, on a response in
the state `Idle` with a non-zero status, with a file of size S that can be
opened and a client that accepts every write: the status stays, the headers are
those it started from, with the content type settled, then `Content-Length: S`
and `Connection: close`; the wire holds the header block and the S bytes of the
file; both flags are set; and the result is S as an `int`. -/
theorem Response.SendFile_whole_accepted (StatusText : HttpStatus → Str)
    (getContentType : Str → Str) (fopen64 : Str → Option Str) (sock : Socket)
    (hsock : sock.acceptsAll) (fuel : Nat) (hfuel : 1 ≤ fuel) (request : Request)
    (self : Response) (conn : Conn) (fname : Str) (file : Str) (hidle : self.Idle)
    (hs : self.status ≠ 0)
    (hparse : (SendFile.parseRange request).valid_range = false)
    (hfile : fopen64 (urldecode (fname.length + 1) fname) = some file) :
    (self.SendFile StatusText getContentType fopen64 sock fuel request conn fname).ret =
        .returned (toInt (file.length : Int)) ∧
      (self.SendFile StatusText getContentType fopen64 sock fuel request conn fname).response =
        { self with
          headers := wholeFileHeaders (fileHeaders getContentType self.headers
            (urldecode (fname.length + 1) fname)) file.length
          headers_sent := true
          body_sent := true } ∧
      (self.SendFile StatusText getContentType fopen64 sock fuel request conn fname).conn.wire =
        conn.wire ++ headerBlock StatusText self.status
          (wholeFileHeaders (fileHeaders getContentType self.headers
            (urldecode (fname.length + 1) fname)) file.length) ++ file := by
  obtain ⟨hh, hb⟩ := hidle
  rw [Response.SendFile_no_range StatusText getContentType fopen64 sock fuel request self conn
    fname file hb hparse hfile]
  obtain ⟨h1, h2, h3⟩ := SendFile.stream_whole_accepted StatusText sock hsock fuel hfuel
    (({ self with headers := (fileHeaders getContentType self.headers
        (urldecode (fname.length + 1) fname)) } : Response).setHeader
      "Content-Length".toList (to_string (file.length : Int)))
    conn file hh hs
  refine ⟨h1, ?_, ?_⟩
  · rw [h2]
    unfold wholeFileHeaders Response.setHeader
    simp only [List.append_assoc]
    rfl
  · rw [h3]
    unfold wholeFileHeaders Response.setHeader
    simp only [List.append_assoc]
    rfl

/-- The size of the file of 2^31 bytes. -/
theorem hugeFile_length : hugeFile.length = 2147483648 := by
  unfold hugeFile
  rw [List.length_replicate]
  norm_num

/-- The count 2^31 does not fit an `int`: its conversion is -2^31. -/
theorem toInt_two_pow_31 : toInt ((2147483648 : Nat) : Int) = -2147483648 := by
  unfold toInt
  norm_num

/-- C25 fails on the result for a file of 2^31 bytes. For a fresh response, a
request without a Range header and a client that accepts every write,
`SendFile` answers with status 200, `Content-Length: 2147483648` and
`Connection: close`, puts the header block and all the bytes of the file on the
wire and sets `body_sent`, as claimed; but the result is -2147483648, not the
size of the file: the count of bytes sent is an `ssize_t` and the method
returns an `int`. -/
theorem SendFile_whole_file_result_wraps :
    hugeFiles (urldecode ("/huge.bin".toList.length + 1) "/huge.bin".toList) = some hugeFile ∧
      hugeFile.length = 2147483648 ∧
      hugeFileOutcome.ret = .returned (-2147483648) ∧
      hugeFileOutcome.response.status = StatusOK ∧
      hugeFileOutcome.response.headers =
        [{ name := "Content-Type".toList, value := "text/plain".toList },
         { name := "Content-Length".toList, value := "2147483648".toList },
         { name := "Connection".toList, value := "close".toList }] ∧
      hugeFileOutcome.response.body_sent = true ∧
      hugeFileOutcome.conn.wire =
        ("HTTP/1.1 200 OK\r\nContent-Type: text/plain\r\nContent-Length: 2147483648\r\n" ++
          "Connection: close\r\n\r\n").toList ++ hugeFile := by
  have hfile : hugeFiles (urldecode ("/huge.bin".toList.length + 1) "/huge.bin".toList) =
      some hugeFile := rfl
  obtain ⟨h1, h2, h3⟩ := Response.SendFile_whole_accepted Modelled.StatusText
    Modelled.getContentType hugeFiles acceptAll (fun _ _ => rfl) 1 (Nat.le_refl 1) freshRequest
    Response.new Conn.fresh "/huge.bin".toList hugeFile ⟨rfl, rfl⟩ (by decide) (by decide) hfile
  rw [hugeFile_length] at h1 h2 h3
  have hheaders : wholeFileHeaders (fileHeaders Modelled.getContentType Response.new.headers
      (urldecode ("/huge.bin".toList.length + 1) "/huge.bin".toList)) 2147483648 =
      [{ name := "Content-Type".toList, value := "text/plain".toList },
       { name := "Content-Length".toList, value := "2147483648".toList },
       { name := "Connection".toList, value := "close".toList }] := by
    decide
  rw [hheaders] at h2 h3
  rw [toInt_two_pow_31] at h1
  refine ⟨hfile, hugeFile_length, h1, ?_, ?_, ?_, ?_⟩
  · show (Response.new.SendFile Modelled.StatusText Modelled.getContentType hugeFiles acceptAll 1
      freshRequest Conn.fresh "/huge.bin".toList).response.status = StatusOK
    rw [h2]
    rfl
  · show (Response.new.SendFile Modelled.StatusText Modelled.getContentType hugeFiles acceptAll 1
      freshRequest Conn.fresh "/huge.bin".toList).response.headers = _
    rw [h2]
  · show (Response.new.SendFile Modelled.StatusText Modelled.getContentType hugeFiles acceptAll 1
      freshRequest Conn.fresh "/huge.bin".toList).response.body_sent = true
    rw [h2]
  · show (Response.new.SendFile Modelled.StatusText Modelled.getContentType hugeFiles acceptAll 1
      freshRequest Conn.fresh "/huge.bin".toList).conn.wire = _
    rw [h3]
    have hblock : Conn.fresh.wire ++ headerBlock Modelled.StatusText Response.new.status
        [{ name := "Content-Type".toList, value := "text/plain".toList },
         { name := "Content-Length".toList, value := "2147483648".toList },
         { name := "Connection".toList, value := "close".toList }] =
        ("HTTP/1.1 200 OK\r\nContent-Type: text/plain\r\nContent-Length: 2147483648\r\n" ++
          "Connection: close\r\n\r\n").toList := by
      decide
    rw [hblock]

/-! ## Partial content -/

/-- The transmission loop of a range on any socket, with the arguments as
`SendFile` computes them: what it puts on the wire is a prefix of the bytes of
the range. -/
theorem SendFile.transmit_range_wire_at (sock : Socket) (fuel : Nat) (file : Str)
    (s len : Nat) (hfit : s + len ≤ file.length) (hpos : 1 ≤ len) (conn : Conn)
    (range_length : Int) (pos : Nat) (hrl : range_length = (len : Int)) (hp : pos = s) :
    ∃ m, m ≤ len ∧
      (SendFile.transmit sock fuel true range_length file (file.length + 1) pos
        (SendFile.rangeBufferSize range_length) 0 conn).2.2.wire =
          conn.wire ++ (file.drop s).take m := by
  subst hrl hp
  have hT : SendFile.transmit sock fuel true (len : Int) file (file.length + 1) (pos + 0)
      (SendFile.rangeBufferSize ((len : Int) - ((0 : Nat) : Int))) ((0 : Nat) : Int) conn =
      SendFile.transmit sock fuel true (len : Int) file (file.length + 1) pos
        (SendFile.rangeBufferSize (len : Int)) 0 conn := by
    rw [Nat.cast_zero, sub_zero]
    rfl
  obtain ⟨m, hm, hw, _⟩ := SendFile.transmit_range_spec sock fuel file pos len hfit
    (file.length + 1) 0 conn (by omega) (by omega)
  rw [hT] at hw
  exact ⟨m, by omega, hw⟩

/-- The end of `SendFile` for a range of `len` bytes from the byte `s` on, on
any socket: after what the flush leaves on the wire comes a prefix of the bytes
of the range, and nothing else. -/
theorem SendFile.stream_range_wire (StatusText : HttpStatus → Str) (sock : Socket)
    (fuel : Nat) (self : Response) (conn : Conn) (start end_ : Int) (s len : Nat) (file : Str)
    (hstart : start = (s : Int)) (hlength : end_ - start + 1 = (len : Int)) (hpos : 1 ≤ len)
    (hfit : s + len ≤ file.length) :
    ∃ m, m ≤ len ∧
      (SendFile.stream StatusText sock fuel self conn true start end_ file).conn.wire =
        ((self.setHeader "Connection".toList "close".toList).writeHeaders StatusText sock
          conn).conn.wire ++ (file.drop s).take m := by
  unfold SendFile.stream
  dsimp only
  generalize (self.setHeader "Connection".toList "close".toList).writeHeaders StatusText sock
    conn = flushed
  split
  · exact ⟨0, Nat.zero_le _, by simp⟩
  · exact ⟨0, Nat.zero_le _, by simp⟩
  · exact SendFile.transmit_range_wire_at sock fuel file s len hfit hpos flushed.conn
      (end_ - start + 1) start.toNat hlength (by omega)

/-- What `SendFile` does for a request with a valid range that passes the
checks, whatever the client does: the status is 206, the headers are those it
started from, with the content type settled, followed by the four headers of
the resolved range, and the wire starts with what the flush of that response
writes. -/
theorem Response.SendFile_partial (StatusText : HttpStatus → Str)
    (getContentType : Str → Str) (fopen64 : Str → Option Str) (sock : Socket) (fuel : Nat)
    (request : Request) (self : Response) (conn : Conn) (fname : Str) (has_end_range : Bool)
    (start end_ : Int) (file : Str) (a b : Int) (hbody : self.body_sent = false)
    (hparse : SendFile.parseRange request =
      { valid_range := true, has_end_range := has_end_range, start := start, end_ := end_ })
    (hfile : fopen64 (urldecode (fname.length + 1) fname) = some file)
    (hstart : start < (file.length : Int))
    (hres : SendFile.resolveRange has_end_range start end_ file.length = (a, b))
    (ha : 0 ≤ a) (hb : 0 ≤ b) (hbS : b < (file.length : Int)) :
    (self.SendFile StatusText getContentType fopen64 sock fuel request conn
        fname).response.status = StatusPartialContent ∧
      (self.SendFile StatusText getContentType fopen64 sock fuel request conn
        fname).response.headers =
          fileHeaders getContentType self.headers (urldecode (fname.length + 1) fname) ++
            rangeAnswerHeaders a b file.length ∧
      self.SendFile StatusText getContentType fopen64 sock fuel request conn fname =
        SendFile.stream StatusText sock fuel
          (write_range_headers
            { self with headers := (fileHeaders getContentType self.headers
                (urldecode (fname.length + 1) fname)) } a b file.length)
          conn true a b file := by
  have hpath : self.SendFile StatusText getContentType fopen64 sock fuel request conn fname =
      SendFile.stream StatusText sock fuel
        (write_range_headers
          { self with headers := (fileHeaders getContentType self.headers
              (urldecode (fname.length + 1) fname)) } a b file.length)
        conn true a b file := by
    rw [Response.SendFile_range StatusText getContentType fopen64 sock fuel request self conn
      fname has_end_range start end_ file hbody hparse hfile, hres]
    dsimp only
    rw [if_neg (by omega)]
  have hfields := SendFile.stream_fields StatusText sock fuel
    (write_range_headers
      { self with headers := (fileHeaders getContentType self.headers
          (urldecode (fname.length + 1) fname)) } a b file.length)
    conn true a b file (by show StatusPartialContent ≠ 0; decide)
  rw [← hpath] at hfields
  obtain ⟨h1, h2, _⟩ := hfields
  exact ⟨h1, h2.trans (congrArg Response.headers (write_range_headers_close _ a b file.length)),
    hpath⟩

/-- A range with a start and an end that are not negative is used as given. -/
theorem SendFile.resolveRange_closed (start end_ file_size : Int) (hs : 0 ≤ start)
    (he : 0 ≤ end_) : SendFile.resolveRange true start end_ file_size = (start, end_) := by
  unfold SendFile.resolveRange
  simp only [Bool.not_true, Bool.false_and, Bool.false_eq_true, if_false]
  rw [if_neg (by omega), if_neg (by omega)]

/-- An open-ended range with a positive start ends a window after its start,
or at the last byte of the file if that comes first. -/
theorem SendFile.resolveRange_open (start end_ file_size : Int) (hs : 0 < start) :
    SendFile.resolveRange false start end_ file_size =
      (start, min (start + rangeWindow) (file_size - 1)) := by
  unfold SendFile.resolveRange rangeWindow
  have hd : (!false && decide (start ≥ 0)) = true := by
    rw [Bool.not_false, Bool.true_and, decide_eq_true_eq]
    omega
  rw [if_pos hd, if_neg (by omega)]
  dsimp only
  congr 1
  split <;> omega

/-- No text after a numeral: the head of the empty text is no digit. -/
theorem head_nil_not_digit (c : Char) (h : ([] : Str).head? = some c) : c.isDigit = false := by
  exact absurd h (by simp)

/-- The head of a text that starts with `-` is no digit. -/
theorem head_minus_not_digit (rest : Str) (c : Char) (h : ('-' :: rest).head? = some c) :
    c.isDigit = false := by
  simp only [List.head?_cons, Option.some.injEq] at h
  subst h
  decide

/-- C24. For every response whose body is not sent, every request whose first
Range header has the value `bytes=a-b` with numerals for a and b, and every
file that can be opened, of size S, with 0 <= a <= b < S: `SendFile` leaves the
status 206, and the header list is the one it started from, with the content
type settled, followed by `Accept-Ranges: bytes`, `Content-Length: b-a+1`,
`Content-Range: bytes a-b/S` and `Connection: close`, so that start and end are
used as given; and what follows the header block on the wire is a prefix of
the bytes a to b of the file. This holds for every client. -/
theorem SendFile_closed_range (StatusText : HttpStatus → Str) (getContentType : Str → Str)
    (fopen64 : Str → Option Str) (sock : Socket) (fuel : Nat) (request : Request)
    (self : Response) (conn : Conn) (fname : Str) (i : Nat) (h : Header) (da db : Str)
    (a b : Nat) (file : Str) (hbody : self.body_sent = false)
    (hrange : request.findRequestHeader "Range".toList = some (i, h))
    (hvalue : cstr h.value = "bytes=".toList ++ da ++ "-".toList ++ db)
    (ha : decimalValue da = some a) (hb : decimalValue db = some b)
    (hfile : fopen64 (urldecode (fname.length + 1) fname) = some file)
    (hab : a ≤ b) (hbS : b < file.length) (hsize : file.length < 2 ^ 63) :
    let out := self.SendFile StatusText getContentType fopen64 sock fuel request conn fname
    let answer : List Header :=
      fileHeaders getContentType self.headers (urldecode (fname.length + 1) fname) ++
        rangeAnswerHeaders a b file.length
    out.response.status = StatusPartialContent ∧
      out.response.headers = answer ∧
      ∃ m, m ≤ b - a + 1 ∧
        out.conn.wire =
          (({ self with status := StatusPartialContent, headers := answer } :
            Response).writeHeaders StatusText sock conn).conn.wire ++ (file.drop a).take m := by
  intro out answer
  have hv : cstr h.value = "bytes=".toList ++ (da ++ '-' :: db) := by
    rw [hvalue]
    simp only [List.append_assoc]
    rfl
  have hsa : scanLong (da ++ '-' :: db) = some ((a : Int), '-' :: db) := by
    rw [scanLong_decimal da ('-' :: db) a ha (head_minus_not_digit db)]
    congr 2
    omega
  have hsb : scanLong db = some ((b : Int), []) := by
    have := scanLong_decimal db [] b hb head_nil_not_digit
    rw [List.append_nil] at this
    rw [this]
    congr 2
    omega
  have hparse := SendFile.parseRange_start_end request i h (da ++ '-' :: db) db a b []
    hrange hv hsa hsb
  have hres := SendFile.resolveRange_closed (a : Int) (b : Int) (file.length : Int)
    (by omega) (by omega)
  obtain ⟨h1, h2, hpath⟩ := Response.SendFile_partial StatusText getContentType fopen64 sock
    fuel request self conn fname true a b file a b hbody hparse hfile (by omega) hres
    (by omega) (by omega) (by omega)
  obtain ⟨m, hm, hw⟩ := SendFile.stream_range_wire StatusText sock fuel
    (write_range_headers
      { self with headers := (fileHeaders getContentType self.headers
          (urldecode (fname.length + 1) fname)) } a b file.length)
    conn a b a (b - a + 1) file rfl (by omega) (by omega) (by omega)
  rw [← hpath, write_range_headers_close] at hw
  exact ⟨h1, h2, m, hm, hw⟩

set_option maxRecDepth 4096 in
/-- C24 at a fresh response, the ten-byte file `/digits.txt`, the Range header
`bytes=2-5` and a client that accepts every write: the answer is the header
block of status 206 for the bytes 2 to 5 of 10, and then these four bytes. -/
theorem SendFile_closed_range_witness :
    (Response.new.body_sent = false ∧
      (rangeRequest "bytes=2-5".toList).findRequestHeader "Range".toList =
        some (1, { name := "Range".toList, value := "bytes=2-5".toList }) ∧
      cstr "bytes=2-5".toList = "bytes=".toList ++ "2".toList ++ "-".toList ++ "5".toList ∧
      decimalValue "2".toList = some 2 ∧ decimalValue "5".toList = some 5 ∧
      twoFiles (urldecode ("/digits.txt".toList.length + 1) "/digits.txt".toList) =
        some "0123456789".toList ∧
      2 ≤ 5 ∧ 5 < "0123456789".toList.length ∧ "0123456789".toList.length < 2 ^ 63) ∧
    (let out := Response.new.SendFile Modelled.StatusText Modelled.getContentType twoFiles
        acceptAll 1 (rangeRequest "bytes=2-5".toList) Conn.fresh "/digits.txt".toList
     let answer : List Header :=
      fileHeaders Modelled.getContentType Response.new.headers
          (urldecode ("/digits.txt".toList.length + 1) "/digits.txt".toList) ++
        rangeAnswerHeaders (2 : Nat) (5 : Nat) "0123456789".toList.length
     out.response.status = StatusPartialContent ∧
      out.response.headers = answer ∧
      ∃ m, m ≤ 5 - 2 + 1 ∧
        out.conn.wire =
          (({ Response.new with
              status := StatusPartialContent
              headers := answer } :
            Response).writeHeaders Modelled.StatusText acceptAll Conn.fresh).conn.wire ++
            ("0123456789".toList.drop 2).take m) ∧
    (Response.new.SendFile Modelled.StatusText Modelled.getContentType twoFiles
        acceptAll 1 (rangeRequest "bytes=2-5".toList) Conn.fresh "/digits.txt".toList).conn.wire =
      ("HTTP/1.1 206 Partial Content\r\nContent-Type: text/plain\r\nAccept-Ranges: bytes\r\n" ++
        "Content-Length: 4\r\nContent-Range: bytes 2-5/10\r\nConnection: close\r\n\r\n" ++
        "2345").toList :=
  ⟨⟨by decide, by decide, by decide, by decide, by decide, by decide, by decide, by decide,
    by decide⟩,
   SendFile_closed_range Modelled.StatusText Modelled.getContentType twoFiles acceptAll 1
     (rangeRequest "bytes=2-5".toList) Response.new Conn.fresh "/digits.txt".toList 1
     { name := "Range".toList, value := "bytes=2-5".toList } "2".toList "5".toList 2 5
     "0123456789".toList (by decide) (by decide) (by decide) (by decide) (by decide)
     (by decide) (by decide) (by decide) (by decide),
   by decide⟩

/-- C22. For every response whose body is not sent, every request whose first
Range header has the value `bytes=N-` with a numeral for N, and every file that
can be opened, of size S (an `off64_t`, so below 2^63), with 0 < N < S: the
range resolves to the start N and the end min(N + W, S - 1), with the window
W = 4*1024*1024 - 1; `SendFile` leaves the status 206 and the headers of that
range, with Content-Length end - N + 1, which is at most W + 1; and what
follows the header block on the wire is a prefix of the bytes N to end of the
file, so at most W + 1 bytes. This holds for every client. -/
theorem SendFile_open_range (StatusText : HttpStatus → Str) (getContentType : Str → Str)
    (fopen64 : Str → Option Str) (sock : Socket) (fuel : Nat) (request : Request)
    (self : Response) (conn : Conn) (fname : Str) (i : Nat) (h : Header) (ds : Str)
    (N : Nat) (file : Str) (hbody : self.body_sent = false)
    (hrange : request.findRequestHeader "Range".toList = some (i, h))
    (hvalue : cstr h.value = "bytes=".toList ++ ds ++ "-".toList)
    (hN : decimalValue ds = some N)
    (hfile : fopen64 (urldecode (fname.length + 1) fname) = some file)
    (hpos : 0 < N) (hNS : N < file.length) (hsize : file.length < 2 ^ 63) :
    let out := self.SendFile StatusText getContentType fopen64 sock fuel request conn fname
    let end_ : Int := min ((N : Int) + rangeWindow) ((file.length : Int) - 1)
    let answer : List Header :=
      fileHeaders getContentType self.headers (urldecode (fname.length + 1) fname) ++
        rangeAnswerHeaders N end_ file.length
    SendFile.resolveRange (SendFile.parseRange request).has_end_range
        (SendFile.parseRange request).start (SendFile.parseRange request).end_ file.length =
        ((N : Int), end_) ∧
      end_ - N + 1 ≤ rangeWindow + 1 ∧
      out.response.status = StatusPartialContent ∧
      out.response.headers = answer ∧
      ∃ m : Nat, (m : Int) ≤ end_ - N + 1 ∧
        out.conn.wire =
          (({ self with status := StatusPartialContent, headers := answer } :
            Response).writeHeaders StatusText sock conn).conn.wire ++ (file.drop N).take m := by
  intro out end_ answer
  have hv : cstr h.value = "bytes=".toList ++ (ds ++ '-' :: []) := by
    rw [hvalue]
    simp only [List.append_assoc]
    rfl
  have hs : scanLong (ds ++ '-' :: []) = some ((N : Int), '-' :: []) := by
    rw [scanLong_decimal ds ('-' :: []) N hN (head_minus_not_digit [])]
    congr 2
    omega
  have hparse := SendFile.parseRange_open request i h (ds ++ '-' :: []) [] N hrange hv hs rfl
  have hres := SendFile.resolveRange_open (N : Int) 0 (file.length : Int) (by omega)
  have hend1 : (N : Int) ≤ end_ := by
    show (N : Int) ≤ min ((N : Int) + rangeWindow) ((file.length : Int) - 1)
    unfold rangeWindow
    omega
  have hend2 : end_ < (file.length : Int) := by
    show min ((N : Int) + rangeWindow) ((file.length : Int) - 1) < (file.length : Int)
    omega
  have hend3 : end_ - N + 1 ≤ rangeWindow + 1 := by
    show min ((N : Int) + rangeWindow) ((file.length : Int) - 1) - N + 1 ≤ rangeWindow + 1
    omega
  obtain ⟨h1, h2, hpath⟩ := Response.SendFile_partial StatusText getContentType fopen64 sock
    fuel request self conn fname false N 0 file N end_ hbody hparse hfile (by omega) hres
    (by omega) (by omega) hend2
  obtain ⟨m, hm, hw⟩ := SendFile.stream_range_wire StatusText sock fuel
    (write_range_headers
      { self with headers := (fileHeaders getContentType self.headers
          (urldecode (fname.length + 1) fname)) } N end_ file.length)
    conn N end_ N (end_ - N + 1).toNat file rfl (by omega) (by omega) (by omega)
  rw [← hpath, write_range_headers_close] at hw
  refine ⟨?_, hend3, h1, h2, m, by omega, hw⟩
  rw [hparse]
  exact hres

set_option maxRecDepth 4096 in
/-- C22 at a fresh response, the ten-byte file `/digits.txt`, the Range header
`bytes=3-` and a client that accepts every write: the range is 3 to 9, and the
answer is the header block of status 206 with Content-Length 7, and then the
seven bytes. -/
theorem SendFile_open_range_witness :
    (Response.new.body_sent = false ∧
      (rangeRequest "bytes=3-".toList).findRequestHeader "Range".toList =
        some (1, { name := "Range".toList, value := "bytes=3-".toList }) ∧
      cstr "bytes=3-".toList = "bytes=".toList ++ "3".toList ++ "-".toList ∧
      decimalValue "3".toList = some 3 ∧
      twoFiles (urldecode ("/digits.txt".toList.length + 1) "/digits.txt".toList) =
        some "0123456789".toList ∧
      0 < 3 ∧ 3 < "0123456789".toList.length ∧ "0123456789".toList.length < 2 ^ 63) ∧
    (let out := Response.new.SendFile Modelled.StatusText Modelled.getContentType twoFiles
        acceptAll 1 (rangeRequest "bytes=3-".toList) Conn.fresh "/digits.txt".toList
     let end_ : Int := min (((3 : Nat) : Int) + rangeWindow)
        (("0123456789".toList.length : Int) - 1)
     let answer : List Header :=
      fileHeaders Modelled.getContentType Response.new.headers
          (urldecode ("/digits.txt".toList.length + 1) "/digits.txt".toList) ++
        rangeAnswerHeaders (3 : Nat) end_ "0123456789".toList.length
     SendFile.resolveRange (SendFile.parseRange (rangeRequest "bytes=3-".toList)).has_end_range
        (SendFile.parseRange (rangeRequest "bytes=3-".toList)).start
        (SendFile.parseRange (rangeRequest "bytes=3-".toList)).end_
        "0123456789".toList.length = (((3 : Nat) : Int), end_) ∧
      end_ - (3 : Nat) + 1 ≤ rangeWindow + 1 ∧
      out.response.status = StatusPartialContent ∧
      out.response.headers = answer ∧
      ∃ m : Nat, (m : Int) ≤ end_ - (3 : Nat) + 1 ∧
        out.conn.wire =
          (({ Response.new with
              status := StatusPartialContent
              headers := answer } :
            Response).writeHeaders Modelled.StatusText acceptAll Conn.fresh).conn.wire ++
            ("0123456789".toList.drop 3).take m) ∧
    (Response.new.SendFile Modelled.StatusText Modelled.getContentType twoFiles
        acceptAll 1 (rangeRequest "bytes=3-".toList) Conn.fresh "/digits.txt".toList).conn.wire =
      ("HTTP/1.1 206 Partial Content\r\nContent-Type: text/plain\r\nAccept-Ranges: bytes\r\n" ++
        "Content-Length: 7\r\nContent-Range: bytes 3-9/10\r\nConnection: close\r\n\r\n" ++
        "3456789").toList :=
  ⟨⟨by decide, by decide, by decide, by decide, by decide, by decide, by decide, by decide⟩,
   SendFile_open_range Modelled.StatusText Modelled.getContentType twoFiles acceptAll 1
     (rangeRequest "bytes=3-".toList) Response.new Conn.fresh "/digits.txt".toList 1
     { name := "Range".toList, value := "bytes=3-".toList } "3".toList 3
     "0123456789".toList (by decide) (by decide) (by decide) (by decide) (by decide)
     (by decide) (by decide) (by decide),
   by decide⟩

/-- C30 fails at the Range header `bytes=100-50` on a file of 200 bytes. The
header is read as the range from 100 to 50, both checks pass (the start is
below the size, and neither bound is negative or beyond the last byte), and
`SendFile` answers with status 206, `Content-Length: -49` and
`Content-Range: bytes 100-50/200`: the end is below the start, the advertised
length is negative, and the chunk size for the file read is -49, which `fread`
takes as the count 2^64 - 49 for a buffer of 8192 bytes. -/
theorem SendFile_reversed_range_answers_206 :
    largerFiles (urldecode ("/larger.bin".toList.length + 1) "/larger.bin".toList) =
        some largerFile ∧
      largerFile.length = 200 ∧
      SendFile.parseRange reversedRangeRequest =
        { valid_range := true, has_end_range := true, start := 100, end_ := 50 } ∧
      SendFile.resolveRange true 100 50 200 = (100, 50) ∧
      reversedRangeOutcome.response.status = StatusPartialContent ∧
      reversedRangeOutcome.response.headers =
        [{ name := "Content-Type".toList, value := "text/plain".toList },
         { name := "Accept-Ranges".toList, value := "bytes".toList },
         { name := "Content-Length".toList, value := "-49".toList },
         { name := "Content-Range".toList, value := "bytes 100-50/200".toList },
         { name := "Connection".toList, value := "close".toList }] ∧
      SendFile.rangeBufferSize (50 - 100 + 1) = -49 ∧
      intToSize (SendFile.rangeBufferSize (50 - 100 + 1)) = 2 ^ 64 - 49 ∧
      BUFSIZ = 8192 := by
  have hfile : largerFiles (urldecode ("/larger.bin".toList.length + 1)
      "/larger.bin".toList) = some largerFile := rfl
  have hlen : largerFile.length = 200 := by
    unfold largerFile
    rw [List.length_replicate]
  have hparse : SendFile.parseRange reversedRangeRequest =
      { valid_range := true, has_end_range := true, start := 100, end_ := 50 } := by decide
  have hres : SendFile.resolveRange true 100 50 (largerFile.length : Int) = (100, 50) :=
    SendFile.resolveRange_closed 100 50 _ (by decide) (by decide)
  obtain ⟨h1, h2, _⟩ := Response.SendFile_partial Modelled.StatusText Modelled.getContentType
    largerFiles acceptAll 1 reversedRangeRequest Response.new Conn.fresh "/larger.bin".toList
    true 100 50 largerFile 100 50 rfl hparse hfile (by rw [hlen]; decide) hres (by decide)
    (by decide) (by rw [hlen]; decide)
  rw [hlen] at h2
  unfold reversedRangeOutcome
  rw [h1, h2]
  exact ⟨hfile, hlen, hparse, SendFile.resolveRange_closed 100 50 200 (by decide) (by decide),
    rfl, by decide, by decide, by decide, rfl⟩

set_option maxRecDepth 8192 in
/-- The header block that `SendFile` writes for the first 2^31 bytes of a file
of 2^31 bytes, on a fresh response. -/
theorem hugeRange_headerBlock :
    Conn.fresh.wire ++ headerBlock Modelled.StatusText
      (write_range_headers
        { Response.new with headers := (fileHeaders Modelled.getContentType Response.new.headers
            (urldecode ("/huge.bin".toList.length + 1) "/huge.bin".toList)) }
        0 2147483647 (2147483648 : Int)).status
      ((write_range_headers
        { Response.new with headers := (fileHeaders Modelled.getContentType Response.new.headers
            (urldecode ("/huge.bin".toList.length + 1) "/huge.bin".toList)) }
        0 2147483647 (2147483648 : Int)).headers ++
        [{ name := "Connection".toList, value := "close".toList }]) =
      ("HTTP/1.1 206 Partial Content\r\nContent-Type: text/plain\r\n" ++
        "Accept-Ranges: bytes\r\nContent-Length: 2147483648\r\n" ++
        "Content-Range: bytes 0-2147483647/2147483648\r\nConnection: close\r\n\r\n").toList := by
  decide

/-- C28 fails on the result for a range of 2^31 bytes. For the Range header
`bytes=0-2147483647` on a file of 2^31 bytes, a fresh response and a client
that accepts every write, the range is valid (0 <= 0 <= 2147483647 < 2^31),
`SendFile` advertises `Content-Length: 2147483648`, writes the header block and
exactly the bytes of the range, and sets `body_sent`, as claimed; but the result
is -2147483648, not the length of the range: the count of bytes sent is an
`ssize_t` and the method returns an `int`. -/
theorem SendFile_range_result_wraps :
    hugeFiles (urldecode ("/huge.bin".toList.length + 1) "/huge.bin".toList) = some hugeFile ∧
      hugeFile.length = 2147483648 ∧
      SendFile.parseRange hugeRangeRequest =
        { valid_range := true, has_end_range := true, start := 0, end_ := 2147483647 } ∧
      SendFile.resolveRange true 0 2147483647 2147483648 = (0, 2147483647) ∧
      hugeRangeOutcome.ret = .returned (-2147483648) ∧
      hugeRangeOutcome.response.status = StatusPartialContent ∧
      hugeRangeOutcome.response.headers =
        [{ name := "Content-Type".toList, value := "text/plain".toList },
         { name := "Accept-Ranges".toList, value := "bytes".toList },
         { name := "Content-Length".toList, value := "2147483648".toList },
         { name := "Content-Range".toList,
           value := "bytes 0-2147483647/2147483648".toList },
         { name := "Connection".toList, value := "close".toList }] ∧
      hugeRangeOutcome.response.body_sent = true ∧
      hugeRangeOutcome.conn.wire =
        ("HTTP/1.1 206 Partial Content\r\nContent-Type: text/plain\r\n" ++
          "Accept-Ranges: bytes\r\nContent-Length: 2147483648\r\n" ++
          "Content-Range: bytes 0-2147483647/2147483648\r\nConnection: close\r\n\r\n").toList ++
          (hugeFile.drop 0).take 2147483648 := by
  have hfile : hugeFiles (urldecode ("/huge.bin".toList.length + 1) "/huge.bin".toList) =
      some hugeFile := rfl
  have hparse : SendFile.parseRange hugeRangeRequest =
      { valid_range := true, has_end_range := true, start := 0, end_ := 2147483647 } := by
    decide
  have hres : SendFile.resolveRange true 0 2147483647 (hugeFile.length : Int) =
      (0, 2147483647) := SendFile.resolveRange_closed 0 2147483647 _ (by decide) (by decide)
  have hlenI : (hugeFile.length : Int) = 2147483648 := by
    rw [hugeFile_length]
    rfl
  obtain ⟨h1, h2, hpath⟩ := Response.SendFile_partial Modelled.StatusText
    Modelled.getContentType hugeFiles acceptAll 1 hugeRangeRequest Response.new Conn.fresh
    "/huge.bin".toList true 0 2147483647 hugeFile 0 2147483647 rfl hparse hfile
    (by rw [hlenI]; decide) hres (by decide) (by decide) (by rw [hlenI]; decide)
  obtain ⟨h3, h4, h5⟩ := SendFile.stream_range_accepted Modelled.StatusText acceptAll
    (fun _ _ => rfl) 1 (Nat.le_refl 1)
    (write_range_headers
      { Response.new with headers := (fileHeaders Modelled.getContentType Response.new.headers
          (urldecode ("/huge.bin".toList.length + 1) "/huge.bin".toList)) }
      0 2147483647 hugeFile.length)
    Conn.fresh 0 2147483647 0 2147483648 hugeFile rfl (by decide) (by decide)
    (by rw [hugeFile_length]) rfl (by show StatusPartialContent ≠ 0; decide)
  rw [toInt_two_pow_31] at h3
  have hheaders : fileHeaders Modelled.getContentType Response.new.headers
      (urldecode ("/huge.bin".toList.length + 1) "/huge.bin".toList) ++
      rangeAnswerHeaders 0 2147483647 2147483648 =
      [{ name := "Content-Type".toList, value := "text/plain".toList },
       { name := "Accept-Ranges".toList, value := "bytes".toList },
       { name := "Content-Length".toList, value := "2147483648".toList },
       { name := "Content-Range".toList, value := "bytes 0-2147483647/2147483648".toList },
       { name := "Connection".toList, value := "close".toList }] := by
    decide
  rw [hlenI, hheaders] at h2
  rw [hlenI] at hpath h3 h4 h5
  rw [hugeRange_headerBlock] at h5
  unfold hugeRangeOutcome
  rw [h1, h2, hpath, h3, h5, h4]
  exact ⟨hfile, hugeFile_length,
    hparse, SendFile.resolveRange_closed 0 2147483647 2147483648 (by decide) (by decide),
    rfl, rfl, rfl, rfl, rfl⟩

/-! ## Server -/

/-- An error reply to a client that accepts every write: the reply is on the
wire, whole, after one call of `send`. -/
theorem Client.SendHttpError_accepted (StatusText : HttpStatus → Str) (sock : Socket)
    (hsock : sock.acceptsAll) (conn : Conn) (status : HttpStatus) (message : Str) :
    Client.SendHttpError StatusText sock conn status message =
      { wire := conn.wire ++ Client.SendHttpError.reply StatusText status message,
        calls := conn.calls + 1 } := by
  unfold Client.SendHttpError send
  rw [hsock conn.calls _]
  simp

/-- C27. For every request buffer that `Client::Read` delivers without
reporting a failure, every route table, every set of handlers and every
client: if `ParseHttp` fails with the message `what`, `handleRequest` makes one
call of `SendHttpError`, with status 400 and the message `what`, calls no
handler and returns; if `ParseHttp` succeeds and `matchBestRoute` finds no
route for the method and the path of the parsed URL, it makes one call of
`SendHttpError`, with status 404 and the message `Not Found`, calls no handler
and returns. In both cases the connection is as that one call leaves it. -/
theorem handleRequest_error_replies (curl_url_set : Str → Option CurlParts)
    (StatusText : HttpStatus → Str) (getContentType : Str → Str) (fopen64 : Str → Option Str)
    (is_directory : Str → Bool) (handlers : Nat → Request → Response → Conn → Outcome Unit)
    (sock : Socket) (fuel : Nat) (routes : List Route)
    (header_start_pos header_end_pos content_length : Nat) (bytes_read : Int)
    (request_buffer : Str) (conn : Conn) (hread : bytes_read ≠ -1)
    (hcase : (∃ what, (Request.new header_start_pos header_end_pos content_length).ParseHttp
          curl_url_set request_buffer = .error what) ∨
      (∃ req, (Request.new header_start_pos header_end_pos content_length).ParseHttp
          curl_url_set request_buffer = .ok req ∧
        matchBestRoute routes req.getMethod req.urlPath = none)) :
    let out := handleRequest curl_url_set StatusText getContentType fopen64 is_directory
      handlers sock fuel routes header_start_pos header_end_pos content_length bytes_read
      request_buffer conn
    out.dispatched = none ∧ out.ret = .returned () ∧
      out.conn =
        (match (Request.new header_start_pos header_end_pos content_length).ParseHttp
            curl_url_set request_buffer with
          | .error what =>
            Client.SendHttpError StatusText sock conn StatusBadRequest what.toList
          | .ok _ =>
            Client.SendHttpError StatusText sock conn StatusNotFound "Not Found".toList) := by
  intro out
  have hout : out = handleRequest curl_url_set StatusText getContentType fopen64 is_directory
      handlers sock fuel routes header_start_pos header_end_pos content_length bytes_read
      request_buffer conn := rfl
  unfold handleRequest at hout
  rw [if_neg hread] at hout
  rcases hcase with ⟨what, hw⟩ | ⟨req, hreq, hroute⟩
  · rw [hw] at hout ⊢
    rw [hout]
    exact ⟨rfl, rfl, rfl⟩
  · rw [hreq] at hout ⊢
    dsimp only at hout
    rw [hroute] at hout
    rw [hout]
    exact ⟨rfl, rfl, rfl⟩

/-- C27 at a request with an unknown method and at the scenario request with an
empty route table, for a client that accepts every write: the first is answered
with the reply of status 400 that carries the message of the parser, the second
with the reply of status 404 that carries `Not Found`, and nothing else is on
the wire. -/
theorem handleRequest_error_replies_witness :
    ((25 : Int) ≠ -1 ∧
      ((∃ what, (Request.new 0 0 0).ParseHttp Plain.curl_url_set unknownMethodRequest =
          .error what) ∨
        (∃ req, (Request.new 0 0 0).ParseHttp Plain.curl_url_set unknownMethodRequest =
            .ok req ∧ matchBestRoute [] req.getMethod req.urlPath = none))) ∧
    (let out := handleRequest Plain.curl_url_set Modelled.StatusText Modelled.getContentType
        twoFiles noDirectories idleHandlers acceptAll 1 [] 0 0 0 25 unknownMethodRequest
        Conn.fresh
     out.dispatched = none ∧ out.ret = .returned () ∧
      out.conn =
        (match (Request.new 0 0 0).ParseHttp Plain.curl_url_set unknownMethodRequest with
          | .error what =>
            Client.SendHttpError Modelled.StatusText acceptAll Conn.fresh StatusBadRequest
              what.toList
          | .ok _ =>
            Client.SendHttpError Modelled.StatusText acceptAll Conn.fresh StatusNotFound
              "Not Found".toList)) ∧
    ((25 : Int) ≠ -1 ∧
      ((∃ what, (Request.new 0 0 0).ParseHttp Plain.curl_url_set scenarioRequest =
          .error what) ∨
        (∃ req, (Request.new 0 0 0).ParseHttp Plain.curl_url_set scenarioRequest =
            .ok req ∧ matchBestRoute [] req.getMethod req.urlPath = none))) ∧
    (let out := handleRequest Plain.curl_url_set Modelled.StatusText Modelled.getContentType
        twoFiles noDirectories idleHandlers acceptAll 1 [] 0 0 0 25 scenarioRequest
        Conn.fresh
     out.dispatched = none ∧ out.ret = .returned () ∧
      out.conn =
        (match (Request.new 0 0 0).ParseHttp Plain.curl_url_set scenarioRequest with
          | .error what =>
            Client.SendHttpError Modelled.StatusText acceptAll Conn.fresh StatusBadRequest
              what.toList
          | .ok _ =>
            Client.SendHttpError Modelled.StatusText acceptAll Conn.fresh StatusNotFound
              "Not Found".toList)) ∧
    (handleRequest Plain.curl_url_set Modelled.StatusText Modelled.getContentType
        twoFiles noDirectories idleHandlers acceptAll 1 [] 0 0 0 25 unknownMethodRequest
        Conn.fresh).conn.wire =
      ("HTTP/1.1 400 Bad Request\r\nContent-Type: text/html\r\nContent-Length: 19\r\n\r\n" ++
        "Invalid Http method\r\n").toList ∧
    (handleRequest Plain.curl_url_set Modelled.StatusText Modelled.getContentType
        twoFiles noDirectories idleHandlers acceptAll 1 [] 0 0 0 25 scenarioRequest
        Conn.fresh).conn.wire =
      ("HTTP/1.1 404 Not Found\r\nContent-Type: text/html\r\nContent-Length: 9\r\n\r\n" ++
        "Not Found\r\n").toList :=
  ⟨⟨by decide, Or.inl ⟨_, rfl⟩⟩,
   handleRequest_error_replies Plain.curl_url_set Modelled.StatusText Modelled.getContentType
     twoFiles noDirectories idleHandlers acceptAll 1 [] 0 0 0 25 unknownMethodRequest
     Conn.fresh (by decide) (Or.inl ⟨_, rfl⟩),
   ⟨by decide, Or.inr ⟨_, rfl, rfl⟩⟩,
   handleRequest_error_replies Plain.curl_url_set Modelled.StatusText Modelled.getContentType
     twoFiles noDirectories idleHandlers acceptAll 1 [] 0 0 0 25 scenarioRequest
     Conn.fresh (by decide) (Or.inr ⟨_, rfl, rfl⟩),
   by rfl, by rfl⟩

/-! ## Thread pool -/

/-- One pass of a worker, by the state of the queue: with a job at the front,
the worker takes that job and leaves the rest; with an empty queue it returns
if termination is requested and stays in the wait if not. -/
theorem ThreadPool.ThreadLoop_eq {Job : Type} (pool : ThreadPool Job) :
    pool.ThreadLoop =
      (match pool.jobs with
        | job :: rest => (.runs job, { pool with jobs := rest })
        | [] => if pool.should_terminate = true then (.exits, pool) else (.waits, pool)) := by
  unfold ThreadPool.ThreadLoop
  cases hj : pool.jobs with
  | nil =>
    cases ht : pool.should_terminate <;> rfl
  | cons job rest =>
    cases ht : pool.should_terminate <;> rfl

/-- One pass of the worker `w`, by what it finds. -/
theorem ThreadPool.System.step_worker {Job : Type} (s : ThreadPool.System Job) (w : Nat) :
    s.step (.worker w) =
      if w ∈ s.exited then s
      else
        match s.pool.jobs with
        | job :: rest =>
          { s with pool := { s.pool with jobs := rest }, taken := s.taken ++ [(w, job)] }
        | [] =>
          if s.pool.should_terminate = true then { s with exited := s.exited ++ [w] } else s := by
  show (if w ∈ s.exited then s else
    match s.pool.ThreadLoop with
    | (.waits, _) => s
    | (.exits, _) => { s with exited := s.exited ++ [w] }
    | (.runs job, pool1) => { s with pool := pool1, taken := s.taken ++ [(w, job)] }) = _
  rw [ThreadPool.ThreadLoop_eq]
  cases hj : s.pool.jobs with
  | nil =>
    cases ht : s.pool.should_terminate <;> rfl
  | cons job rest => rfl

/-- One event keeps the order of the queue: the jobs taken so far, followed by
the jobs in the queue, are the same list as before, with the job of a call of
`QueueJob` added at the end. -/
theorem ThreadPool.System.step_taken {Job : Type} (s : ThreadPool.System Job)
    (e : ThreadPool.Event Job) :
    (s.step e).taken.map Prod.snd ++ (s.step e).pool.jobs =
      s.taken.map Prod.snd ++ s.pool.jobs ++ ThreadPool.queued [e] := by
  cases e with
  | QueueJob job =>
    show s.taken.map Prod.snd ++ (s.pool.jobs ++ [job]) = _
    rw [List.append_assoc]
    rfl
  | Stop =>
    show s.taken.map Prod.snd ++ s.pool.jobs = _
    exact (List.append_nil _).symm
  | worker w =>
    show _ = s.taken.map Prod.snd ++ s.pool.jobs ++ []
    rw [List.append_nil, ThreadPool.System.step_worker]
    by_cases hw : w ∈ s.exited
    · rw [if_pos hw]
    · rw [if_neg hw]
      cases hj : s.pool.jobs with
      | nil =>
        cases ht : s.pool.should_terminate
        · simp [hj]
        · simp [hj]
      | cons job rest =>
        simp

/-- One event sets the flag if it is a call of `Stop`, and leaves it as it is
if not. -/
theorem ThreadPool.System.step_flag {Job : Type} (s : ThreadPool.System Job)
    (e : ThreadPool.Event Job) :
    (s.step e).pool.should_terminate = (s.pool.should_terminate || ThreadPool.stopped [e]) := by
  cases e with
  | QueueJob job =>
    show s.pool.should_terminate = _
    simp [ThreadPool.stopped]
  | Stop =>
    show true = _
    simp [ThreadPool.stopped]
  | worker w =>
    have hs : ThreadPool.stopped [(ThreadPool.Event.worker w : ThreadPool.Event Job)] = false := rfl
    rw [hs, Bool.or_false, ThreadPool.System.step_worker]
    by_cases hw : w ∈ s.exited
    · rw [if_pos hw]
    · rw [if_neg hw]
      cases hj : s.pool.jobs with
      | nil =>
        cases ht : s.pool.should_terminate
        · simp [ht]
        · simp [ht]
      | cons job rest =>
        simp

/-- The jobs queued by two lists of events in a row. -/
theorem ThreadPool.queued_cons {Job : Type} (e : ThreadPool.Event Job)
    (rest : List (ThreadPool.Event Job)) :
    ThreadPool.queued (e :: rest) = ThreadPool.queued [e] ++ ThreadPool.queued rest := by
  cases e <;> rfl

/-- A call of `Stop` in a list of events, by its first event. -/
theorem ThreadPool.stopped_cons {Job : Type} (e : ThreadPool.Event Job)
    (rest : List (ThreadPool.Event Job)) :
    ThreadPool.stopped (e :: rest) = (ThreadPool.stopped [e] || ThreadPool.stopped rest) := by
  cases e <;> rfl

/-- A run keeps the order of the queue, from any state. -/
theorem ThreadPool.System.run_taken {Job : Type} (events : List (ThreadPool.Event Job))
    (s : ThreadPool.System Job) :
    (ThreadPool.System.run events s).taken.map Prod.snd ++
        (ThreadPool.System.run events s).pool.jobs =
      s.taken.map Prod.snd ++ s.pool.jobs ++ ThreadPool.queued events := by
  induction events generalizing s with
  | nil => exact (List.append_nil _).symm
  | cons e rest ih =>
    unfold ThreadPool.System.run
    rw [List.foldl_cons]
    have h := ih (s.step e)
    unfold ThreadPool.System.run at h
    rw [h, ThreadPool.System.step_taken, ThreadPool.queued_cons e rest, List.append_assoc]

/-- A run sets the flag exactly if it holds a call of `Stop`, from any
state. -/
theorem ThreadPool.System.run_flag {Job : Type} (events : List (ThreadPool.Event Job))
    (s : ThreadPool.System Job) :
    (ThreadPool.System.run events s).pool.should_terminate =
      (s.pool.should_terminate || ThreadPool.stopped events) := by
  induction events generalizing s with
  | nil => exact (Bool.or_false _).symm
  | cons e rest ih =>
    unfold ThreadPool.System.run
    rw [List.foldl_cons]
    have h := ih (s.step e)
    unfold ThreadPool.System.run at h
    rw [h, ThreadPool.System.step_flag, ThreadPool.stopped_cons e rest, Bool.or_assoc]

/-- A pass of a worker that has not returned, with a job at the front of the
queue: the worker takes that job, the rest of the queue stays, and the worker
does not return. -/
theorem ThreadPool.System.step_worker_takes {Job : Type} (s : ThreadPool.System Job) (w : Nat)
    (job : Job) (rest : List Job) (hw : w ∉ s.exited) (hj : s.pool.jobs = job :: rest) :
    s.step (.worker w) =
      { s with pool := { s.pool with jobs := rest }, taken := s.taken ++ [(w, job)] } := by
  rw [ThreadPool.System.step_worker, if_neg hw, hj]

/-- A pass of a worker that has not returned, with an empty queue: the worker
returns if termination is requested and stays in the wait if not. -/
theorem ThreadPool.System.step_worker_empty {Job : Type} (s : ThreadPool.System Job) (w : Nat)
    (hw : w ∉ s.exited) (hj : s.pool.jobs = []) :
    s.step (.worker w) =
      if s.pool.should_terminate = true then { s with exited := s.exited ++ [w] } else s := by
  rw [ThreadPool.System.step_worker, if_neg hw, hj]

/-- A worker that has returned makes no pass. -/
theorem ThreadPool.System.step_worker_exited {Job : Type} (s : ThreadPool.System Job) (w : Nat)
    (hw : w ∈ s.exited) : s.step (.worker w) = s := by
  rw [ThreadPool.System.step_worker, if_pos hw]

/-- As many passes as there are jobs in the queue, by workers that have not
returned, in any order: each pass takes the job then at the front, so the
queue is emptied, the jobs are taken in the order of the queue, each by the
worker of its pass, and no worker returns. -/
theorem ThreadPool.System.run_workers_drain {Job : Type} :
    ∀ (ws : List Nat) (jobs : List Job) (s : ThreadPool.System Job),
      s.pool.jobs = jobs → ws.length = jobs.length → (∀ v ∈ ws, v ∉ s.exited) →
      ThreadPool.System.run
          (ws.map (fun v => (ThreadPool.Event.worker v : ThreadPool.Event Job))) s =
        { s with pool := { s.pool with jobs := [] }, taken := s.taken ++ ws.zip jobs } := by
  intro ws
  induction ws with
  | nil =>
    intro jobs s hj hlen _
    have hnil : jobs = [] := List.length_eq_zero.mp hlen.symm
    subst hnil
    obtain ⟨pool, exited, taken⟩ := s
    obtain ⟨flag, queue⟩ := pool
    simp only at hj
    subst hj
    simp [ThreadPool.System.run]
  | cons w ws ih =>
    intro jobs s hj hlen hws
    cases jobs with
    | nil => simp at hlen
    | cons job rest =>
      have hw : w ∉ s.exited := hws w (List.mem_cons_self _ _)
      have hstep := ThreadPool.System.step_worker_takes s w job rest hw hj
      have hrun : ThreadPool.System.run
          ((w :: ws).map (fun v => (ThreadPool.Event.worker v : ThreadPool.Event Job))) s =
          ThreadPool.System.run
            (ws.map (fun v => (ThreadPool.Event.worker v : ThreadPool.Event Job)))
            (s.step (.worker w)) := by
        unfold ThreadPool.System.run
        rw [List.map_cons, List.foldl_cons]
      have hlen2 : ws.length = rest.length := by
        simp only [List.length_cons] at hlen
        omega
      have hrest := ih rest (s.step (.worker w)) (by rw [hstep]) hlen2
        (by rw [hstep]; exact fun v hv => hws v (List.mem_cons_of_mem _ hv))
      rw [hrun, hrest, hstep]
      simp [List.append_assoc]

/-- A worker returns only with the flag set, and the flag is never unset: in
every state that a run reaches from a state with this property, the flag is
set if some worker has returned. -/
theorem ThreadPool.System.run_exited_flag {Job : Type} (events : List (ThreadPool.Event Job)) :
    ∀ (s : ThreadPool.System Job), (∀ v ∈ s.exited, s.pool.should_terminate = true) →
      ∀ v ∈ (ThreadPool.System.run events s).exited,
        (ThreadPool.System.run events s).pool.should_terminate = true := by
  induction events with
  | nil =>
    intro s h
    exact h
  | cons e rest ih =>
    intro s h
    have hrun : ThreadPool.System.run (e :: rest) s = ThreadPool.System.run rest (s.step e) := by
      unfold ThreadPool.System.run
      rw [List.foldl_cons]
    rw [hrun]
    apply ih
    cases e with
    | QueueJob job => exact h
    | Stop => exact fun _ _ => rfl
    | worker w =>
      by_cases hw : w ∈ s.exited
      · rw [ThreadPool.System.step_worker_exited s w hw]
        exact h
      · cases hj : s.pool.jobs with
        | nil =>
          rw [ThreadPool.System.step_worker_empty s w hw hj]
          by_cases ht : s.pool.should_terminate = true
          · rw [if_pos ht]
            exact fun _ _ => ht
          · rw [if_neg ht]
            exact h
        | cons job rest2 =>
          rw [ThreadPool.System.step_worker_takes s w job rest2 hw hj]
          exact h

/-- C29. For every run of a pool from its initial state (calls of `QueueJob`,
calls of `Stop`, and passes of any workers through the locked part of
`ThreadLoop`, in any order), at the state `s` that the run reaches, and for
every worker `w`. The jobs taken so far, followed by the jobs still in the
queue, are the jobs queued so far, in the order in which they were queued; the
flag is set exactly if `Stop` was called; a worker has returned only if `Stop`
was called. The next pass of `w`, when `w` has not returned: with a job at the
front of the queue it takes exactly that job, leaves the rest of the queue, and
`w` does not return, whether termination is requested or not; with an empty
queue `w` returns if the flag is set and the state stays as it is if not. So
`w` returns in this pass exactly when termination is requested and the queue
is empty, and every job queued so far has then been taken. And as many passes
as there are jobs in the queue, by any workers that have not returned, empty
the queue: each job queued in the run has then been taken exactly once, in the
order in which the jobs were queued, and no worker has returned meanwhile. -/
theorem ThreadLoop_drains_queue {Job : Type} (events : List (ThreadPool.Event Job)) (w : Nat) :
    let s := ThreadPool.System.run events ThreadPool.System.new
    s.taken.map Prod.snd ++ s.pool.jobs = ThreadPool.queued events ∧
      s.pool.should_terminate = ThreadPool.stopped events ∧
      s.pool.ThreadLoop =
        (match s.pool.jobs with
          | job :: rest => (.runs job, { s.pool with jobs := rest })
          | [] => if s.pool.should_terminate = true then (.exits, s.pool)
                  else (.waits, s.pool)) ∧
      ((∃ pool1, s.pool.ThreadLoop = (.exits, pool1)) ↔
        (ThreadPool.stopped events = true ∧ s.pool.jobs = [] ∧
          s.taken.map Prod.snd = ThreadPool.queued events)) ∧
      (∀ v ∈ s.exited, ThreadPool.stopped events = true) ∧
      (w ∉ s.exited → ∀ job rest, s.pool.jobs = job :: rest →
        s.step (.worker w) =
          { s with pool := { s.pool with jobs := rest }, taken := s.taken ++ [(w, job)] }) ∧
      (w ∉ s.exited → s.pool.jobs = [] → ThreadPool.stopped events = true →
        s.step (.worker w) = { s with exited := s.exited ++ [w] }) ∧
      (w ∉ s.exited → s.pool.jobs = [] → ThreadPool.stopped events = false →
        s.step (.worker w) = s) ∧
      (w ∈ s.exited → s.step (.worker w) = s) ∧
      ((w ∉ s.exited ∧ w ∈ (s.step (.worker w)).exited) ↔
        (w ∉ s.exited ∧ ThreadPool.stopped events = true ∧ s.pool.jobs = [] ∧
          s.taken.map Prod.snd = ThreadPool.queued events)) ∧
      (∀ ws : List Nat, ws.length = s.pool.jobs.length → (∀ v ∈ ws, v ∉ s.exited) →
        (ThreadPool.System.run
            (ws.map (fun v => (ThreadPool.Event.worker v : ThreadPool.Event Job))) s).pool.jobs =
          [] ∧
        (ThreadPool.System.run
            (ws.map (fun v => (ThreadPool.Event.worker v : ThreadPool.Event Job))) s).taken =
          s.taken ++ ws.zip s.pool.jobs ∧
        (ThreadPool.System.run
            (ws.map (fun v => (ThreadPool.Event.worker v : ThreadPool.Event Job)))
            s).taken.map Prod.snd = ThreadPool.queued events ∧
        (ThreadPool.System.run
            (ws.map (fun v => (ThreadPool.Event.worker v : ThreadPool.Event Job))) s).exited =
          s.exited) := by
  intro s
  have ha : s.taken.map Prod.snd ++ s.pool.jobs = ThreadPool.queued events := by
    have h := ThreadPool.System.run_taken events (ThreadPool.System.new : ThreadPool.System Job)
    exact h
  have hb : s.pool.should_terminate = ThreadPool.stopped events := by
    have h := ThreadPool.System.run_flag events (ThreadPool.System.new : ThreadPool.System Job)
    exact h
  have hexit : (∃ pool1, s.pool.ThreadLoop = (.exits, pool1)) ↔
      (ThreadPool.stopped events = true ∧ s.pool.jobs = [] ∧
        s.taken.map Prod.snd = ThreadPool.queued events) := by
    rw [ThreadPool.ThreadLoop_eq s.pool]
    constructor
    · rintro ⟨pool1, h⟩
      cases hj : s.pool.jobs with
      | nil =>
        rw [hj] at h ha
        dsimp only at h
        by_cases ht : s.pool.should_terminate = true
        · refine ⟨hb ▸ ht, rfl, ?_⟩
          rw [List.append_nil] at ha
          exact ha
        · rw [if_neg ht] at h
          injection h with h1 h2
          exact ThreadLoop.Step.noConfusion h1
      | cons job rest =>
        rw [hj] at h
        dsimp only at h
        injection h with h1 h2
        exact ThreadLoop.Step.noConfusion h1
    · rintro ⟨h1, h2, _⟩
      rw [h2]
      dsimp only
      rw [if_pos (hb.trans h1)]
      exact ⟨_, rfl⟩
  have hflag : ∀ v ∈ s.exited, ThreadPool.stopped events = true := by
    intro v hv
    have h := ThreadPool.System.run_exited_flag events
      (ThreadPool.System.new : ThreadPool.System Job) (fun v hv => by cases hv) v hv
    exact hb ▸ h
  refine ⟨ha, hb, ThreadPool.ThreadLoop_eq s.pool, hexit, hflag, ?_, ?_, ?_, ?_, ?_, ?_⟩
  · intro hw job rest hj
    exact ThreadPool.System.step_worker_takes s w job rest hw hj
  · intro hw hj hstop
    rw [ThreadPool.System.step_worker_empty s w hw hj, if_pos (hb.trans hstop)]
  · intro hw hj hstop
    rw [ThreadPool.System.step_worker_empty s w hw hj,
      if_neg (by rw [hb, hstop]; exact Bool.false_ne_true)]
  · intro hw
    exact ThreadPool.System.step_worker_exited s w hw
  · constructor
    · rintro ⟨hw, hin⟩
      cases hj : s.pool.jobs with
      | nil =>
        rw [ThreadPool.System.step_worker_empty s w hw hj] at hin
        by_cases ht : s.pool.should_terminate = true
        · rw [hj, List.append_nil] at ha
          exact ⟨hw, hb ▸ ht, rfl, ha⟩
        · rw [if_neg ht] at hin
          exact absurd hin hw
      | cons job rest =>
        rw [ThreadPool.System.step_worker_takes s w job rest hw hj] at hin
        exact absurd hin hw
    · rintro ⟨hw, hstop, hj, _⟩
      refine ⟨hw, ?_⟩
      rw [ThreadPool.System.step_worker_empty s w hw hj, if_pos (hb.trans hstop)]
      exact List.mem_append_right _ (List.mem_singleton_self w)
  · intro ws hlen hws
    rw [ThreadPool.System.run_workers_drain ws s.pool.jobs s rfl hlen hws]
    refine ⟨rfl, rfl, ?_, rfl⟩
    show (s.taken ++ ws.zip s.pool.jobs).map Prod.snd = ThreadPool.queued events
    rw [List.map_append, ← ha]
    congr 1
    have hz : (ws.zip s.pool.jobs).map Prod.snd = s.pool.jobs := by
      rw [← List.unzip_snd, List.unzip_zip_right (Nat.le_of_eq hlen.symm)]
    exact hz

/-- C29 on two runs. After two calls of `QueueJob` and a call of `Stop`, a pass
of worker 0 takes the first job and leaves the second, and worker 0 has not
returned although termination is requested; two passes, of worker 0 and then of
worker 1, take both jobs in the order in which they were queued and empty the
queue. After these passes the queue is empty and the flag is set, and the
next pass of worker 1 is its return. -/
theorem ThreadLoop_drains_queue_witness :
    (ThreadPool.System.run [.QueueJob 10, .QueueJob 11, .Stop]
        (ThreadPool.System.new : ThreadPool.System Nat)).pool.jobs = [10, 11] ∧
      ((ThreadPool.System.run [.QueueJob 10, .QueueJob 11, .Stop]
          (ThreadPool.System.new : ThreadPool.System Nat)).step (.worker 0)).taken = [(0, 10)] ∧
      ((ThreadPool.System.run [.QueueJob 10, .QueueJob 11, .Stop]
          (ThreadPool.System.new : ThreadPool.System Nat)).step (.worker 0)).pool.jobs = [11] ∧
      ((ThreadPool.System.run [.QueueJob 10, .QueueJob 11, .Stop]
          (ThreadPool.System.new : ThreadPool.System Nat)).step (.worker 0)).exited = [] ∧
      (ThreadPool.System.run
          ([0, 1].map (fun v => (ThreadPool.Event.worker v : ThreadPool.Event Nat)))
          (ThreadPool.System.run [.QueueJob 10, .QueueJob 11, .Stop]
            (ThreadPool.System.new : ThreadPool.System Nat))).taken = [(0, 10), (1, 11)] ∧
      (ThreadPool.System.run
          ([0, 1].map (fun v => (ThreadPool.Event.worker v : ThreadPool.Event Nat)))
          (ThreadPool.System.run [.QueueJob 10, .QueueJob 11, .Stop]
            (ThreadPool.System.new : ThreadPool.System Nat))).pool.jobs = [] ∧
      ((ThreadPool.System.run [.QueueJob 10, .QueueJob 11, .Stop, .worker 0, .worker 1]
          (ThreadPool.System.new : ThreadPool.System Nat)).step (.worker 1)).exited = [1] :=
  have h := ThreadLoop_drains_queue
    ([.QueueJob 10, .QueueJob 11, .Stop] : List (ThreadPool.Event Nat)) 0
  have h2 := ThreadLoop_drains_queue
    ([.QueueJob 10, .QueueJob 11, .Stop, .worker 0, .worker 1] : List (ThreadPool.Event Nat)) 1
  have htake := h.2.2.2.2.2.1 (by decide) 10 [11] rfl
  have hdrain := h.2.2.2.2.2.2.2.2.2.2 [0, 1] rfl (by decide)
  have hexit := h2.2.2.2.2.2.2.1 (by decide) rfl rfl
  ⟨rfl, by rw [htake]; rfl, by rw [htake], by rw [htake]; rfl, hdrain.2.1, hdrain.1,
    by rw [hexit]; rfl⟩

/-- A run with two workers: the three jobs are taken in the order in which
they were queued, the job queued after `Stop` included, and each worker returns
once the queue is empty. -/
theorem twoWorkerRun_drained :
    (ThreadPool.System.run twoWorkerRun ThreadPool.System.new).taken =
        [(0, 10), (1, 11), (0, 12)] ∧
      (ThreadPool.System.run twoWorkerRun ThreadPool.System.new).exited = [1, 0] ∧
      (ThreadPool.System.run twoWorkerRun ThreadPool.System.new).pool.jobs = [] ∧
      ThreadPool.queued twoWorkerRun = [10, 11, 12] := by
  decide

/-! ## The error reply of `SendHttpError` -/

/-- The reply of `SendHttpError` begins with the status line and its CRLF. -/
theorem Client.SendHttpError.reply_status_line (StatusText : HttpStatus → Str)
    (status : HttpStatus) (message : Str) :
    ∃ rest, Client.SendHttpError.reply StatusText status message =
      "HTTP/1.1 ".toList ++ to_string status ++ " ".toList ++ StatusText status ++
        "\r\n".toList ++ rest :=
  ⟨"Content-Type: text/html\r\n".toList ++
      ("Content-Length: ".toList ++ to_string message.length ++ "\r\n".toList) ++
      ("\r\n".toList ++ message ++ "\r\n".toList),
    by unfold Client.SendHttpError.reply; simp only [List.append_assoc]⟩

/-- The reply of `SendHttpError` ends with the Content-Length line that states
the length of the message, the blank line, the message and one more CRLF: two
bytes more than the header states. -/
theorem Client.SendHttpError.reply_tail (StatusText : HttpStatus → Str)
    (status : HttpStatus) (message : Str) :
    ∃ head, Client.SendHttpError.reply StatusText status message =
      head ++ ("Content-Length: ".toList ++ to_string message.length) ++ DOUBLE_LF ++
        (message ++ "\r\n".toList) ∧
      (message ++ "\r\n".toList).length = message.length + 2 :=
  ⟨"HTTP/1.1 ".toList ++ to_string status ++ " ".toList ++ StatusText status ++ "\r\n".toList ++
      "Content-Type: text/html\r\n".toList,
    by unfold Client.SendHttpError.reply DOUBLE_LF; simp [List.append_assoc],
    by simp⟩

set_option maxRecDepth 8192 in
/-- C34. The reply that `SendHttpError(StatusNotFound, "Not Found")` assembles
has the status line `HTTP/1.1 404 Not Found` and the header
`Content-Length: 9`, the size of the message, but eleven bytes follow the
blank line that ends its header block: the message and the CRLF that the
function appends to it. The Content-Length of the reply is two less than the
number of bytes after the blank line. -/
theorem SendHttpError_content_length_two_short :
    notFoundReply =
        ("HTTP/1.1 404 Not Found\r\nContent-Type: text/html\r\n" ++
          "Content-Length: 9\r\n\r\nNot Found\r\n").toList ∧
      firstLine notFoundReply = some "HTTP/1.1 404 Not Found".toList ∧
      headerValueOf "Content-Length".toList notFoundReply = some "9".toList ∧
      bytesAfterBlankLine notFoundReply = some "Not Found\r\n".toList ∧
      (bytesAfterBlankLine notFoundReply).map List.length = some 11 ∧
      (headerValueOf "Content-Length".toList notFoundReply).bind decimalValue ≠
        (bytesAfterBlankLine notFoundReply).map List.length := by
  decide

/-! ## The URL after the query map is built -/

/-- A string has at least one segment. -/
theorem segments_ne_nil (sep : Char) (s : Str) : segments sep s ≠ [] := by
  rw [segments_eq]
  split <;> simp

/-- With enough fuel, the loop over the query string leaves in `url->query`
the last segment of the query, the text after its last ampersand. -/
theorem Request.queryLoop_fst (fuel : Nat) (q : Str) (m : List (Str × Str))
    (hfuel : q.length ≤ fuel) :
    (Request.queryLoop fuel q m).1 = ((segments '&' q).getLast?).getD [] := by
  induction fuel generalizing q m with
  | zero =>
    have hq : q = [] := List.length_eq_zero.mp (Nat.le_zero.mp hfuel)
    subst hq
    rfl
  | succ n ih =>
    unfold Request.queryLoop
    rw [segments_eq, find_char]
    by_cases hmem : '&' ∈ q
    · simp only [hmem, if_true, take_length_takeWhile]
      have hdrop : q.drop ((q.takeWhile (fun x => x != '&')).length + 1) =
          (q.dropWhile (fun x => x != '&')).drop 1 := by
        rw [← drop_length_takeWhile, List.drop_drop, Nat.add_comm]
      rw [hdrop]
      have hlen : ((q.dropWhile (fun x => x != '&')).drop 1).length ≤ n := by
        rw [← hdrop, List.length_drop]
        omega
      rw [ih _ _ hlen]
      obtain ⟨seg, segs, hs⟩ := List.exists_cons_of_ne_nil
        (segments_ne_nil '&' ((q.dropWhile (fun x => x != '&')).drop 1))
      rw [hs, List.getLast?_cons_cons]
    · simp only [hmem, if_false]
      rfl

/-- The block of `ParseHeaders` that builds the query map leaves in
`url->query` the last segment of the query string. -/
theorem Request.parseQueries_fst (q : Str) (m : List (Str × Str)) :
    (Request.parseQueries q m).1 = ((segments '&' q).getLast?).getD [] := by
  unfold Request.parseQueries
  cases q with
  | nil => rfl
  | cons c cs =>
    simp only [List.isEmpty_cons, Bool.not_false, if_true]
    rw [← Request.queryLoop_fst (c :: cs).length (c :: cs) m (Nat.le_refl _)]
    split <;> rfl

/-- The URL of a request after a successful `ParseHeaders`: the URL that the
constructor builds, with its query replaced by the last segment of that
query; scheme, host, path and port are those of the constructor. -/
theorem Request.ParseHeaders_url (curl_url_set : Str → Option CurlParts) (self : Request)
    (req_data : Str) (r : Request) (h : self.ParseHeaders curl_url_set req_data = .ok r) :
    ∃ hostHeader url, r.findRequestHeader "Host".toList = some hostHeader ∧
      URL.new curl_url_set (SCHEME ++ "://".toList ++ hostHeader.2.value ++ r.path) = .ok url ∧
      r.url = some { url with query := ((segments '&' url.query).getLast?).getD [] } := by
  unfold Request.ParseHeaders at h
  split at h
  · exact Except.noConfusion h
  · split at h
    · exact Except.noConfusion h
    · rename_i header_end hend
      dsimp only at h
      split at h
      · exact Except.noConfusion h
      · split at h
        · exact Except.noConfusion h
        · rename_i hostHeader hhost
          split at h
          · exact Except.noConfusion h
          · rename_i url hurl
            injection h with h
            subst h
            exact ⟨hostHeader, url, hhost, hurl, by rw [Request.parseQueries_fst]⟩

/-- C32. On the request `GET /search?q=a&lang=en` with the Host `example.com`
the parse succeeds and the constructor of `URL` decomposes
`http://example.com/search?q=a&lang=en` with the query `q=a&lang=en`; the loop
that builds the query map erases each pair from `url->query` as it reads it,
so the URL of the parsed request has the query `lang=en`, the last pair alone,
and not the query string of the request target. The scheme, the host, the path
and the port of the URL are those that the constructor set, and the map holds
both pairs. -/
theorem ParseHttp_query_erased_up_to_last_pair :
    ∃ req parsed url,
      freshRequest.ParseHttp Plain.curl_url_set searchRequest = .ok req ∧
      req.path = "/search?q=a&lang=en".toList ∧
      URL.new Plain.curl_url_set "http://example.com/search?q=a&lang=en".toList = .ok parsed ∧
      parsed.query = "q=a&lang=en".toList ∧
      req.url = some url ∧
      url.query = "lang=en".toList ∧
      url.query ≠ parsed.query ∧
      url.scheme = parsed.scheme ∧ url.host = parsed.host ∧ url.path = parsed.path ∧
      url.port = parsed.port ∧
      req.Query "q".toList [] = "a".toList ∧
      req.Query "lang".toList [] = "en".toList :=
  ⟨_, _, _, rfl, rfl, rfl, rfl, rfl, rfl, by decide, rfl, rfl, rfl, rfl, rfl, rfl⟩

/-! ## The decoding of percent escapes -/

/-- The order of characters is the order of their codes. -/
theorem char_le_iff_toNat (a b : Char) : a ≤ b ↔ a.toNat ≤ b.toNat := by
  rw [Char.le_def]
  exact Iff.rfl

/-- The function `isxdigit` accepts the hexadecimal digits. -/
theorem isxdigit_eq (c : Char) : isxdigit c = isHexDigit c := by
  unfold isxdigit isHexDigit Char.isDigit
  rfl

/-- On a hexadecimal digit, the arithmetic of `urldecode` gives the value of
the digit. -/
theorem urldecode.nibble_eq (a : Char) (h : isHexDigit a = true) :
    urldecode.nibble a = hexValue a ∧ hexValue a < 16 := by
  unfold isHexDigit at h
  unfold urldecode.nibble hexValue
  simp only [Bool.or_eq_true, Bool.and_eq_true, decide_eq_true_eq, ge_iff_le,
    char_le_iff_toNat] at h ⊢
  have h0 : '0'.toNat = 48 := rfl
  have h9 : '9'.toNat = 57 := rfl
  have ha : 'a'.toNat = 97 := rfl
  have hf : 'f'.toNat = 102 := rfl
  have hA : 'A'.toNat = 65 := rfl
  have hF : 'F'.toNat = 70 := rfl
  rw [h0, h9, ha, hf, hA, hF] at h
  rw [h0, h9, ha, hf, hA]
  generalize a.toNat = n at h ⊢
  split_ifs <;> omega
/-- One step of the reference decoding. -/
theorem referenceDecoding_cons (c : Char) (rest : Str) :
    referenceDecoding (c :: rest) =
      match rest with
      | x :: y :: rest2 =>
        if c = '%' ∧ isHexDigit x = true ∧ isHexDigit y = true then
          Char.ofNat (16 * hexValue x + hexValue y) :: referenceDecoding rest2
        else c :: referenceDecoding rest
      | _ => c :: referenceDecoding rest := by
  cases rest with
  | nil => rfl
  | cons x r =>
    cases r with
    | nil => rfl
    | cons y r2 => rfl

/-- One iteration of the loop of `urldecode`, in the terms of the reference
decoding. -/
theorem urldecode.loop_cons (dst_size : Nat) (c : Char) (rest : Str) (written : Nat) :
    urldecode.loop dst_size (c :: rest) written =
      if written + 1 < dst_size then
        match rest with
        | a :: b :: rest2 =>
          if c = '%' ∧ isHexDigit a = true ∧ isHexDigit b = true then
            Char.ofNat (16 * hexValue a + hexValue b) ::
              urldecode.loop dst_size rest2 (written + 1)
          else c :: urldecode.loop dst_size rest (written + 1)
        | _ => c :: urldecode.loop dst_size rest (written + 1)
      else [] := by
  cases rest with
  | nil => rfl
  | cons a r =>
    cases r with
    | nil => rfl
    | cons b r2 =>
      have hunf : urldecode.loop dst_size (c :: a :: b :: r2) written =
          if written + 1 < dst_size then
            if (decide (c = '%') && isxdigit a && isxdigit b) = true then
              Char.ofNat ((16 * urldecode.nibble a + urldecode.nibble b) % 256) ::
                urldecode.loop dst_size r2 (written + 1)
            else c :: urldecode.loop dst_size (a :: b :: r2) (written + 1)
          else [] := rfl
      rw [hunf]
      by_cases hw : written + 1 < dst_size
      · simp only [hw, if_true]
        by_cases hd : c = '%' ∧ isHexDigit a = true ∧ isHexDigit b = true
        · obtain ⟨hc, ha, hb⟩ := hd
          have na := urldecode.nibble_eq a ha
          have nb := urldecode.nibble_eq b hb
          have hmod : (16 * hexValue a + hexValue b) % 256 = 16 * hexValue a + hexValue b :=
            Nat.mod_eq_of_lt (by omega)
          simp only [hc, ha, hb, isxdigit_eq, na.1, nb.1, hmod, decide_True, Bool.and_self,
            if_true, and_self]
        · have hd2 : ¬ (decide (c = '%') && isxdigit a && isxdigit b) = true := by
            simp only [Bool.and_eq_true, decide_eq_true_eq, isxdigit_eq]
            exact fun h => hd ⟨h.1.1, h.1.2, h.2⟩
          rw [if_neg hd2, if_neg hd]
      · simp only [hw, if_false]

/-- The loop of `urldecode`, from any count of bytes written, writes the
reference decoding of what is left of the source, cut to the room that is left
in the buffer. -/
theorem urldecode.loop_reference_aux (dst_size : Nat) :
    ∀ (n : Nat) (src : Str), src.length ≤ n → ∀ written : Nat,
      urldecode.loop dst_size src written =
        (referenceDecoding src).take (dst_size - 1 - written) := by
  intro n
  induction n with
  | zero =>
    intro src hlen written
    have hs : src = [] := List.length_eq_zero.mp (Nat.le_zero.mp hlen)
    subst hs
    exact (List.take_nil).symm
  | succ n ih =>
    intro src hlen written
    cases src with
    | nil => exact (List.take_nil).symm
    | cons c rest =>
      have hrest : rest.length ≤ n := by
        rw [List.length_cons] at hlen
        omega
      rw [urldecode.loop_cons, referenceDecoding_cons]
      by_cases hw : written + 1 < dst_size
      · have hk : dst_size - 1 - written = (dst_size - 1 - (written + 1)) + 1 := by omega
        rw [if_pos hw, hk]
        cases rest with
        | nil => simp only [List.take_succ_cons, ih [] hrest]
        | cons a r =>
          cases r with
          | nil => simp only [List.take_succ_cons, ih [a] hrest]
          | cons b r2 =>
            have hr2 : r2.length ≤ n := by
              simp only [List.length_cons] at hrest
              omega
            simp only []
            split
            · rw [List.take_succ_cons, ih r2 hr2]
            · rw [List.take_succ_cons, ih (a :: b :: r2) hrest]
      · have hk : dst_size - 1 - written = 0 := by omega
        rw [if_neg hw, hk, List.take_zero]

/-- The loop of `urldecode`, started with nothing written, writes the
reference decoding of its source cut to `dst_size - 1` bytes. -/
theorem urldecode.loop_reference (dst_size : Nat) (src : Str) :
    urldecode.loop dst_size src 0 = (referenceDecoding src).take (dst_size - 1) :=
  urldecode.loop_reference_aux dst_size src.length src (Nat.le_refl _) 0

/-- A string without a NUL byte is its own C string. -/
theorem cstr_of_nul_free (s : Str) (h : '\x00' ∉ s) : cstr s = s := by
  unfold cstr
  rw [List.takeWhile_eq_self_iff]
  intro c hc
  simp only [bne_iff_ne, ne_eq]
  intro hz
  exact h (hz ▸ hc)

/-- The C string of a buffer ends at the terminator that follows its bytes. -/
theorem cstr_append_nul (s : Str) : cstr (s ++ ['\x00']) = cstr s := by
  unfold cstr
  induction s with
  | nil => rfl
  | cons c cs ih =>
    by_cases hc : c = '\x00'
    · subst hc
      rfl
    · have hb : (c != '\x00') = true := by simp [hc]
      rw [List.cons_append, List.takeWhile_cons, List.takeWhile_cons, hb]
      simp only [if_true]
      rw [ih]

/-- The reference decoding of a string without a percent sign is the string. -/
theorem referenceDecoding_no_percent (src : Str) (h : '%' ∉ src) :
    referenceDecoding src = src := by
  induction src with
  | nil => rfl
  | cons c rest ih =>
    have hc : c ≠ '%' := fun hc => h (hc ▸ List.mem_cons_self _ _)
    have hrest : '%' ∉ rest := fun hm => h (List.mem_cons_of_mem _ hm)
    rw [referenceDecoding_cons]
    cases rest with
    | nil => rfl
    | cons a r =>
      cases r with
      | nil => simp only []; rw [ih hrest]
      | cons b r2 =>
        simp only []
        rw [if_neg (fun hd => hc hd.1), ih hrest]

/-- C33. For every source string without a NUL byte and every `dst_size` of at
least one, `urldecode` stores the first `min (dst_size - 1) n` bytes of the
reference decoding of the source, of length `n`, followed by one NUL byte: at
most `dst_size` bytes in all. The C string that this leaves in `dst` is the
one these bytes hold. A source without a percent sign that is shorter than
`dst_size` is copied as it is. -/
theorem urldecode_writes_reference_decoding (dst_size : Nat) (src : Str)
    (hsize : 1 ≤ dst_size) (hnul : '\x00' ∉ src) :
    urldecode.stored dst_size src =
        (referenceDecoding src).take (min (dst_size - 1) (referenceDecoding src).length) ++
          ['\x00'] ∧
      (urldecode.stored dst_size src).length ≤ dst_size ∧
      urldecode dst_size src =
        cstr ((referenceDecoding src).take (min (dst_size - 1) (referenceDecoding src).length)) ∧
      ('%' ∉ src → src.length < dst_size →
        urldecode.stored dst_size src = src ++ ['\x00'] ∧ urldecode dst_size src = src) := by
  have htake : (referenceDecoding src).take (min (dst_size - 1) (referenceDecoding src).length) =
      (referenceDecoding src).take (dst_size - 1) := by
    rcases Nat.le_total (dst_size - 1) (referenceDecoding src).length with hle | hle
    · rw [Nat.min_eq_left hle]
    · rw [Nat.min_eq_right hle, List.take_of_length_le hle, List.take_of_length_le (Nat.le_refl _)]
  have hstored : urldecode.stored dst_size src =
      (referenceDecoding src).take (dst_size - 1) ++ ['\x00'] := by
    unfold urldecode.stored
    rw [cstr_of_nul_free src hnul, urldecode.loop_reference]
  have hdec : urldecode dst_size src = cstr ((referenceDecoding src).take (dst_size - 1)) := by
    unfold urldecode
    rw [cstr_of_nul_free src hnul, urldecode.loop_reference]
  refine ⟨by rw [htake]; exact hstored, ?_, by rw [htake]; exact hdec, ?_⟩
  · rw [hstored, List.length_append, List.length_take, List.length_singleton]
    have := Nat.min_le_left (dst_size - 1) (referenceDecoding src).length
    omega
  · intro hpct hfit
    have href := referenceDecoding_no_percent src hpct
    have hall : (referenceDecoding src).take (dst_size - 1) = src := by
      rw [href]
      exact List.take_of_length_le (by omega)
    rw [hstored, hdec, hall]
    exact ⟨rfl, cstr_of_nul_free src hnul⟩

/-- C33, on the source `a%41%zz%4b-` with a buffer of eight bytes: the
reference decoding is `aA%zzK-`, the escape `%41` and the escape `%4b`
replaced and the percent sign before `zz` copied; `urldecode` stores its seven
bytes and the terminator. The source `/index.html`, which has no percent sign,
is copied as it is into a buffer of twelve bytes. -/
theorem urldecode_writes_reference_decoding_witness :
    1 ≤ 8 ∧ '\x00' ∉ "a%41%zz%4b-".toList ∧
      referenceDecoding "a%41%zz%4b-".toList = "aA%zzK-".toList ∧
      urldecode.stored 8 "a%41%zz%4b-".toList = "aA%zzK-\x00".toList ∧
      urldecode 8 "a%41%zz%4b-".toList = "aA%zzK-".toList ∧
      (urldecode.stored 8 "a%41%zz%4b-".toList =
          (referenceDecoding "a%41%zz%4b-".toList).take
            (min (8 - 1) (referenceDecoding "a%41%zz%4b-".toList).length) ++ ['\x00'] ∧
        (urldecode.stored 8 "a%41%zz%4b-".toList).length ≤ 8 ∧
        urldecode 8 "a%41%zz%4b-".toList =
          cstr ((referenceDecoding "a%41%zz%4b-".toList).take
            (min (8 - 1) (referenceDecoding "a%41%zz%4b-".toList).length)) ∧
        ('%' ∉ "a%41%zz%4b-".toList → "a%41%zz%4b-".toList.length < 8 →
          urldecode.stored 8 "a%41%zz%4b-".toList = "a%41%zz%4b-".toList ++ ['\x00'] ∧
            urldecode 8 "a%41%zz%4b-".toList = "a%41%zz%4b-".toList)) ∧
      '%' ∉ "/index.html".toList ∧ "/index.html".toList.length < 12 ∧
      urldecode.stored 12 "/index.html".toList = "/index.html".toList ++ ['\x00'] ∧
      urldecode 12 "/index.html".toList = "/index.html".toList :=
  ⟨by decide, by decide, by decide, by decide, by decide,
    urldecode_writes_reference_decoding 8 "a%41%zz%4b-".toList (by decide) (by decide),
    by decide, by decide,
    (urldecode_writes_reference_decoding 12 "/index.html".toList (by decide) (by decide)).2.2.2
      (by decide) (by decide)⟩

/-! ## The static file handler -/

end CppServer
